import Mathlib

/-!
Verification development for the `perky` keyboard-layout optimiser.

This file gives a shallow embedding, in Lean 4, of the core of the program:

* a model of IEEE-754 binary64 arithmetic over dyadic rationals (used by
  `calculate_threshold` in `src/permutations.rs`, the scoring kernel in
  `src/scores.rs`, and the expression language in `src/expressions.rs`);
* the record-set search engine of `src/permutations.rs`
  (`calculate_threshold`, `insert_sorted`, `drop_above_threshold`,
  `drop_below_threshold`, `truncate`, `consider_record`, the sequential and
  parallel enumeration strategies and the merge step of the parallel
  reduction);
* the factorial-number-system permutation decoding of `src/util/math.rs`
  (`index_to_permutation`) and the swap-recursion generator
  (`generate_permutations_to_limit`);
* the scoring kernel of `src/scores.rs`;
* the expression language of `src/expressions.rs` (`Expression`,
  `evaluate`, `reduce`, `truthy`) and `filter_records` of `src/records.rs`;
* the deduplication step of `src/main.rs`.

Theorems at the end settle the specification claims against these models.
-/

namespace Perky

/-! ## A model of IEEE-754 binary64 ("f64") arithmetic

Every finite double is a dyadic rational `m * 2^e`.  We represent finite
values canonically (mantissa odd, or `⟨0, 0⟩` for zero) so that value
equality coincides with structural equality; `nan` and the two infinities
are separate constructors.  Negative zero is collapsed onto zero: in the
modelled code the sign of zero is never observable (`==`, `is_finite`,
truthiness and the division-by-zero guard all identify the two zeros).
Arithmetic rounds to nearest, ties to even, with subnormal quantisation at
`2^-1074` and overflow to infinity at `2^1024`.  Everything is `Int`/`Nat`
arithmetic, so concrete instances evaluate in the kernel. -/

/-- A dyadic rational `m * 2^e`. -/
structure Dyadic where
  m : Int
  e : Int
deriving DecidableEq, Repr

/-- Binary search step for `natLog2B`: maintains `2^lo ≤ n < 2^hi`. -/
def log2Go : Nat → Nat → Nat → Nat → Nat
  | 0, lo, _, _ => lo
  | fuel + 1, lo, hi, n =>
      if hi ≤ lo + 1 then lo
      else
        let mid := (lo + hi) / 2
        if 2 ^ mid ≤ n then log2Go fuel mid hi n else log2Go fuel lo mid n

/-- Base-2 logarithm `⌊log₂ n⌋` for `1 ≤ n < 2^4096`, by binary search (so
concrete instances reduce in the kernel in a handful of steps). -/
def natLog2B (n : Nat) : Nat := if n ≤ 1 then 0 else log2Go 13 0 4096 n

/-- Binary search step for `twoVal`: maintains `2^lo ∣ a` and `2^hi ∤ a`. -/
def twoValGo : Nat → Nat → Nat → Nat → Nat
  | 0, lo, _, _ => lo
  | fuel + 1, lo, hi, a =>
      if hi ≤ lo + 1 then lo
      else
        let mid := (lo + hi) / 2
        if a % 2 ^ mid = 0 then twoValGo fuel mid hi a else twoValGo fuel lo mid a

/-- The 2-adic valuation of `a`, for `1 ≤ a < 2^4096`. -/
def twoVal (a : Nat) : Nat := twoValGo 13 0 4096 a

/-- Canonical dyadic from mantissa and exponent (mantissa made odd, zero sent
to `⟨0, 0⟩`). -/
def canon (m e : Int) : Dyadic :=
  if m = 0 then ⟨0, 0⟩
  else
    let t := twoVal m.natAbs
    ⟨m / (2 ^ t : Nat), e + t⟩

/-- Decide `a / d ≥ 2^p` for naturals `a, d ≥ 1` and integer `p`. -/
def geRat (a d : Nat) (p : Int) : Bool :=
  if 0 ≤ p then decide (d * 2 ^ p.toNat ≤ a) else decide (d ≤ a * 2 ^ (-p).toNat)

/-- Binary exponent `⌊log₂ (a/d)⌋` for `a, d ≥ 1`.  The bit-length estimate
is off by at most one and is corrected by direct comparison. -/
def ratExp (a d : Nat) : Int :=
  let e0 : Int := (natLog2B a : Int) - (natLog2B d : Int)
  let e1 : Int := if geRat a d e0 then e0 else e0 - 1
  if geRat a d (e1 + 1) then e1 + 1 else e1

/-- A binary64 value: NaN, a signed infinity, or a finite value given by its
exact (canonical) dyadic value. -/
inductive F64
  | nan
  | inf (neg : Bool)
  | finite (d : Dyadic)
deriving DecidableEq, Repr

/-- Decide `m ≥ 2^p` for a natural `m` and an integer `p`. -/
def geTwoPow (m : Nat) (p : Int) : Bool :=
  if 0 ≤ p then decide (2 ^ p.toNat ≤ m) else decide (1 ≤ m)

/-- Round the exact rational `n / d` (with `d > 0`) to binary64: nearest,
ties to even, subnormals below `2^-1022`, overflow to infinity at `2^1024`.
This is the single rounding primitive of the model. -/
def roundRat (n : Int) (d : Nat) : F64 :=
  if d = 0 then .nan
  else if n = 0 then .finite ⟨0, 0⟩
  else
    let a := n.natAbs
    let E := ratExp a d
    let q : Int := max (E - 52) (-1074)
    let num := if q ≤ 0 then a * 2 ^ (-q).toNat else a
    let den := if q ≤ 0 then d else d * 2 ^ q.toNat
    let quo := num / den
    let rem := num % den
    let m :=
      if 2 * rem < den then quo
      else if den < 2 * rem then quo + 1
      else if quo % 2 = 0 then quo else quo + 1
    if geTwoPow m (1024 - q) then .inf (decide (n < 0))
    else .finite (canon (if n < 0 then -(m : Int) else (m : Int)) q)

/-- Round the exact dyadic `n * 2^e` to binary64. -/
def roundDy (n : Int) (e : Int) : F64 :=
  if 0 ≤ e then roundRat (n * ((2 ^ e.toNat : Nat) : Int)) 1
  else roundRat n (2 ^ (-e).toNat)

/-- IEEE negation. -/
def fneg : F64 → F64
  | .nan => .nan
  | .inf s => .inf (!s)
  | .finite d => .finite ⟨-d.m, if d.m = 0 then 0 else d.e⟩

/-- IEEE addition. -/
def fadd : F64 → F64 → F64
  | .nan, _ => .nan
  | _, .nan => .nan
  | .inf s, .inf t => if s = t then .inf s else .nan
  | .inf s, .finite _ => .inf s
  | .finite _, .inf t => .inf t
  | .finite a, .finite b =>
      let e := min a.e b.e
      roundDy (a.m * ((2 ^ (a.e - e).toNat : Nat) : Int) +
        b.m * ((2 ^ (b.e - e).toNat : Nat) : Int)) e

/-- IEEE subtraction. -/
def fsub (x y : F64) : F64 := fadd x (fneg y)

/-- IEEE multiplication. -/
def fmul : F64 → F64 → F64
  | .nan, _ => .nan
  | _, .nan => .nan
  | .inf s, .inf t => .inf (s != t)
  | .inf s, .finite b => if b.m = 0 then .nan else .inf (s != decide (b.m < 0))
  | .finite a, .inf t => if a.m = 0 then .nan else .inf (t != decide (a.m < 0))
  | .finite a, .finite b => roundDy (a.m * b.m) (a.e + b.e)

/-- IEEE division. -/
def fdiv : F64 → F64 → F64
  | .nan, _ => .nan
  | _, .nan => .nan
  | .inf _, .inf _ => .nan
  | .inf s, .finite b => .inf (s != decide (b.m < 0))
  | .finite _, .inf _ => .finite ⟨0, 0⟩
  | .finite a, .finite b =>
      if b.m = 0 then (if a.m = 0 then .nan else .inf (decide (a.m < 0)))
      else
        let n := if b.m < 0 then -a.m else a.m
        let k := a.e - b.e
        if 0 ≤ k then roundRat (n * ((2 ^ k.toNat : Nat) : Int)) b.m.natAbs
        else roundRat n (b.m.natAbs * 2 ^ (-k).toNat)

/-- IEEE equality (`==` on `f64`): NaN compares unequal to everything. -/
def feqB : F64 → F64 → Bool
  | .nan, _ => false
  | _, .nan => false
  | .inf s, .inf t => s = t
  | .finite a, .finite b => a = b
  | _, _ => false

/-- IEEE strict less-than: false whenever either side is NaN. -/
def fltB : F64 → F64 → Bool
  | .nan, _ => false
  | _, .nan => false
  | .inf s, .inf t => s && !t
  | .inf s, .finite _ => s
  | .finite _, .inf t => !t
  | .finite a, .finite b =>
      let e := min a.e b.e
      a.m * ((2 ^ (a.e - e).toNat : Nat) : Int) <
        b.m * ((2 ^ (b.e - e).toNat : Nat) : Int)

/-- IEEE less-or-equal. -/
def fleB (x y : F64) : Bool := fltB x y || feqB x y

/-- IEEE greater-than. -/
def fgtB (x y : F64) : Bool := fltB y x

/-- IEEE greater-or-equal. -/
def fgeB (x y : F64) : Bool := fleB y x

/-- Rust `f64::is_finite`. -/
def isFiniteB : F64 → Bool
  | .finite _ => true
  | _ => false

/-- The double 0.0 (negative zero is collapsed onto it). -/
def f64zero : F64 := .finite ⟨0, 0⟩

/-- The double 1.0. -/
def f64one : F64 := .finite ⟨1, 0⟩

/-- Largest `u64` value. -/
def U64MAX : Nat := 2 ^ 64 - 1

/-- Rust `as u64` cast from `f64`: truncation toward zero, saturating at the
`u64` range, NaN to 0. -/
def castU64 : F64 → Nat
  | .nan => 0
  | .inf s => if s then 0 else U64MAX
  | .finite d =>
      if d.m ≤ 0 then 0
      else if 0 ≤ d.e then min U64MAX (d.m.toNat * 2 ^ d.e.toNat)
      else min U64MAX (d.m.toNat / 2 ^ (-d.e).toNat)

/-- Rust `as f64` conversion from `u64` (round to nearest). -/
def u64ToF64 (n : Nat) : F64 := roundRat (n : Int) 1

/-- Rust `f64::floor` (exact on finite doubles). -/
def floorF64 : F64 → F64
  | .finite d =>
      if 0 ≤ d.e then .finite d
      else .finite (canon (Int.fdiv d.m ((2 ^ (-d.e).toNat : Nat) : Int)) 0)
  | x => x

/-- Rust `f64::ceil` (exact on finite doubles). -/
def ceilF64 : F64 → F64
  | .finite d =>
      if 0 ≤ d.e then .finite d
      else .finite (canon (-(Int.fdiv (-d.m) ((2 ^ (-d.e).toNat : Nat) : Int))) 0)
  | x => x

/-- Rust `f64::clamp(0.0, 1.0)` (NaN propagates). -/
def clamp01 (x : F64) : F64 :=
  match x with
  | .nan => .nan
  | .inf s => if s then .finite ⟨0, 0⟩ else .finite ⟨1, 0⟩
  | .finite d =>
      if d.m < 0 then .finite ⟨0, 0⟩
      else if fltB f64one x then .finite ⟨1, 0⟩ else x

/-! ## The search goal and the admission threshold (src/permutations.rs) -/

/-- Optimisation goal (`goals.rs`). -/
inductive Goal
  | Max
  | Min
deriving DecidableEq, Repr

/-- Embedding of `calculate_threshold` (`permutations.rs`, lines 16-29).
All floating-point steps go through the binary64 model. -/
def calculate_threshold (goal : Goal) (best : Nat) (tolerance : F64) : Nat :=
  if feqB tolerance f64one then best
  else
    match goal with
    | .Max =>
        if feqB tolerance f64zero then 0
        else castU64 (floorF64 (fmul (u64ToF64 best) tolerance))
    | .Min =>
        if feqB tolerance f64zero then U64MAX
        else castU64 (ceilF64 (fdiv (u64ToF64 best) tolerance))


/-! ## Record-set engine (src/permutations.rs)

Entries are `(score, index, matrix)` triples; the record deque is a list
(front of the `VecDeque` = head of the list).  The matrix type is a
parameter `α`, mirroring the generic `[[u8; C]; R]`. -/

/-- A record-set entry `(score, index, matrix)`. -/
structure Entry (α : Type) where
  score : Nat
  index : Nat
  matrix : α
deriving DecidableEq, Repr

/-- Embedding of `drop_above_threshold` (`permutations.rs`, lines 31-42):
pop entries from the front while their score exceeds the threshold. -/
def drop_above_threshold (records : List (Entry α)) (threshold : Nat) : List (Entry α) :=
  records.dropWhile fun e => decide (threshold < e.score)

/-- Embedding of `drop_below_threshold` (lines 44-55): pop entries from the
back while their score is below the threshold. -/
def drop_below_threshold (records : List (Entry α)) (threshold : Nat) : List (Entry α) :=
  (records.reverse.dropWhile fun e => decide (e.score < threshold)).reverse

/-- The strict `(score descending, index ascending)` precedence used by
`insert_sorted`'s binary search comparator. -/
def entryBefore (score index : Nat) (e : Entry α) : Bool :=
  decide (e.score < score) || (decide (score = e.score) && decide (index < e.index))

/-- Embedding of `insert_sorted` (lines 57-76).  On a deque sorted by
`(score descending, index ascending)` the source's `binary_search_by`
(with `Ok(i) ↦ i + 1`, `Err(i) ↦ i`) inserts exactly at the first position
whose entry the new triple strictly precedes; this ordered insertion is that
position. -/
def insert_sorted : List (Entry α) → Nat → Nat → α → List (Entry α)
  | [], score, index, matrix => [⟨score, index, matrix⟩]
  | e :: rest, score, index, matrix =>
      if entryBefore score index e then ⟨score, index, matrix⟩ :: e :: rest
      else e :: insert_sorted rest score index matrix

/-- Embedding of `truncate` (lines 78-100): `Max` keeps the first
`max_records` entries, `Min` drains the front so that the last
`max_records` remain. -/
def truncate (records : List (Entry α)) (goal : Goal) (maxRecordsOpt : Option Nat) :
    List (Entry α) :=
  match maxRecordsOpt with
  | none => records
  | some maxRecords =>
      match goal with
      | .Max => records.take maxRecords
      | .Min =>
          if records.length ≤ maxRecords then records
          else records.drop (records.length - maxRecords)

/-- The mutable search state threaded through `consider_record`:
`(records, best_score, threshold_score)`. -/
structure SearchState (α : Type) where
  records : List (Entry α)
  best_score : Nat
  threshold_score : Nat
deriving DecidableEq, Repr

/-- Embedding of `consider_record` (lines 102-139). -/
def consider_record (goal : Goal) (tolerance : F64) (maxRecordsOpt : Option Nat)
    (matrix : α) (score index : Nat) (st : SearchState α) : SearchState α :=
  match goal with
  | .Max =>
      let st1 : SearchState α :=
        if st.best_score < score then
          let t := calculate_threshold .Max score tolerance
          ⟨drop_below_threshold st.records t, score, t⟩
        else st
      if st1.threshold_score ≤ score then
        ⟨truncate (insert_sorted st1.records score index matrix) .Max maxRecordsOpt,
          st1.best_score, st1.threshold_score⟩
      else st1
  | .Min =>
      let st1 : SearchState α :=
        if score < st.best_score then
          let t := calculate_threshold .Min score tolerance
          ⟨drop_above_threshold st.records t, score, t⟩
        else st
      if score ≤ st1.threshold_score then
        ⟨truncate (insert_sorted st1.records score index matrix) .Min maxRecordsOpt,
          st1.best_score, st1.threshold_score⟩
      else st1

/-- The initial `best_score` of a search (`Max ↦ 0`, `Min ↦ u64::MAX`). -/
def initial_score : Goal → Nat
  | .Max => 0
  | .Min => U64MAX

/-- The initial worker state (empty deque, initial score, its threshold). -/
def init_state (goal : Goal) (tolerance : F64) : SearchState α :=
  ⟨[], initial_score goal, calculate_threshold goal (initial_score goal) tolerance⟩

/-- The merge comparator of the parallel reduction (line 402):
`(s1 > s2) || (s1 == s2 && i1 <= i2)` takes from the left deque. -/
def entryTakeLeft (e1 e2 : Entry α) : Bool :=
  decide (e2.score < e1.score) || (decide (e1.score = e2.score) && decide (e1.index ≤ e2.index))

/-- Fuelled two-list merge under `entryTakeLeft`.  The fuel is only there to
make the recursion structural (hence kernel-reducible); it is always called
with fuel `≥ |left| + |right|`, where the fallback arm is unreachable. -/
def mergeF : Nat → List (Entry α) → List (Entry α) → List (Entry α)
  | _, [], right => right
  | _, left, [] => left
  | 0, left, right => left ++ right
  | fuel + 1, e1 :: l, e2 :: r =>
      if entryTakeLeft e1 e2 then e1 :: mergeF fuel l (e2 :: r)
      else e2 :: mergeF fuel (e1 :: l) r

/-- Merge of two record deques in `(score descending, index ascending)`
order, as performed by the loop of the parallel reduction. -/
def merge_lists (left right : List (Entry α)) : List (Entry α) :=
  mergeF (left.length + right.length) left right

/-- Embedding of the combiner of the parallel reduction
(`permute_and_substitute_parallel`, lines 355-435).  The source's merge loop
stops early once `max_records` entries are merged and otherwise drains the
leftover lists in order (left first) up to `max_records`; on sorted inputs
that equals truncating the full merge, which is how the capped branch is
written here. -/
def reduce_combine (goal : Goal) (maxRecordsOpt : Option Nat)
    (s t : SearchState α) : SearchState α :=
  let pick : Bool :=
    match goal with
    | .Max => decide (t.best_score ≤ s.best_score)
    | .Min => decide (s.best_score ≤ t.best_score)
  let left := if pick then s.records else t.records
  let right := if pick then t.records else s.records
  let best := if pick then s.best_score else t.best_score
  let thr := if pick then s.threshold_score else t.threshold_score
  let leftPruned :=
    match goal with
    | .Max => drop_below_threshold left thr
    | .Min => drop_above_threshold left thr
  let rightPruned :=
    match goal with
    | .Max => drop_below_threshold right thr
    | .Min => drop_above_threshold right thr
  let merged :=
    match maxRecordsOpt with
    | some cap => (merge_lists leftPruned rightPruned).take cap
    | none => merge_lists leftPruned rightPruned
  ⟨merged, best, thr⟩

/-! ## Permutation enumeration (src/util/math.rs) -/

/-- Embedding of `factorial` (`math.rs`, lines 48-50). -/
def factorial (n : Nat) : Nat := Nat.factorial n

/-- Body of `index_to_permutation`, with the list length as structural fuel:
at each step `f = (len - 1)!`, the element at `index / f` is removed from
the pool and emitted, and decoding continues with `index % f`. -/
def idx2permF : Nat → Nat → List α → List α
  | 0, _, _ => []
  | fuel + 1, index, input =>
      let f := factorial (input.length - 1)
      let pos := index / f
      match input[pos]? with
      | none => []
      | some a => a :: idx2permF fuel (index % f) (input.eraseIdx pos)

/-- Embedding of `index_to_permutation` (`math.rs`, lines 52-69); the
in-place variant (lines 71-116) computes the same factorial-number-system
decoding with a running divisor, so it is modelled by the same function. -/
def index_to_permutation (index : Nat) (input : List α) : List α :=
  idx2permF input.length index input

/-- Swap positions `0` and `i` of a list (the `slice.swap(start, i)` of the
swap-recursion generator). -/
def swapAt0 (l : List α) (i : Nat) : List α :=
  if i = 0 then l
  else
    match l, l[i]? with
    | x :: t, some y => y :: t.set (i - 1) x
    | _, _ => l

/-- Body of the swap-recursion permutation generator
(`generate_permutations_to_limit`, `math.rs` lines 125-152), as the list of
emitted permutations in emission order: for each `i`, swap element `i` to
the front and recurse on the tail.  The fuel is the list length. -/
def swapPermsF : Nat → List α → List (List α)
  | 0, _ => [[]]
  | fuel + 1, l =>
      (List.range l.length).flatMap fun i =>
        match swapAt0 l i with
        | [] => [[]]
        | h :: t => (swapPermsF fuel t).map (h :: ·)

/-- The permutations of `l` in the order the sequential swap-recursion
generator emits them.  The generator's early-stop callback is modelled at
the call site by truncating this list (`List.take`), which is exactly the
prefix the callback allows. -/
def generate_permutations_list (l : List α) : List (List α) :=
  swapPermsF l.length l

/-! ## The permutation engine (src/permutations.rs, lines 160-534)

Key matrices are lists of rows of bytes.  A region is its substitution pool
together with the target coordinates; the source's `([u8; N], usize,
&[(usize, usize)])` with its `length.min(N)` clamps and `coordinates
[..length]` slicing is modelled by the two lists themselves (the zip with
the pool truncates the coordinates exactly as the slicing does).  The
progress callback and the per-batch sleep have no effect on the result and
are not modelled; `u64` saturation of the total-permutation product is not
modelled (all claims are evaluated far below `u64::MAX`). -/

/-- A key matrix (rows of byte values). -/
abbrev KeyMatrix := List (List Nat)

/-- A substitution region: character pool and target coordinates. -/
structure Region where
  pool : List Nat
  coords : List (Nat × Nat)
deriving DecidableEq, Repr

/-- Write value `v` at `matrix[r][c]` (in-bounds writes only, as in the
source where coordinates always address the matrix). -/
def set_cell (mrx : KeyMatrix) (r c v : Nat) : KeyMatrix :=
  mrx.mapIdx fun i row => if i = r then row.mapIdx (fun j x => if j = c then v else x) else row

/-- Write a permuted pool into a region's coordinates
(`matrix[r][c] = p[i]` for each coordinate). -/
def write_region (mrx : KeyMatrix) (coords : List (Nat × Nat)) (vals : List Nat) : KeyMatrix :=
  (coords.zip vals).foldl (fun acc p => set_cell acc p.1.1 p.1.2 p.2) mrx

/-- Materialise a candidate matrix: copy the base and substitute the three
permuted pools into their regions, in region order. -/
def substitute (base : KeyMatrix) (r1 r2 r3 : Region)
    (p1 p2 p3 : List Nat) : KeyMatrix :=
  write_region (write_region (write_region base r1.coords p1) r2.coords p2) r3.coords p3

/-- Nested sequential enumeration of the three regions' permutation triples,
in swap-generator order (region 1 outermost). -/
def seq_triples (r1 r2 r3 : Region) : List (List Nat × List Nat × List Nat) :=
  (generate_permutations_list r1.pool).flatMap fun p1 =>
    (generate_permutations_list r2.pool).flatMap fun p2 =>
      (generate_permutations_list r3.pool).map fun p3 => (p1, p2, p3)

/-- Fold `consider_record` over a list of `(index, matrix)` work items. -/
def run_fold (goal : Goal) (tolerance : F64) (maxRecordsOpt : Option Nat)
    (scoring_fn : KeyMatrix → Nat) (items : List (Nat × KeyMatrix)) :
    SearchState KeyMatrix :=
  items.foldl
    (fun st it => consider_record goal tolerance maxRecordsOpt it.2 (scoring_fn it.2) it.1 st)
    (init_state goal tolerance)

/-- Total size of the permutation space `N₁! · N₂! · N₃!`. -/
def total_permutations (r1 r2 r3 : Region) : Nat :=
  factorial r1.pool.length * factorial r2.pool.length * factorial r3.pool.length

/-- Embedding of `permute_and_substitute_sequential` (lines 444-534):
enumerate the triple product in swap-generator order, assign enumeration
indices from the running counter, stop after `max_permutations` items, and
fold `consider_record`.  Returns `(n_permutations, permutations_truncated,
matrices)`. -/
def permute_and_substitute_sequential (scoring_fn : KeyMatrix → Nat) (goal : Goal)
    (tolerance : F64) (maxPermutationsOpt maxRecordsOpt : Option Nat)
    (base : KeyMatrix) (r1 r2 r3 : Region) : Nat × Bool × List KeyMatrix :=
  let tol := clamp01 tolerance
  let total := total_permutations r1 r2 r3
  let ptrunc :=
    match maxPermutationsOpt with
    | some p => decide (p < total)
    | none => false
  let triples :=
    match maxPermutationsOpt with
    | some p => (seq_triples r1 r2 r3).take p
    | none => seq_triples r1 r2 r3
  let items := triples.enum.map fun it =>
    (it.1, substitute base r1 r2 r3 it.2.1 it.2.2.1 it.2.2.2)
  let st := run_fold goal tol maxRecordsOpt scoring_fn items
  (items.length, ptrunc, st.records.map (·.matrix))

/-- Decode a parallel range index into its candidate matrix
(`index1 = i / (N₂!·N₃!)`, `index2 = (i / N₃!) mod N₂!`, `index3 = i mod
N₃!`, each decoded through the factorial number system). -/
def par_index_matrix (base : KeyMatrix) (r1 r2 r3 : Region) (i : Nat) : KeyMatrix :=
  let t2 := factorial r2.pool.length
  let t3 := factorial r3.pool.length
  substitute base r1 r2 r3
    (index_to_permutation (i / (t2 * t3)) r1.pool)
    (index_to_permutation (i / t3 % t2) r2.pool)
    (index_to_permutation (i % t3) r3.pool)

/-- One parallel worker's fold over its chunk of range indices
(the `fold` closure of lines 261-345). -/
def par_fold_chunk (scoring_fn : KeyMatrix → Nat) (goal : Goal) (tolerance : F64)
    (maxRecordsOpt : Option Nat) (base : KeyMatrix) (r1 r2 r3 : Region)
    (indices : List Nat) : SearchState KeyMatrix :=
  indices.foldl
    (fun st i =>
      let m := par_index_matrix base r1 r2 r3 i
      consider_record goal tolerance maxRecordsOpt m (scoring_fn m) i st)
    (init_state goal tolerance)

/-- Embedding of `permute_and_substitute_parallel` (lines 219-442).  Rayon
splits the range `0..min(N, P_max)` into chunks, folds each chunk, then
combines the partial states with `reduce_combine`; the chunking (and hence
the thread count) is a parameter here, and a run over the whole range with
one chunk is the single-thread instance. -/
def permute_and_substitute_parallel (scoring_fn : KeyMatrix → Nat) (goal : Goal)
    (tolerance : F64) (maxPermutationsOpt maxRecordsOpt : Option Nat)
    (base : KeyMatrix) (r1 r2 r3 : Region) (chunks : List (List Nat)) :
    Nat × Bool × List KeyMatrix :=
  let tol := clamp01 tolerance
  let total := total_permutations r1 r2 r3
  let ptrunc :=
    match maxPermutationsOpt with
    | some p => decide (p < total)
    | none => false
  let st := (chunks.map (par_fold_chunk scoring_fn goal tol maxRecordsOpt base r1 r2 r3)).foldl
    (reduce_combine goal maxRecordsOpt) (init_state goal tol)
  ((chunks.map List.length).sum, ptrunc, st.records.map (·.matrix))

/-- Embedding of the driver `permute_and_substitute` (lines 160-217): bump
the record cap by one, run the selected variant, then pop the overflow
entry and report whether truncation occurred. -/
def permute_and_substitute (scoring_fn : KeyMatrix → Nat) (goal : Goal)
    (tolerance : F64) (maxPermutationsOpt maxRecordsOpt : Option Nat)
    (parallelize : Bool) (chunks : List (List Nat))
    (base : KeyMatrix) (r1 r2 r3 : Region) : Nat × Bool × List KeyMatrix × Bool :=
  let capOpt := maxRecordsOpt.map (· + 1)
  let res :=
    if parallelize then
      permute_and_substitute_parallel scoring_fn goal tolerance maxPermutationsOpt capOpt
        base r1 r2 r3 chunks
    else
      permute_and_substitute_sequential scoring_fn goal tolerance maxPermutationsOpt capOpt
        base r1 r2 r3
  let records := res.2.2
  let rtrunc :=
    match capOpt with
    | some maxRecords => decide (maxRecords ≤ records.length)
    | none => false
  (res.1, res.2.1, if rtrunc then records.dropLast else records, rtrunc)


/-! ## Scoring kernel (src/scores.rs)

Fingerings carry only the fields the scoring kernel reads: positions and the
effort (the digit fields of `Fingering` are never consulted by `scores.rs`).
N-gram tables are index functions; `u8` cell values are embedded as naturals
read modulo 256.  The `u64` accumulators wrap, which is modelled by reducing
each addition modulo `2^64`. -/

/-- Modulus of `u64` arithmetic. -/
def U64MOD : Nat := 2 ^ 64

/-- A unigram fingering: position and effort. -/
abbrev UnigramFingering := (Nat × Nat) × F64

/-- A bigram fingering: two positions and a transition effort. -/
abbrev BigramFingering := (Nat × Nat) × (Nat × Nat) × F64

/-- A unigram table (256 cells in the source; an index function here). -/
abbrev UnigramTable := Nat → Nat

/-- A bigram table (65536 cells in the source; an index function here). -/
abbrev BigramTable := Nat → Nat

/-- Read the byte at `matrix[r][c]` (`u8`, hence modulo 256). -/
def read_cell (mrx : KeyMatrix) (r c : Nat) : Nat :=
  ((mrx.getD r []).getD c 0) % 256

/-- The packed bigram key `(b1 as u16) << 8 | b2` (`ngrams.rs`, lines
117-122). -/
def bigram_key (b1 b2 : Nat) : Nat := b1 * 256 + b2

/-- The effort-weighted value `(value as f64 * effort) as u64` of one
n-gram instance. -/
def value_ew (value : Nat) (effort : F64) : Nat :=
  castU64 (fmul (u64ToF64 value) effort)

/-- Embedding of `score_uf` (`scores.rs`, lines 62-77): key, raw table
value, and the effort-weighted value. -/
def score_uf (uf : UnigramFingering) (mrx : KeyMatrix) (table : UnigramTable) :
    Nat × Nat × Nat :=
  let key := read_cell mrx uf.1.1 uf.1.2
  let value := table key
  (key, value, value_ew value uf.2)

/-- Embedding of `score_bfs_without_details_unsafe` (`scores.rs`, lines
232-251): a loop over the fingering slice accumulating the raw and
effort-weighted sums in wrapping `u64` arithmetic. -/
def score_bfs_without_details_unchecked (bfs : List BigramFingering)
    (mrx : KeyMatrix) (table : BigramTable) : Nat × Nat :=
  bfs.foldl
    (fun acc bf =>
      let b1 := read_cell mrx bf.1.1 bf.1.2
      let b2 := read_cell mrx bf.2.1.1 bf.2.1.2
      let value := table (bigram_key b1 b2)
      ((acc.1 + value) % U64MOD, (acc.2 + value_ew value bf.2.2) % U64MOD))
    (0, 0)

/-- The raw table value of one bigram fingering on a matrix (the per-term
`T[key(f)]` of the effort sum). -/
def bf_raw (mrx : KeyMatrix) (table : BigramTable) (bf : BigramFingering) : Nat :=
  table (bigram_key (read_cell mrx bf.1.1 bf.1.2) (read_cell mrx bf.2.1.1 bf.2.1.2))

/-- The effort-weighted value of one bigram fingering on a matrix (the
per-term `⌊T[key(f)] · effort(f)⌋`, truncated after the double-precision
multiplication). -/
def bf_ew (mrx : KeyMatrix) (table : BigramTable) (bf : BigramFingering) : Nat :=
  value_ew (bf_raw mrx table bf) bf.2.2

/-! ## Expression language (src/expressions.rs)

Only the evaluator-facing part is embedded (the abstract syntax, `truthy`,
`evaluate` and `reduce`); the lexer and parser are not needed by the claims
settled here.  Symbol tables are partial maps from names to values. -/

/-- Unary operators. -/
inductive UnaryOperator
  | Negate
  | Not
deriving DecidableEq, Repr

/-- Binary operators. -/
inductive BinaryOperator
  | Add
  | Sub
  | Mul
  | Div
  | Eq
  | Neq
  | Lt
  | Le
  | Gt
  | Ge
  | And
  | Or
deriving DecidableEq, Repr

/-- Expressions (`expressions.rs`, lines 413-427). -/
inductive Expression
  | Name (s : String)
  | Number (n : F64)
  | Boolean (b : Bool)
  | Unary (operator : UnaryOperator) (expression : Expression)
  | Binary (left : Expression) (operator : BinaryOperator) (right : Expression)
deriving DecidableEq, Repr

/-- Values (`expressions.rs`, lines 451-455). -/
inductive Value
  | Boolean (b : Bool)
  | Number (n : F64)
deriving DecidableEq, Repr

/-- Evaluation errors (`expressions.rs`, lines 484-489). -/
inductive EvalError
  | DivisionByZero
  | TypeMismatch
  | UndefinedVariable (name : String)
deriving DecidableEq, Repr

/-- Embedding of `truthy` (lines 770-776): booleans are themselves, numbers
are truthy iff finite and nonzero. -/
def truthy : Value → Bool
  | .Boolean b => b
  | .Number n => isFiniteB n && !feqB n f64zero

/-- A symbol table (`HashMap<String, Value>`). -/
abbrev SymbolTable := String → Option Value

/-- Embedding of `Expression::evaluate` (lines 634-709). -/
def evaluate : Expression → SymbolTable → Except EvalError Value
  | .Name s, env =>
      match env s with
      | some v => .ok v
      | none => .error (.UndefinedVariable s)
  | .Number n, _ => .ok (.Number n)
  | .Boolean b, _ => .ok (.Boolean b)
  | .Unary op e, env => do
      let v ← evaluate e env
      match op, v with
      | .Negate, .Number n => .ok (.Number (fneg n))
      | .Not, .Boolean b => .ok (.Boolean !b)
      | .Not, .Number n => .ok (.Boolean !(truthy (.Number n)))
      | _, _ => .error .TypeMismatch
  | .Binary l op r, env =>
      match op with
      | .And => do
          let lv ← evaluate l env
          let lb := truthy lv
          if !lb then .ok (.Boolean false)
          else do
            let rv ← evaluate r env
            .ok (.Boolean (lb && truthy rv))
      | .Or => do
          let lv ← evaluate l env
          let lb := truthy lv
          if lb then .ok (.Boolean true)
          else do
            let rv ← evaluate r env
            .ok (.Boolean (lb || truthy rv))
      | _ => do
          let lv ← evaluate l env
          let rv ← evaluate r env
          match lv, rv, op with
          | .Number a, .Number b, .Add => .ok (.Number (fadd a b))
          | .Number a, .Number b, .Sub => .ok (.Number (fsub a b))
          | .Number a, .Number b, .Mul => .ok (.Number (fmul a b))
          | .Number a, .Number b, .Div =>
              if feqB b f64zero then .error .DivisionByZero
              else .ok (.Number (fdiv a b))
          | .Number a, .Number b, .Eq => .ok (.Boolean (feqB a b))
          | .Number a, .Number b, .Neq => .ok (.Boolean !(feqB a b))
          | .Number a, .Number b, .Lt => .ok (.Boolean (fltB a b))
          | .Number a, .Number b, .Le => .ok (.Boolean (fleB a b))
          | .Number a, .Number b, .Gt => .ok (.Boolean (fgtB a b))
          | .Number a, .Number b, .Ge => .ok (.Boolean (fgeB a b))
          | _, _, _ => .error .TypeMismatch

/-- The unary-operator folding of `Expression::reduce` (lines 533-554),
applied to an already-reduced operand. -/
def reduceUnary (op : UnaryOperator) (reduced : Expression) : Expression :=
  match op, reduced with
  | .Negate, .Number n => .Number (fneg n)
  | .Not, .Number n => .Boolean !(truthy (.Number n))
  | .Not, .Boolean b => .Boolean !b
  | .Not, .Unary .Not inner => inner
  | _, _ => .Unary op reduced

/-- The binary-operator folding of `Expression::reduce` (lines 556-630),
applied to already-reduced operands.  The nested conditionals reproduce the
arm order of the source's `match`, including the fall-through of the guarded
arms (the two `(Number, Number, And/Or)` arms at the end coincide with what
the guarded arms already produce, so those shapes are folded directly). -/
def reduceBinary (l : Expression) (op : BinaryOperator) (r : Expression) : Expression :=
  match l, r, op with
  | .Number a, .Number b, .Add => .Number (fadd a b)
  | .Number a, .Number b, .Sub => .Number (fsub a b)
  | .Number a, .Number b, .Mul => .Number (fmul a b)
  | .Number a, .Number b, .Div =>
      if !isFiniteB b || feqB b f64zero then .Binary l op r else .Number (fdiv a b)
  | .Number a, .Number b, .Eq => .Boolean (feqB a b)
  | .Number a, .Number b, .Neq => .Boolean !(feqB a b)
  | .Number a, .Number b, .Lt => .Boolean (fltB a b)
  | .Number a, .Number b, .Le => .Boolean (fleB a b)
  | .Number a, .Number b, .Gt => .Boolean (fgtB a b)
  | .Number a, .Number b, .Ge => .Boolean (fgeB a b)
  | .Boolean a, .Boolean b, .And => .Boolean (a && b)
  | .Boolean a, .Boolean b, .Or => .Boolean (a || b)
  | .Boolean a, .Number b, .And => .Boolean (a && truthy (.Number b))
  | .Boolean a, .Number b, .Or => .Boolean (a || truthy (.Number b))
  | .Number a, .Boolean b, .And => .Boolean (truthy (.Number a) && b)
  | .Number a, .Boolean b, .Or => .Boolean (truthy (.Number a) || b)
  | .Number a, .Number b, .And => .Boolean (truthy (.Number a) && truthy (.Number b))
  | .Number a, .Number b, .Or => .Boolean (truthy (.Number a) || truthy (.Number b))
  | .Number a, _, .And =>
      if !truthy (.Number a) then .Boolean false else .Binary l op r
  | .Number a, _, .Or =>
      if truthy (.Number a) then .Boolean true else .Binary l op r
  | _, .Number b, .And =>
      if !truthy (.Number b) then .Boolean false
      else if l = .Boolean false then .Boolean false else .Binary l op r
  | _, .Number b, .Or =>
      if truthy (.Number b) then .Boolean true
      else if l = .Boolean true then .Boolean true else .Binary l op r
  | .Boolean false, _, .And => .Boolean false
  | .Boolean true, _, .Or => .Boolean true
  | _, .Boolean false, .And => .Boolean false
  | _, .Boolean true, .Or => .Boolean true
  | _, _, _ => .Binary l op r

/-- Embedding of `Expression::reduce` (lines 528-632): reduce the children,
then fold the node when its operands are statically known. -/
def reduce : Expression → Expression
  | .Name s => .Name s
  | .Number n => .Number n
  | .Boolean b => .Boolean b
  | .Unary op e => reduceUnary op (reduce e)
  | .Binary l op r => reduceBinary (reduce l) op (reduce r)

/-! ## Record filtering (src/records.rs, lines 289-313)

For filtering, a record is represented by its symbol table: the source
builds the table from the record's measurements (`build_symbol_table`) and
the filter loop consults nothing else.  The in-place `normalize` of
retained records rearranges measurement details and does not affect which
records are retained. -/

/-- The per-record filter loop: `Ok(Number(0.0))` or `Ok(Boolean(false))`
drops the record, any other `Ok` continues, the first `Err` aborts. -/
def record_passes (filters : List Expression) (env : SymbolTable) :
    Except EvalError Bool :=
  match filters with
  | [] => .ok true
  | f :: rest =>
      match evaluate f env with
      | .ok (.Number n) => if feqB n f64zero then .ok false else record_passes rest env
      | .ok (.Boolean b) => if !b then .ok false else record_passes rest env
      | .error e => .error e

/-- Embedding of `filter_records`: records are processed in order, dropped
records are skipped, and the first evaluation error aborts the whole
filtering (`collect::<Result<_, _>>` short-circuits). -/
def filter_records (records : List SymbolTable) (filters : List Expression) :
    Except EvalError (List SymbolTable) :=
  match records with
  | [] => .ok []
  | r :: rest =>
      if filters.isEmpty then
        match filter_records rest filters with
        | .ok kept => .ok (r :: kept)
        | .error e => .error e
      else
        match record_passes filters r with
        | .ok true =>
            match filter_records rest filters with
            | .ok kept => .ok (r :: kept)
            | .error e => .error e
        | .ok false => filter_records rest filters
        | .error e => .error e

/-- The drop test of the filter loop: `Ok(Number(n))` with `n == 0.0` and
`Ok(Boolean(false))` drop the record (note: non-finite numbers are not
dropped, unlike `truthy`). -/
def drops_value : Value → Bool
  | .Number n => feqB n f64zero
  | .Boolean b => !b

/-- Node count of an expression (payloads ignored). -/
def esize : Expression → Nat
  | .Name _ => 1
  | .Number _ => 1
  | .Boolean _ => 1
  | .Unary _ e => esize e + 1
  | .Binary l _ r => esize l + esize r + 1

/-- The result relation of constant reduction: the reduced value has the
original's truthiness, and is either identical or (via the `!!x → x` rule)
a number whose truthiness the original boolean carried. -/
def value_rel (orig red : Value) : Prop :=
  truthy red = truthy orig ∧ (red = orig ∨ orig = .Boolean (truthy red))

/-! ## Deduplication (src/main.rs, lines 768-774) -/

/-- Embedding of the driver's deduplication:
`let mut seen = HashSet::new(); v.retain(|k| seen.insert(k.clone()))` keeps
an element iff it was not seen earlier in the traversal.  The seen-set is
the list of kept elements (membership in both is the same predicate). -/
def dedup_retain [DecidableEq β] (l : List β) : List β :=
  (l.foldl (fun kept x => if x ∈ kept then kept else kept ++ [x]) [])

/-- Fuelled body of `dedup_first` (fuel bounds the list length, keeping the
recursion structural). -/
def dedup_firstF [DecidableEq β] : Nat → List β → List β
  | 0, _ => []
  | _, [] => []
  | fuel + 1, x :: t => x :: dedup_firstF fuel (t.filter (· ≠ x))

/-- Reference form of first-occurrence deduplication: keep the head, then
drop its later duplicates and continue. -/
def dedup_first [DecidableEq β] (l : List β) : List β :=
  dedup_firstF l.length l


/-! ## Specification-level predicates used by the theorems -/

/-- Score `s` is on the goal-favoured side of threshold `t`. -/
def goal_satisfies (goal : Goal) (s t : Nat) : Prop :=
  match goal with
  | .Max => t ≤ s
  | .Min => s ≤ t

instance (goal : Goal) (s t : Nat) : Decidable (goal_satisfies goal s t) := by
  cases goal <;> simp only [goal_satisfies] <;> infer_instance

/-- The non-strict `(score descending, index ascending)` order on entries. -/
def entryLE (a b : Entry α) : Prop :=
  b.score < a.score ∨ (a.score = b.score ∧ a.index ≤ b.index)

instance (a b : Entry α) : Decidable (entryLE a b) := by
  unfold entryLE; infer_instance

/-- A record deque sorted by `(score descending, index ascending)`. -/
def sorted_records (l : List (Entry α)) : Prop := l.Pairwise entryLE

/-- All retained entries satisfy the goal against the current threshold. -/
def entries_ok (goal : Goal) (st : SearchState α) : Prop :=
  ∀ e ∈ st.records, goal_satisfies goal e.score st.threshold_score

/-- The stored threshold is the threshold of the stored best score. -/
def threshold_linked (goal : Goal) (tolerance : F64) (st : SearchState α) : Prop :=
  st.threshold_score = calculate_threshold goal st.best_score tolerance

/-- Entry scores record the scoring function's value on their matrix. -/
def scores_match (f : α → Nat) (st : SearchState α) : Prop :=
  ∀ e ∈ st.records, e.score = f e.matrix

/-- The search-state invariant maintained by `consider_record` and by the
parallel reduction. -/
def search_inv (goal : Goal) (tolerance : F64) (f : α → Nat) (st : SearchState α) : Prop :=
  sorted_records st.records ∧ entries_ok goal st ∧ threshold_linked goal tolerance st ∧
    scores_match f st

/-! ## Theorems

Helper lemmas come first, then one theorem per claim (witnesses and
counterexamples named after their claim). -/

section DedupLemmas

variable {β : Type} [DecidableEq β]

/-- Fuel irrelevance for `dedup_firstF` above the list length. -/
theorem dedup_firstF_congr : ∀ (f1 f2 : Nat) (l : List β), l.length ≤ f1 → l.length ≤ f2 →
    dedup_firstF f1 l = dedup_firstF f2 l := by
  intro f1
  induction f1 with
  | zero =>
    intro f2 l h1 _
    have : l = [] := List.length_eq_zero.mp (Nat.le_zero.mp h1)
    subst this
    cases f2 <;> rfl
  | succ n ih =>
    intro f2 l h1 h2
    match l, f2 with
    | [], 0 => rfl
    | [], k + 1 => rfl
    | x :: t, k + 1 =>
      simp only [dedup_firstF, List.cons.injEq, true_and]
      exact ih k _ (le_trans (List.length_filter_le _ _) (Nat.lt_succ_iff.mp h1))
        (le_trans (List.length_filter_le _ _) (Nat.lt_succ_iff.mp h2))
    | x :: t, 0 => simp at h2

/-- Unfolding equation of `dedup_first` on a cons cell. -/
theorem dedup_first_cons (x : β) (t : List β) :
    dedup_first (x :: t) = x :: dedup_first (t.filter (· ≠ x)) := by
  simp only [dedup_first, List.length_cons, dedup_firstF]
  exact congrArg _ (dedup_firstF_congr _ _ _ (List.length_filter_le _ _) le_rfl)

/-- The fold of `dedup_retain` keeps exactly the first occurrences of the
elements not already in the accumulator. -/
theorem dedup_retain_go (l : List β) : ∀ kept : List β,
    l.foldl (fun kept x => if x ∈ kept then kept else kept ++ [x]) kept =
      kept ++ dedup_first (l.filter (· ∉ kept)) := by
  induction l with
  | nil => intro kept; simp [dedup_first, dedup_firstF]
  | cons x t ih =>
    intro kept
    by_cases hx : x ∈ kept
    · rw [List.foldl_cons, if_pos hx, ih, List.filter_cons]
      simp [hx]
    · rw [List.foldl_cons, if_neg hx, ih, List.filter_cons]
      have hd : (decide (x ∉ kept)) = true := by simp [hx]
      rw [hd]
      simp only [if_true]
      rw [dedup_first_cons]
      simp only [List.append_assoc, List.singleton_append]
      congr 2
      rw [List.filter_filter]
      apply congrArg
      apply List.filter_congr
      intro a _
      by_cases ha : a = x
      · subst ha; simp
      · by_cases hk : a ∈ kept <;> simp [ha, hk]

/-- The first-occurrence deduplication is a sublist of its input. -/
theorem dedup_firstF_sublist : ∀ (fuel : Nat) (l : List β),
    List.Sublist (dedup_firstF fuel l) l := by
  intro fuel
  induction fuel with
  | zero => intro l; cases l <;> simp [dedup_firstF]
  | succ n ih =>
    intro l
    match l with
    | [] => exact List.Sublist.refl []
    | x :: t =>
      exact List.Sublist.cons₂ x (List.Sublist.trans (ih _) (List.filter_sublist t))

/-- The first-occurrence deduplication has no duplicates. -/
theorem dedup_firstF_nodup : ∀ (fuel : Nat) (l : List β), (dedup_firstF fuel l).Nodup := by
  intro fuel
  induction fuel with
  | zero => intro l; cases l <;> simp [dedup_firstF]
  | succ n ih =>
    intro l
    match l with
    | [] => exact List.nodup_nil
    | x :: t =>
      refine List.nodup_cons.mpr ⟨?_, ih _⟩
      intro hx
      have := (dedup_firstF_sublist n _).subset hx
      simp at this

/-- The first-occurrence deduplication retains every element of its input. -/
theorem dedup_firstF_mem : ∀ (fuel : Nat) (l : List β), l.length ≤ fuel →
    ∀ x ∈ l, x ∈ dedup_firstF fuel l := by
  intro fuel
  induction fuel with
  | zero =>
    intro l h x hx
    have : l = [] := List.length_eq_zero.mp (Nat.le_zero.mp h)
    subst this; simp at hx
  | succ n ih =>
    intro l h x hx
    match l with
    | y :: t =>
      by_cases hxy : x = y
      · subst hxy; exact List.mem_cons_self _ _
      · have hxt : x ∈ t := by
          rcases List.mem_cons.mp hx with h1 | h1
          · exact absurd h1 hxy
          · exact h1
        refine List.mem_cons.mpr (Or.inr ?_)
        refine ih _ (le_trans (List.length_filter_le _ _) (Nat.lt_succ_iff.mp h)) x ?_
        simp [List.mem_filter, hxt, hxy]

end DedupLemmas

/-- C10: after the search and before measurement, the driver removes
duplicate candidate matrices from the returned list, keeping only the first
occurrence of each distinct matrix in list order (`dedup_retain` equals the
first-occurrence reference `dedup_first`, is duplicate-free, is a sublist of
its input, and retains exactly the input's elements), so a record is built
per unique matrix only. -/
theorem c10_driver_dedup_first_occurrences {β : Type} [DecidableEq β] (l : List β) :
    dedup_retain l = dedup_first l ∧ (dedup_retain l).Nodup ∧
      List.Sublist (dedup_retain l) l ∧ (∀ x, x ∈ dedup_retain l ↔ x ∈ l) := by
  have heq : dedup_retain l = dedup_first l := by
    rw [dedup_retain, dedup_retain_go l []]
    simp
  refine ⟨heq, ?_, ?_, ?_⟩
  · rw [heq]; exact dedup_firstF_nodup _ _
  · rw [heq]; exact dedup_firstF_sublist _ _
  · intro x
    rw [heq]
    constructor
    · intro h; exact (dedup_firstF_sublist _ _).subset h
    · intro h; exact dedup_firstF_mem _ _ le_rfl x h


section DecodeLemmas

variable {β : Type}

/-- A list is a permutation of its `i`-th element consed onto the rest. -/
theorem perm_getElem_cons_eraseIdx : ∀ (l : List β) (i : Nat) (h : i < l.length),
    List.Perm l (l[i] :: l.eraseIdx i) := by
  intro l
  induction l with
  | nil => intro i h; simp at h
  | cons x t ih =>
    intro i h
    match i with
    | 0 => simp
    | i + 1 =>
      have hi : i < t.length := by simpa using h
      have h1 := List.Perm.cons x (ih i hi)
      have h2 : List.Perm (x :: t[i] :: t.eraseIdx i) (t[i] :: x :: t.eraseIdx i) :=
        List.Perm.swap _ _ _
      simpa using h1.trans h2

/-- Factorial-number-system decoding yields a permutation of the pool. -/
theorem idx2permF_perm : ∀ (n : Nat) (l : List β) (i : Nat), l.length = n →
    i < factorial n → List.Perm (idx2permF n i l) l := by
  intro n
  induction n with
  | zero =>
    intro l i hl _
    have : l = [] := List.length_eq_zero.mp hl
    subst this
    exact List.Perm.refl _
  | succ n ih =>
    intro l i hl hi
    have hl1 : l.length - 1 = n := by omega
    have hf : 0 < factorial n := Nat.factorial_pos n
    have hpos : i / factorial n < l.length := by
      rw [hl, Nat.div_lt_iff_lt_mul hf]
      calc i < factorial (n + 1) := hi
        _ = (n + 1) * factorial n := rfl
    simp only [idx2permF, hl1]
    rw [List.getElem?_eq_getElem hpos]
    simp only
    have hlen : (l.eraseIdx (i / factorial n)).length = n := by
      have := List.length_eraseIdx_add_one hpos
      omega
    have hmod : i % factorial n < factorial n := Nat.mod_lt i hf
    exact (List.Perm.cons _ (ih _ _ hlen hmod)).trans
      (perm_getElem_cons_eraseIdx l _ hpos).symm

/-- On a duplicate-free pool, decoding is injective on `[0, n!)`. -/
theorem idx2permF_inj : ∀ (n : Nat) (l : List β), l.length = n → l.Nodup →
    ∀ i j, i < factorial n → j < factorial n →
      idx2permF n i l = idx2permF n j l → i = j := by
  intro n
  induction n with
  | zero =>
    intro l _ _ i j hi hj _
    have hi1 : i < 1 := by simpa [factorial, Nat.factorial] using hi
    have hj1 : j < 1 := by simpa [factorial, Nat.factorial] using hj
    omega
  | succ n ih =>
    intro l hl hnd i j hi hj heq
    have hl1 : l.length - 1 = n := by omega
    have hf : 0 < factorial n := Nat.factorial_pos n
    have hposi : i / factorial n < l.length := by
      rw [hl, Nat.div_lt_iff_lt_mul hf]
      exact hi
    have hposj : j / factorial n < l.length := by
      rw [hl, Nat.div_lt_iff_lt_mul hf]
      exact hj
    simp only [idx2permF, hl1] at heq
    rw [List.getElem?_eq_getElem hposi, List.getElem?_eq_getElem hposj] at heq
    simp only [List.cons.injEq] at heq
    have hdiv : i / factorial n = j / factorial n :=
      (hnd.getElem_inj_iff).mp heq.1
    have htail := heq.2
    rw [hdiv] at htail
    have hlen : (l.eraseIdx (j / factorial n)).length = n := by
      have := List.length_eraseIdx_add_one hposj
      omega
    have hnd2 : (l.eraseIdx (j / factorial n)).Nodup :=
      (List.eraseIdx_sublist l _).nodup hnd
    have hmod := ih _ hlen hnd2 (i % factorial n) (j % factorial n)
      (Nat.mod_lt i hf) (Nat.mod_lt j hf) htail
    have d1 := Nat.div_add_mod i (factorial n)
    have d2 := Nat.div_add_mod j (factorial n)
    have dmul : factorial n * (i / factorial n) = factorial n * (j / factorial n) := by
      rw [hdiv]
    omega

/-- Every permutation of the pool is decoded by some index below `n!`. -/
theorem idx2permF_surj : ∀ (n : Nat) (l : List β), l.length = n →
    ∀ m, List.Perm m l → ∃ i, i < factorial n ∧ idx2permF n i l = m := by
  intro n
  induction n with
  | zero =>
    intro l hl m hm
    have hl0 : l = [] := List.length_eq_zero.mp hl
    subst hl0
    have : m = [] := List.Perm.eq_nil hm
    subst this
    exact ⟨0, Nat.one_pos, rfl⟩
  | succ n ih =>
    intro l hl m hm
    have hf : 0 < factorial n := Nat.factorial_pos n
    have hml : m.length = n + 1 := by rw [hm.length_eq, hl]
    match m with
    | a :: m2 =>
      have hmem : a ∈ l := hm.subset (List.mem_cons_self a m2)
      obtain ⟨pos, hpos, hget⟩ := List.mem_iff_getElem.mp hmem
      have hperm2 : List.Perm m2 (l.eraseIdx pos) := by
        have h1 : List.Perm (a :: m2) (l[pos] :: l.eraseIdx pos) :=
          hm.trans (perm_getElem_cons_eraseIdx l pos hpos)
        rw [hget] at h1
        exact h1.cons_inv
      have hlen : (l.eraseIdx pos).length = n := by
        have := List.length_eraseIdx_add_one hpos
        omega
      obtain ⟨j, hj, hdec⟩ := ih _ hlen m2 hperm2
      refine ⟨pos * factorial n + j, ?_, ?_⟩
      · have hposn : pos ≤ n := by omega
        calc pos * factorial n + j < pos * factorial n + factorial n := by omega
          _ = (pos + 1) * factorial n := by ring
          _ ≤ (n + 1) * factorial n := Nat.mul_le_mul_right _ (by omega)
          _ = factorial (n + 1) := rfl
      · have hl1 : l.length - 1 = n := by omega
        have hdivq : (pos * factorial n + j) / factorial n = pos := by
          rw [Nat.mul_comm pos (factorial n), Nat.mul_add_div hf, Nat.div_eq_of_lt hj,
            Nat.add_zero]
        have hmodq : (pos * factorial n + j) % factorial n = j := by
          rw [Nat.mul_comm pos (factorial n), Nat.mul_add_mod, Nat.mod_eq_of_lt hj]
        simp only [idx2permF, hl1, hdivq, hmodq]
        rw [List.getElem?_eq_getElem hpos]
        simp only [hget, hdec]

end DecodeLemmas

/-- C6: permutation-index decoding is a bijection from `[0, n!)` onto the
permutations of an `n`-element (duplicate-free) pool — each decode is a
permutation of the pool, distinct indices decode to distinct permutations,
and every permutation is hit — and on `[A, B, C]` (embedded as `[0, 1, 2]`)
index 0 decodes to `[A, B, C]`, index 1 to `[A, C, B]`, and index 5 to
`[C, B, A]`. -/
theorem c6_index_decoding_bijection :
    (∀ {β : Type} (pool : List β), pool.Nodup →
      (∀ i, i < factorial pool.length → List.Perm (index_to_permutation i pool) pool) ∧
      (∀ i j, i < factorial pool.length → j < factorial pool.length →
        index_to_permutation i pool = index_to_permutation j pool → i = j) ∧
      (∀ m, List.Perm m pool → ∃ i, i < factorial pool.length ∧
        index_to_permutation i pool = m)) ∧
    index_to_permutation 0 [0, 1, 2] = [0, 1, 2] ∧
    index_to_permutation 1 [0, 1, 2] = [0, 2, 1] ∧
    index_to_permutation 5 [0, 1, 2] = [2, 1, 0] := by
  refine ⟨?_, by decide, by decide, by decide⟩
  intro β pool hnd
  refine ⟨?_, ?_, ?_⟩
  · intro i hi
    exact idx2permF_perm _ pool i rfl hi
  · intro i j hi hj h
    exact idx2permF_inj _ pool rfl hnd i j hi hj h
  · intro m hm
    exact idx2permF_surj _ pool rfl m hm

/-- Witness for C6 at the concrete pool `[1, 2, 3]` and index 4. -/
theorem c6_index_decoding_bijection_witness :
    ([1, 2, 3] : List Nat).Nodup ∧
      List.Perm (index_to_permutation 4 [1, 2, 3]) [1, 2, 3] :=
  ⟨by decide, (c6_index_decoding_bijection.1 [1, 2, 3] (by decide)).1 4 (by decide)⟩


set_option maxRecDepth 8000

/-- C3: `calculate_threshold` returns `best` at tolerance 1.0; at tolerance
0.0 it returns 0 for `Max` and `u64::MAX` for `Min`; otherwise it returns
the floor of the double product `best · tolerance` for `Max` and the
ceiling of the double quotient `best / tolerance` for `Min`; and with goal
`Min`, tolerance 0.9 and best score 100 the threshold is 112, so a run of
`consider_record` admits an entry scoring 112 and rejects one scoring
113. -/
theorem c3_calculate_threshold :
    (∀ (goal : Goal) (best : Nat), calculate_threshold goal best f64one = best) ∧
    (∀ best : Nat, calculate_threshold .Max best f64zero = 0) ∧
    (∀ best : Nat, calculate_threshold .Min best f64zero = U64MAX) ∧
    (∀ (best : Nat) (tol : F64), feqB tol f64one = false → feqB tol f64zero = false →
      calculate_threshold .Max best tol = castU64 (floorF64 (fmul (u64ToF64 best) tol)) ∧
      calculate_threshold .Min best tol = castU64 (ceilF64 (fdiv (u64ToF64 best) tol))) ∧
    calculate_threshold .Min 100 (roundRat 9 10) = 112 ∧
    ((([(0, 100), (1, 112), (2, 113)] : List (Nat × Nat)).foldl
        (fun st p => consider_record .Min (roundRat 9 10) none p.2 p.2 p.1 st)
        (init_state .Min (roundRat 9 10))).records.map (fun e => e.score) =
      [112, 100]) := by
  refine ⟨?_, ?_, ?_, ?_, by decide, by decide⟩
  · intro goal best; cases goal <;> rfl
  · intro best; rfl
  · intro best; rfl
  · intro best tol h1 h2
    constructor <;> simp [calculate_threshold, h1, h2]

/-- Witness for C3's general clause at tolerance 0.5 and best score 10. -/
theorem c3_calculate_threshold_witness :
    feqB (roundRat 1 2) f64one = false ∧ feqB (roundRat 1 2) f64zero = false ∧
      calculate_threshold .Max 10 (roundRat 1 2) = 5 :=
  ⟨by decide, by decide,
    ((c3_calculate_threshold.2.2.2.1 10 (roundRat 1 2) (by decide) (by decide)).1).trans
      (by decide)⟩


/-- The kernel's accumulator fold computes the term sums exactly as long as
no `u64` wrap occurs. -/
theorem kernel_fold (mrx : KeyMatrix) (table : BigramTable) :
    ∀ (bfs : List BigramFingering) (a aEw : Nat),
      a + (bfs.map (bf_raw mrx table)).sum < U64MOD →
      aEw + (bfs.map (bf_ew mrx table)).sum < U64MOD →
      bfs.foldl
        (fun acc bf =>
          let b1 := read_cell mrx bf.1.1 bf.1.2
          let b2 := read_cell mrx bf.2.1.1 bf.2.1.2
          let value := table (bigram_key b1 b2)
          ((acc.1 + value) % U64MOD, (acc.2 + value_ew value bf.2.2) % U64MOD))
        (a, aEw) =
      (a + (bfs.map (bf_raw mrx table)).sum, aEw + (bfs.map (bf_ew mrx table)).sum) := by
  intro bfs
  induction bfs with
  | nil => intro a aEw _ _; simp
  | cons bf rest ih =>
    intro a aEw ha hb
    simp only [List.map_cons, List.sum_cons] at ha hb
    simp only [List.foldl_cons, List.map_cons, List.sum_cons]
    have h1 : (a + bf_raw mrx table bf) % U64MOD = a + bf_raw mrx table bf :=
      Nat.mod_eq_of_lt (by omega)
    have h2 : (aEw + bf_ew mrx table bf) % U64MOD = aEw + bf_ew mrx table bf :=
      Nat.mod_eq_of_lt (by omega)
    show rest.foldl _ ((a + bf_raw mrx table bf) % U64MOD,
      (aEw + bf_ew mrx table bf) % U64MOD) = _
    rw [h1, h2, ih _ _ (by omega) (by omega)]
    simp [Nat.add_assoc]

/-- C7: over any fingering slice, the kernel's effort-weighted sum is the
sum over fingerings of `⌊T[key(f)] · effort(f)⌋`, where each term is the
binary64 product of the table value and the effort truncated toward zero
before summation (per term, never on the total), and the raw sum is the
plain sum of table values; the unigram unit score likewise truncates after
the multiplication. -/
theorem c7_effort_weighted_sum :
    (∀ (bfs : List BigramFingering) (mrx : KeyMatrix) (table : BigramTable),
      (bfs.map (bf_raw mrx table)).sum < U64MOD →
      (bfs.map (bf_ew mrx table)).sum < U64MOD →
      score_bfs_without_details_unchecked bfs mrx table =
        ((bfs.map (bf_raw mrx table)).sum,
         (bfs.map (fun bf => castU64 (fmul (u64ToF64 (bf_raw mrx table bf)) bf.2.2))).sum)) ∧
    (∀ (uf : UnigramFingering) (mrx : KeyMatrix) (table : UnigramTable),
      score_uf uf mrx table =
        (read_cell mrx uf.1.1 uf.1.2, table (read_cell mrx uf.1.1 uf.1.2),
          castU64 (fmul (u64ToF64 (table (read_cell mrx uf.1.1 uf.1.2))) uf.2))) := by
  constructor
  · intro bfs mrx table ha hb
    have := kernel_fold mrx table bfs 0 0 (by omega) (by omega)
    simp only [Nat.zero_add] at this
    rw [score_bfs_without_details_unchecked, this]
    rfl
  · intro uf mrx table
    rfl

set_option maxRecDepth 40000 in
/-- Witness for C7: a one-fingering slice with table value 10 and effort 1.5
sums to `(10, 15)`. -/
theorem c7_effort_weighted_sum_witness :
    score_bfs_without_details_unchecked [(((0, 0), (0, 1), roundRat 3 2))] [[97, 98]]
      (fun k => if k = bigram_key 97 98 then 10 else 0) = (10, 15) :=
  (c7_effort_weighted_sum.1 [(((0, 0), (0, 1), roundRat 3 2))] [[97, 98]]
    (fun k => if k = bigram_key 97 98 then 10 else 0) (by decide) (by decide)).trans
    (by decide)

section EngineLemmas
variable {α : Type}

/-- Transitivity of the `(score descending, index ascending)` order. -/
theorem entryLE_trans {a b c : Entry α} (h1 : entryLE a b) (h2 : entryLE b c) : entryLE a c := by
  unfold entryLE at *
  omega

/-- A deque entry the new triple does not strictly precede comes no later
than it. -/
theorem entryLE_of_not_before {s i : Nat} {m : α} {e : Entry α}
    (h : ¬ entryBefore s i e = true) : entryLE e ⟨s, i, m⟩ := by
  simp only [entryBefore, Bool.or_eq_true, Bool.and_eq_true, decide_eq_true_eq] at h
  unfold entryLE
  push_neg at h
  simp only
  omega

/-- A new triple strictly preceding an entry comes before it in the
order. -/
theorem entryLE_of_before {s i : Nat} {m : α} {e : Entry α}
    (h : entryBefore s i e = true) : entryLE (⟨s, i, m⟩ : Entry α) e := by
  simp only [entryBefore, Bool.or_eq_true, Bool.and_eq_true, decide_eq_true_eq] at h
  unfold entryLE
  simp only
  omega

/-- Membership in an ordered insertion. -/
theorem mem_insert_sorted {l : List (Entry α)} {s i : Nat} {m : α} {e : Entry α} :
    e ∈ insert_sorted l s i m ↔ e = ⟨s, i, m⟩ ∨ e ∈ l := by
  induction l with
  | nil => simp [insert_sorted]
  | cons x rest ih =>
    simp only [insert_sorted]
    cases hb : entryBefore s i x with
    | true => simp [List.mem_cons]
    | false =>
      simp only [Bool.false_eq_true, if_false, List.mem_cons, ih]
      tauto

/-- Ordered insertion preserves sortedness. -/
theorem pairwise_insert_sorted {l : List (Entry α)} {s i : Nat} {m : α}
    (hs : List.Pairwise entryLE l) :
    List.Pairwise entryLE (insert_sorted l s i m) := by
  induction l with
  | nil => simp [insert_sorted]
  | cons x rest ih =>
    rw [List.pairwise_cons] at hs
    obtain ⟨hx, hrest⟩ := hs
    simp only [insert_sorted]
    cases hb : entryBefore s i x with
    | true =>
      refine List.pairwise_cons.mpr ⟨?_, List.pairwise_cons.mpr ⟨hx, hrest⟩⟩
      intro b hbm
      rcases List.mem_cons.mp hbm with rfl | hb2
      · exact entryLE_of_before hb
      · exact entryLE_trans (entryLE_of_before hb) (hx b hb2)
    | false =>
      simp only [Bool.false_eq_true, if_false]
      refine List.pairwise_cons.mpr ⟨?_, ih hrest⟩
      intro b hbm
      rcases mem_insert_sorted.mp hbm with rfl | hb2
      · exact entryLE_of_not_before (by simp [hb])
      · exact hx b hb2

/-- Front pruning yields a sublist. -/
theorem drop_above_sublist (l : List (Entry α)) (t : Nat) :
    List.Sublist (drop_above_threshold l t) l := List.dropWhile_sublist _

/-- Back pruning yields a sublist. -/
theorem drop_below_sublist (l : List (Entry α)) (t : Nat) :
    List.Sublist (drop_below_threshold l t) l := by
  have h := List.dropWhile_sublist (l := l.reverse)
    (p := fun e => decide (e.score < t))
  have h2 := List.Sublist.reverse h
  simp only [List.reverse_reverse] at h2
  exact h2

/-- Truncation yields a sublist. -/
theorem truncate_sublist (l : List (Entry α)) (goal : Goal) (capOpt : Option Nat) :
    List.Sublist (truncate l goal capOpt) l := by
  match capOpt with
  | none => exact List.Sublist.refl l
  | some cap =>
    cases goal
    · exact List.take_sublist _ _
    · simp only [truncate]
      split
      · exact List.Sublist.refl l
      · exact List.drop_sublist _ _

/-- Truncation respects the cap. -/
theorem truncate_length (l : List (Entry α)) (goal : Goal) (cap : Nat) :
    (truncate l goal (some cap)).length ≤ cap := by
  cases goal
  · simpa [truncate] using List.length_take_le cap l
  · simp only [truncate]
    split
    · omega
    · rw [List.length_drop]
      omega

/-- On a sorted deque, front pruning leaves only scores within the
threshold. -/
theorem mem_drop_above_scores {l : List (Entry α)} {t : Nat}
    (hs : List.Pairwise entryLE l) :
    ∀ e ∈ drop_above_threshold l t, e.score ≤ t := by
  induction l with
  | nil => intro e he; simp [drop_above_threshold] at he
  | cons x rest ih =>
    rw [List.pairwise_cons] at hs
    obtain ⟨hx, hrest⟩ := hs
    intro e he
    simp only [drop_above_threshold, List.dropWhile_cons] at he
    by_cases hc : t < x.score
    · simp only [decide_eq_true_eq, hc, if_true] at he
      exact ih hrest e he
    · simp only [decide_eq_true_eq, hc, if_false] at he
      rcases List.mem_cons.mp he with rfl | he2
      · omega
      · have := hx e he2
        unfold entryLE at this
        omega

/-- Reversing a sorted deque flips the order relation. -/
theorem pairwise_flip_reverse {l : List (Entry α)} (hs : List.Pairwise entryLE l) :
    List.Pairwise (fun a b => entryLE b a) l.reverse := by
  rw [List.pairwise_reverse]
  exact hs

/-- On a sorted deque, back pruning leaves only scores at or above the
threshold. -/
theorem mem_drop_below_scores {l : List (Entry α)} {t : Nat}
    (hs : List.Pairwise entryLE l) :
    ∀ e ∈ drop_below_threshold l t, t ≤ e.score := by
  have hrev := pairwise_flip_reverse hs
  intro e he
  rw [drop_below_threshold, List.mem_reverse] at he
  revert he
  generalize hr : l.reverse = r at hrev
  clear hr hs
  induction r with
  | nil => intro he; simp at he
  | cons x rest ih =>
    rw [List.pairwise_cons] at hrev
    obtain ⟨hx, hrest⟩ := hrev
    intro he
    rw [List.dropWhile_cons] at he
    by_cases hc : x.score < t
    · simp only [decide_eq_true_eq, hc, if_true] at he
      exact ih hrest he
    · simp only [decide_eq_true_eq, hc, if_false] at he
      rcases List.mem_cons.mp he with rfl | he2
      · omega
      · have := hx e he2
        unfold entryLE at this
        omega

/-- A fresh worker state satisfies the search invariant. -/
theorem search_inv_init (goal : Goal) (tol : F64) (f : α → Nat) :
    search_inv goal tol f (init_state goal tol) := by
  refine ⟨List.Pairwise.nil, ?_, rfl, ?_⟩ <;> intro e he <;> simp [init_state] at he

/-- The insert-and-truncate step of `consider_record` preserves the search
invariant. -/
theorem insert_step_inv {goal : Goal} {tol : F64} {capOpt : Option Nat}
    {rs : List (Entry α)} {b s i : Nat} {m : α} {f : α → Nat}
    (hsort : List.Pairwise entryLE rs)
    (hok : ∀ e ∈ rs, goal_satisfies goal e.score (calculate_threshold goal b tol))
    (hmatch : ∀ e ∈ rs, e.score = f e.matrix)
    (hsm : s = f m)
    (hadm : goal_satisfies goal s (calculate_threshold goal b tol)) :
    search_inv goal tol f
      ⟨truncate (insert_sorted rs s i m) goal capOpt, b, calculate_threshold goal b tol⟩ := by
  refine ⟨?_, ?_, rfl, ?_⟩
  · exact List.Pairwise.sublist (truncate_sublist (insert_sorted rs s i m) goal capOpt)
      (pairwise_insert_sorted hsort)
  · intro e he
    have he2 := (truncate_sublist (insert_sorted rs s i m) goal capOpt).subset he
    rcases mem_insert_sorted.mp he2 with rfl | he3
    · exact hadm
    · exact hok e he3
  · intro e he
    have he2 := (truncate_sublist (insert_sorted rs s i m) goal capOpt).subset he
    rcases mem_insert_sorted.mp he2 with rfl | he3
    · exact hsm
    · exact hmatch e he3

/-- A pruned state with a linked threshold satisfies the search
invariant. -/
theorem keep_state_inv {goal : Goal} {tol : F64}
    {rs : List (Entry α)} {b : Nat} {f : α → Nat}
    (hsort : List.Pairwise entryLE rs)
    (hok : ∀ e ∈ rs, goal_satisfies goal e.score (calculate_threshold goal b tol))
    (hmatch : ∀ e ∈ rs, e.score = f e.matrix) :
    search_inv goal tol f ⟨rs, b, calculate_threshold goal b tol⟩ :=
  ⟨hsort, hok, rfl, hmatch⟩

/-- `consider_record` preserves the search invariant. -/
theorem consider_record_inv {goal : Goal} {tol : F64} {capOpt : Option Nat}
    {f : α → Nat} {st : SearchState α} {m : α} {i : Nat}
    (h : search_inv goal tol f st) :
    search_inv goal tol f (consider_record goal tol capOpt m (f m) i st) := by
  obtain ⟨hsort, hok, hlink, hmatch⟩ := h
  obtain ⟨rs, b, t⟩ := st
  simp only [threshold_linked] at hlink
  simp only at hlink hok hsort hmatch
  subst hlink
  cases goal
  case Max =>
    simp only [consider_record]
    by_cases hbest : b < f m
    · simp only [hbest, if_true]
      have hsort1 : List.Pairwise entryLE
          (drop_below_threshold rs (calculate_threshold .Max (f m) tol)) :=
        List.Pairwise.sublist (drop_below_sublist rs _) hsort
      have hok1 : ∀ e ∈ drop_below_threshold rs (calculate_threshold .Max (f m) tol),
          goal_satisfies .Max e.score (calculate_threshold .Max (f m) tol) :=
        fun e he => mem_drop_below_scores hsort e he
      have hmatch1 : ∀ e ∈ drop_below_threshold rs (calculate_threshold .Max (f m) tol),
          e.score = f e.matrix :=
        fun e he => hmatch e ((drop_below_sublist rs _).subset he)
      by_cases hth : calculate_threshold .Max (f m) tol ≤ f m
      · simp only [hth, if_true]
        exact insert_step_inv hsort1 hok1 hmatch1 rfl hth
      · simp only [hth, if_false]
        exact keep_state_inv hsort1 hok1 hmatch1
    · simp only [hbest, if_false]
      by_cases hth : calculate_threshold .Max b tol ≤ f m
      · simp only [hth, if_true]
        exact insert_step_inv hsort hok hmatch rfl hth
      · simp only [hth, if_false]
        exact keep_state_inv hsort hok hmatch
  case Min =>
    simp only [consider_record]
    by_cases hbest : f m < b
    · simp only [hbest, if_true]
      have hsort1 : List.Pairwise entryLE
          (drop_above_threshold rs (calculate_threshold .Min (f m) tol)) :=
        List.Pairwise.sublist (drop_above_sublist rs _) hsort
      have hok1 : ∀ e ∈ drop_above_threshold rs (calculate_threshold .Min (f m) tol),
          goal_satisfies .Min e.score (calculate_threshold .Min (f m) tol) :=
        fun e he => mem_drop_above_scores hsort e he
      have hmatch1 : ∀ e ∈ drop_above_threshold rs (calculate_threshold .Min (f m) tol),
          e.score = f e.matrix :=
        fun e he => hmatch e ((drop_above_sublist rs _).subset he)
      by_cases hth : f m ≤ calculate_threshold .Min (f m) tol
      · simp only [hth, if_true]
        exact insert_step_inv hsort1 hok1 hmatch1 rfl hth
      · simp only [hth, if_false]
        exact keep_state_inv hsort1 hok1 hmatch1
    · simp only [hbest, if_false]
      by_cases hth : f m ≤ calculate_threshold .Min b tol
      · simp only [hth, if_true]
        exact insert_step_inv hsort hok hmatch rfl hth
      · simp only [hth, if_false]
        exact keep_state_inv hsort hok hmatch

/-- If the merge comparator does not take the left entry, the right one
comes first. -/
theorem entryLE_of_not_takeLeft {e1 e2 : Entry α} (h : ¬ entryTakeLeft e1 e2 = true) :
    entryLE e2 e1 := by
  simp only [entryTakeLeft, Bool.or_eq_true, Bool.and_eq_true, decide_eq_true_eq] at h
  push_neg at h
  unfold entryLE
  omega

/-- If the merge comparator takes the left entry, it comes first. -/
theorem entryLE_of_takeLeft {e1 e2 : Entry α} (h : entryTakeLeft e1 e2 = true) :
    entryLE e1 e2 := by
  simp only [entryTakeLeft, Bool.or_eq_true, Bool.and_eq_true, decide_eq_true_eq] at h
  unfold entryLE
  omega

/-- Membership in the fuelled merge. -/
theorem mem_mergeF : ∀ (fuel : Nat) (l r : List (Entry α)) (e : Entry α),
    e ∈ mergeF fuel l r ↔ e ∈ l ∨ e ∈ r := by
  intro fuel
  induction fuel with
  | zero =>
    intro l r e
    match l, r with
    | [], r => simp [mergeF]
    | x :: l2, [] => simp [mergeF]
    | x :: l2, y :: r2 =>
      simp only [mergeF, List.mem_append, List.mem_cons]
  | succ n ih =>
    intro l r e
    match l, r with
    | [], r => simp [mergeF]
    | x :: l2, [] => simp [mergeF]
    | x :: l2, y :: r2 =>
      simp only [mergeF]
      cases hc : entryTakeLeft x y with
      | true =>
        simp only [if_true, List.mem_cons, ih]
        tauto
      | false =>
        simp only [Bool.false_eq_true, if_false, List.mem_cons, ih]
        tauto

/-- The fuelled merge of sorted deques is sorted (given enough fuel). -/
theorem pairwise_mergeF : ∀ (fuel : Nat) (l r : List (Entry α)),
    l.length + r.length ≤ fuel →
    List.Pairwise entryLE l → List.Pairwise entryLE r →
    List.Pairwise entryLE (mergeF fuel l r) := by
  intro fuel
  induction fuel with
  | zero =>
    intro l r hlen hl hr
    match l, r with
    | [], r => simpa [mergeF] using hr
    | x :: l2, [] => simpa [mergeF] using hl
    | x :: l2, y :: r2 => simp at hlen
  | succ n ih =>
    intro l r hlen hl hr
    match l, r with
    | [], r => simpa [mergeF] using hr
    | x :: l2, [] => simpa [mergeF] using hl
    | x :: l2, y :: r2 =>
      simp only [List.length_cons] at hlen
      rw [List.pairwise_cons] at hl hr
      obtain ⟨hx, hl2⟩ := hl
      obtain ⟨hy, hr2⟩ := hr
      simp only [mergeF]
      cases hc : entryTakeLeft x y with
      | true =>
        simp only [if_true]
        refine List.pairwise_cons.mpr ⟨?_, ?_⟩
        · intro b hb
          rcases (mem_mergeF n l2 (y :: r2) b).mp hb with hbl | hbr
          · exact hx b hbl
          · rcases List.mem_cons.mp hbr with rfl | hbr2
            · exact entryLE_of_takeLeft hc
            · exact entryLE_trans (entryLE_of_takeLeft hc) (hy b hbr2)
        · refine ih l2 (y :: r2) (by simp; omega) hl2 ?_
          exact List.pairwise_cons.mpr ⟨hy, hr2⟩
      | false =>
        simp only [Bool.false_eq_true, if_false]
        refine List.pairwise_cons.mpr ⟨?_, ?_⟩
        · intro b hb
          rcases (mem_mergeF n (x :: l2) r2 b).mp hb with hbl | hbr
          · rcases List.mem_cons.mp hbl with rfl | hbl2
            · exact entryLE_of_not_takeLeft (by simp [hc])
            · exact entryLE_trans (entryLE_of_not_takeLeft (by simp [hc])) (hx b hbl2)
          · exact hy b hbr
        · refine ih (x :: l2) r2 (by simp; omega) ?_ hr2
          exact List.pairwise_cons.mpr ⟨hx, hl2⟩

/-- Membership in the merge of two deques. -/
theorem mem_merge_lists {l r : List (Entry α)} {e : Entry α} :
    e ∈ merge_lists l r ↔ e ∈ l ∨ e ∈ r := mem_mergeF _ l r e

/-- The merge of two sorted deques is sorted. -/
theorem pairwise_merge_lists {l r : List (Entry α)}
    (hl : List.Pairwise entryLE l) (hr : List.Pairwise entryLE r) :
    List.Pairwise entryLE (merge_lists l r) :=
  pairwise_mergeF _ l r le_rfl hl hr

/-- The merged state of the `Max` reduction satisfies the search
invariant. -/
theorem combined_state_inv_max {tol : F64} {capOpt : Option Nat} {f : α → Nat}
    {l r : List (Entry α)} {b : Nat}
    (hl : List.Pairwise entryLE l) (hr : List.Pairwise entryLE r)
    (hlm : ∀ e ∈ l, e.score = f e.matrix) (hrm : ∀ e ∈ r, e.score = f e.matrix) :
    search_inv .Max tol f
      ⟨(match capOpt with
        | some cap =>
            (merge_lists (drop_below_threshold l (calculate_threshold .Max b tol))
              (drop_below_threshold r (calculate_threshold .Max b tol))).take cap
        | none =>
            merge_lists (drop_below_threshold l (calculate_threshold .Max b tol))
              (drop_below_threshold r (calculate_threshold .Max b tol))),
        b, calculate_threshold .Max b tol⟩ := by
  have hlp := List.Pairwise.sublist (drop_below_sublist l (calculate_threshold .Max b tol)) hl
  have hrp := List.Pairwise.sublist (drop_below_sublist r (calculate_threshold .Max b tol)) hr
  have hmsort := pairwise_merge_lists hlp hrp
  have hsub : ∀ e ∈ (match capOpt with
      | some cap =>
          (merge_lists (drop_below_threshold l (calculate_threshold .Max b tol))
            (drop_below_threshold r (calculate_threshold .Max b tol))).take cap
      | none =>
          merge_lists (drop_below_threshold l (calculate_threshold .Max b tol))
            (drop_below_threshold r (calculate_threshold .Max b tol))),
      e ∈ merge_lists (drop_below_threshold l (calculate_threshold .Max b tol))
        (drop_below_threshold r (calculate_threshold .Max b tol)) := by
    intro e he
    cases capOpt with
    | none => exact he
    | some cap => exact (List.take_sublist cap _).subset he
  refine ⟨?_, ?_, rfl, ?_⟩
  · cases capOpt with
    | none => exact hmsort
    | some cap => exact List.Pairwise.sublist (List.take_sublist cap _) hmsort
  · intro e he
    rcases mem_merge_lists.mp (hsub e he) with h1 | h1
    · exact mem_drop_below_scores hl e h1
    · exact mem_drop_below_scores hr e h1
  · intro e he
    rcases mem_merge_lists.mp (hsub e he) with h1 | h1
    · exact hlm e ((drop_below_sublist l _).subset h1)
    · exact hrm e ((drop_below_sublist r _).subset h1)

/-- The merged state of the `Min` reduction satisfies the search
invariant. -/
theorem combined_state_inv_min {tol : F64} {capOpt : Option Nat} {f : α → Nat}
    {l r : List (Entry α)} {b : Nat}
    (hl : List.Pairwise entryLE l) (hr : List.Pairwise entryLE r)
    (hlm : ∀ e ∈ l, e.score = f e.matrix) (hrm : ∀ e ∈ r, e.score = f e.matrix) :
    search_inv .Min tol f
      ⟨(match capOpt with
        | some cap =>
            (merge_lists (drop_above_threshold l (calculate_threshold .Min b tol))
              (drop_above_threshold r (calculate_threshold .Min b tol))).take cap
        | none =>
            merge_lists (drop_above_threshold l (calculate_threshold .Min b tol))
              (drop_above_threshold r (calculate_threshold .Min b tol))),
        b, calculate_threshold .Min b tol⟩ := by
  have hlp := List.Pairwise.sublist (drop_above_sublist l (calculate_threshold .Min b tol)) hl
  have hrp := List.Pairwise.sublist (drop_above_sublist r (calculate_threshold .Min b tol)) hr
  have hmsort := pairwise_merge_lists hlp hrp
  have hsub : ∀ e ∈ (match capOpt with
      | some cap =>
          (merge_lists (drop_above_threshold l (calculate_threshold .Min b tol))
            (drop_above_threshold r (calculate_threshold .Min b tol))).take cap
      | none =>
          merge_lists (drop_above_threshold l (calculate_threshold .Min b tol))
            (drop_above_threshold r (calculate_threshold .Min b tol))),
      e ∈ merge_lists (drop_above_threshold l (calculate_threshold .Min b tol))
        (drop_above_threshold r (calculate_threshold .Min b tol)) := by
    intro e he
    cases capOpt with
    | none => exact he
    | some cap => exact (List.take_sublist cap _).subset he
  refine ⟨?_, ?_, rfl, ?_⟩
  · cases capOpt with
    | none => exact hmsort
    | some cap => exact List.Pairwise.sublist (List.take_sublist cap _) hmsort
  · intro e he
    rcases mem_merge_lists.mp (hsub e he) with h1 | h1
    · exact mem_drop_above_scores hl e h1
    · exact mem_drop_above_scores hr e h1
  · intro e he
    rcases mem_merge_lists.mp (hsub e he) with h1 | h1
    · exact hlm e ((drop_above_sublist l _).subset h1)
    · exact hrm e ((drop_above_sublist r _).subset h1)

/-- The parallel reduction combiner preserves the search invariant. -/
theorem reduce_combine_inv {goal : Goal} {tol : F64} {capOpt : Option Nat}
    {f : α → Nat} {s t : SearchState α}
    (hs : search_inv goal tol f s) (ht : search_inv goal tol f t) :
    search_inv goal tol f (reduce_combine goal capOpt s t) := by
  obtain ⟨hssort, hsok, hslink, hsmatch⟩ := hs
  obtain ⟨htsort, htok, htlink, htmatch⟩ := ht
  cases goal
  case Max =>
    by_cases hp : t.best_score ≤ s.best_score
    · have hpd : decide (t.best_score ≤ s.best_score) = true := by simp [hp]
      simp only [reduce_combine, hpd, if_true]
      rw [show s.threshold_score = calculate_threshold .Max s.best_score tol from hslink]
      exact combined_state_inv_max hssort htsort hsmatch htmatch
    · have hpd : decide (t.best_score ≤ s.best_score) = false := by simp [hp]
      simp only [reduce_combine, hpd, Bool.false_eq_true, if_false]
      rw [show t.threshold_score = calculate_threshold .Max t.best_score tol from htlink]
      exact combined_state_inv_max htsort hssort htmatch hsmatch
  case Min =>
    by_cases hp : s.best_score ≤ t.best_score
    · have hpd : decide (s.best_score ≤ t.best_score) = true := by simp [hp]
      simp only [reduce_combine, hpd, if_true]
      rw [show s.threshold_score = calculate_threshold .Min s.best_score tol from hslink]
      exact combined_state_inv_min hssort htsort hsmatch htmatch
    · have hpd : decide (s.best_score ≤ t.best_score) = false := by simp [hp]
      simp only [reduce_combine, hpd, Bool.false_eq_true, if_false]
      rw [show t.threshold_score = calculate_threshold .Min t.best_score tol from htlink]
      exact combined_state_inv_min htsort hssort htmatch hsmatch

/-- `consider_record` keeps the deque within the configured cap. -/
theorem consider_record_length {goal : Goal} {tol : F64} {cap : Nat}
    {st : SearchState α} {m : α} {s i : Nat}
    (h : st.records.length ≤ cap) :
    (consider_record goal tol (some cap) m s i st).records.length ≤ cap := by
  obtain ⟨rs, b, t⟩ := st
  simp only at h
  cases goal
  case Max =>
    simp only [consider_record]
    by_cases hbest : b < s
    · simp only [hbest, if_true]
      by_cases hth : calculate_threshold .Max s tol ≤ s
      · simp only [hth, if_true]
        exact truncate_length _ _ _
      · simp only [hth, if_false]
        exact le_trans ((drop_below_sublist rs _).length_le) h
    · simp only [hbest, if_false]
      by_cases hth : t ≤ s
      · simp only [hth, if_true]
        exact truncate_length _ _ _
      · simp only [hth, if_false]
        exact h
  case Min =>
    simp only [consider_record]
    by_cases hbest : s < b
    · simp only [hbest, if_true]
      by_cases hth : s ≤ calculate_threshold .Min s tol
      · simp only [hth, if_true]
        exact truncate_length _ _ _
      · simp only [hth, if_false]
        exact le_trans ((drop_above_sublist rs _).length_le) h
    · simp only [hbest, if_false]
      by_cases hth : s ≤ t
      · simp only [hth, if_true]
        exact truncate_length _ _ _
      · simp only [hth, if_false]
        exact h

/-- The capped combiner keeps the merged deque within the cap. -/
theorem reduce_combine_length {goal : Goal} {cap : Nat} {s t : SearchState α} :
    (reduce_combine goal (some cap) s t).records.length ≤ cap := by
  simp only [reduce_combine]
  exact List.length_take_le cap _

/-- Folding `consider_record` over work items preserves the search
invariant. -/
theorem run_fold_core_inv {goal : Goal} {tol : F64} {capOpt : Option Nat}
    (f : α → Nat) (build : β → α) :
    ∀ (items : List (Nat × β)) (st : SearchState α), search_inv goal tol f st →
      search_inv goal tol f
        (items.foldl
          (fun st it => consider_record goal tol capOpt (build it.2)
            (f (build it.2)) it.1 st) st) := by
  intro items
  induction items with
  | nil => intro st h; exact h
  | cons it rest ih =>
    intro st h
    exact ih _ (consider_record_inv h)

/-- Folding `consider_record` over work items respects the cap. -/
theorem run_fold_core_length {goal : Goal} {tol : F64} {cap : Nat}
    (f : α → Nat) (build : β → α) :
    ∀ (items : List (Nat × β)) (st : SearchState α), st.records.length ≤ cap →
      ((items.foldl
          (fun st it => consider_record goal tol (some cap) (build it.2)
            (f (build it.2)) it.1 st) st)).records.length ≤ cap := by
  intro items
  induction items with
  | nil => intro st h; exact h
  | cons it rest ih =>
    intro st h
    exact ih _ (consider_record_length h)

/-- A worker chunk fold preserves the search invariant. -/
theorem chunk_fold_inv {goal : Goal} {tol : F64} {capOpt : Option Nat}
    (f : α → Nat) (build : Nat → α) :
    ∀ (indices : List Nat) (st : SearchState α), search_inv goal tol f st →
      search_inv goal tol f
        (indices.foldl
          (fun st i => consider_record goal tol capOpt (build i) (f (build i)) i st) st) := by
  intro indices
  induction indices with
  | nil => intro st h; exact h
  | cons i rest ih =>
    intro st h
    exact ih _ (consider_record_inv h)

/-- A worker chunk fold respects the cap. -/
theorem chunk_fold_length {goal : Goal} {tol : F64} {cap : Nat}
    (f : α → Nat) (build : Nat → α) :
    ∀ (indices : List Nat) (st : SearchState α), st.records.length ≤ cap →
      ((indices.foldl
          (fun st i => consider_record goal tol (some cap) (build i) (f (build i)) i st)
          st)).records.length ≤ cap := by
  intro indices
  induction indices with
  | nil => intro st h; exact h
  | cons i rest ih =>
    intro st h
    exact ih _ (consider_record_length h)

/-- Reducing a list of invariant-satisfying partial states preserves the
search invariant. -/
theorem foldl_combine_inv {goal : Goal} {tol : F64} {capOpt : Option Nat}
    {f : α → Nat} :
    ∀ (sts : List (SearchState α)) (st0 : SearchState α), search_inv goal tol f st0 →
      (∀ s ∈ sts, search_inv goal tol f s) →
      search_inv goal tol f (sts.foldl (reduce_combine goal capOpt) st0) := by
  intro sts
  induction sts with
  | nil => intro st0 h _; exact h
  | cons s rest ih =>
    intro st0 h hall
    exact ih _ (reduce_combine_inv h (hall s (List.mem_cons_self s rest)))
      (fun x hx => hall x (List.mem_cons_of_mem s hx))

/-- Reducing partial states respects the cap. -/
theorem foldl_combine_length {goal : Goal} {cap : Nat} :
    ∀ (sts : List (SearchState α)) (st0 : SearchState α), st0.records.length ≤ cap →
      (sts.foldl (reduce_combine goal (some cap)) st0).records.length ≤ cap := by
  intro sts
  induction sts with
  | nil => intro st0 h; exact h
  | cons s rest ih =>
    intro st0 h
    exact ih _ reduce_combine_length

end EngineLemmas

section RunLemmas

/-- The sequential variant's matrices come from a state satisfying the
search invariant. -/
theorem seq_exists_state (sf : KeyMatrix → Nat) (goal : Goal) (tol : F64)
    (pmax capOpt : Option Nat) (base : KeyMatrix) (r1 r2 r3 : Region) :
    ∃ st : SearchState KeyMatrix, search_inv goal (clamp01 tol) sf st ∧
      (permute_and_substitute_sequential sf goal tol pmax capOpt base r1 r2 r3).2.2 =
        st.records.map (fun e => e.matrix) := by
  refine ⟨_, ?_, rfl⟩
  exact run_fold_core_inv sf id _ _ (search_inv_init goal (clamp01 tol) sf)

/-- The parallel variant's matrices come from a state satisfying the
search invariant, for every chunking of the index range. -/
theorem par_exists_state (sf : KeyMatrix → Nat) (goal : Goal) (tol : F64)
    (pmax capOpt : Option Nat) (base : KeyMatrix) (r1 r2 r3 : Region)
    (chunks : List (List Nat)) :
    ∃ st : SearchState KeyMatrix, search_inv goal (clamp01 tol) sf st ∧
      (permute_and_substitute_parallel sf goal tol pmax capOpt base r1 r2 r3 chunks).2.2 =
        st.records.map (fun e => e.matrix) := by
  refine ⟨_, ?_, rfl⟩
  refine foldl_combine_inv _ _ (search_inv_init goal (clamp01 tol) sf) ?_
  intro s hs
  rw [List.mem_map] at hs
  obtain ⟨indices, _, rfl⟩ := hs
  exact chunk_fold_inv sf (par_index_matrix base r1 r2 r3) indices _
    (search_inv_init goal (clamp01 tol) sf)

/-- The driver's output list is the matrix projection of a record list that
is sorted by `(score descending, index ascending)` and whose entry scores
are the scoring function's values. -/
theorem driver_exists_entries (sf : KeyMatrix → Nat) (goal : Goal) (tol : F64)
    (pmax rcap : Option Nat) (par : Bool) (chunks : List (List Nat))
    (base : KeyMatrix) (r1 r2 r3 : Region) :
    ∃ entries : List (Entry KeyMatrix),
      List.Pairwise entryLE entries ∧
      (∀ e ∈ entries, e.score = sf e.matrix) ∧
      (permute_and_substitute sf goal tol pmax rcap par chunks base r1 r2 r3).2.2.1 =
        entries.map (fun e => e.matrix) := by
  obtain ⟨st, hinv, heq⟩ :
      ∃ st, search_inv goal (clamp01 tol) sf st ∧
        (if par then
          permute_and_substitute_parallel sf goal tol pmax (rcap.map (· + 1))
            base r1 r2 r3 chunks
         else
          permute_and_substitute_sequential sf goal tol pmax (rcap.map (· + 1))
            base r1 r2 r3).2.2 =
          st.records.map (fun e => e.matrix) := by
    cases par
    · exact seq_exists_state sf goal tol pmax _ base r1 r2 r3
    · exact par_exists_state sf goal tol pmax _ base r1 r2 r3 chunks
  obtain ⟨hsort, _, _, hmatch⟩ := hinv
  simp only [permute_and_substitute]
  rw [heq]
  by_cases hc : (match rcap.map (· + 1) with
    | some maxRecords => decide (maxRecords ≤ (st.records.map (fun e => e.matrix)).length)
    | none => false) = true
  · rw [if_pos hc]
    exact ⟨st.records.dropLast,
      List.Pairwise.sublist (List.dropLast_sublist _) hsort,
      fun e he => hmatch e ((List.dropLast_sublist _).subset he),
      (List.map_dropLast _ _).symm⟩
  · rw [if_neg hc]
    exact ⟨st.records, hsort, hmatch, rfl⟩

/-- The sequential variant's record list never exceeds the configured
capacity. -/
theorem seq_records_length (sf : KeyMatrix → Nat) (goal : Goal) (tol : F64)
    (pmax : Option Nat) (cap : Nat) (base : KeyMatrix) (r1 r2 r3 : Region) :
    (permute_and_substitute_sequential sf goal tol pmax (some cap)
      base r1 r2 r3).2.2.length ≤ cap := by
  obtain ⟨st, hlen, heq⟩ :
      ∃ st : SearchState KeyMatrix, st.records.length ≤ cap ∧
        (permute_and_substitute_sequential sf goal tol pmax (some cap)
          base r1 r2 r3).2.2 = st.records.map (fun e => e.matrix) := by
    refine ⟨_, ?_, rfl⟩
    exact run_fold_core_length sf id _ _ (by simp [init_state])
  rw [heq, List.length_map]
  exact hlen

/-- The parallel variant's record list never exceeds the configured
capacity, for any chunking. -/
theorem par_records_length (sf : KeyMatrix → Nat) (goal : Goal) (tol : F64)
    (pmax : Option Nat) (cap : Nat) (base : KeyMatrix) (r1 r2 r3 : Region)
    (chunks : List (List Nat)) :
    (permute_and_substitute_parallel sf goal tol pmax (some cap)
      base r1 r2 r3 chunks).2.2.length ≤ cap := by
  obtain ⟨st, hlen, heq⟩ :
      ∃ st : SearchState KeyMatrix, st.records.length ≤ cap ∧
        (permute_and_substitute_parallel sf goal tol pmax (some cap)
          base r1 r2 r3 chunks).2.2 = st.records.map (fun e => e.matrix) := by
    refine ⟨_, ?_, rfl⟩
    exact foldl_combine_length _ _ (by simp [init_state])
  rw [heq, List.length_map]
  exact hlen

end RunLemmas

/-- C2: after every `consider_record` call and after every merge of two
partial states, every retained entry satisfies the goal against the current
threshold, which is `calculate_threshold goal best_score tolerance` (this is
the `search_inv` bundle, which also records sortedness and that entry scores
are the scoring function's values); consequently, in both the sequential
fold and the chunked parallel reduction, every matrix in the final record
set satisfies the goal against the threshold of the final best score. -/
theorem c2_threshold_invariant :
    (∀ {α : Type} (goal : Goal) (tol : F64) (capOpt : Option Nat) (f : α → Nat)
      (st : SearchState α) (m : α) (i : Nat), search_inv goal tol f st →
      search_inv goal tol f (consider_record goal tol capOpt m (f m) i st)) ∧
    (∀ {α : Type} (goal : Goal) (tol : F64) (capOpt : Option Nat) (f : α → Nat)
      (s t : SearchState α), search_inv goal tol f s → search_inv goal tol f t →
      search_inv goal tol f (reduce_combine goal capOpt s t)) ∧
    (∀ (goal : Goal) (tol : F64) (capOpt : Option Nat) (f : KeyMatrix → Nat)
      (items : List (Nat × KeyMatrix)),
      ∀ M ∈ (run_fold goal tol capOpt f items).records.map (fun e => e.matrix),
        goal_satisfies goal (f M)
          (calculate_threshold goal (run_fold goal tol capOpt f items).best_score tol)) ∧
    (∀ (sf : KeyMatrix → Nat) (goal : Goal) (tol : F64) (capOpt : Option Nat)
      (base : KeyMatrix) (r1 r2 r3 : Region) (chunks : List (List Nat)),
      ∀ M ∈ ((chunks.map (par_fold_chunk sf goal tol capOpt base r1 r2 r3)).foldl
          (reduce_combine goal capOpt) (init_state goal tol)).records.map
          (fun e => e.matrix),
        goal_satisfies goal (sf M)
          (calculate_threshold goal
            ((chunks.map (par_fold_chunk sf goal tol capOpt base r1 r2 r3)).foldl
              (reduce_combine goal capOpt) (init_state goal tol)).best_score tol)) := by
  refine ⟨?_, ?_, ?_, ?_⟩
  · intro α goal tol capOpt f st m i h
    exact consider_record_inv h
  · intro α goal tol capOpt f s t hs ht
    exact reduce_combine_inv hs ht
  · intro goal tol capOpt f items M hM
    rw [List.mem_map] at hM
    obtain ⟨e, he, rfl⟩ := hM
    have hinv : search_inv goal tol f (run_fold goal tol capOpt f items) :=
      run_fold_core_inv f id items _ (search_inv_init goal tol f)
    obtain ⟨_, hok, hlink, hmatch⟩ := hinv
    have h1 := hok e he
    rw [hmatch e he, hlink] at h1
    exact h1
  · intro sf goal tol capOpt base r1 r2 r3 chunks M hM
    rw [List.mem_map] at hM
    obtain ⟨e, he, rfl⟩ := hM
    have hinv : search_inv goal tol sf
        ((chunks.map (par_fold_chunk sf goal tol capOpt base r1 r2 r3)).foldl
          (reduce_combine goal capOpt) (init_state goal tol)) := by
      refine foldl_combine_inv _ _ (search_inv_init goal tol sf) ?_
      intro s hs
      rw [List.mem_map] at hs
      obtain ⟨indices, _, rfl⟩ := hs
      exact chunk_fold_inv sf (par_index_matrix base r1 r2 r3) indices _
        (search_inv_init goal tol sf)
    obtain ⟨_, hok, hlink, hmatch⟩ := hinv
    have h1 := hok e he
    rw [hmatch e he, hlink] at h1
    exact h1

/-- Witness for C2's preservation clause on a concrete one-step state. -/
theorem c2_threshold_invariant_witness :
    search_inv .Max f64one (fun n : Nat => n)
      (consider_record .Max f64one none 5 5 0 (init_state .Max f64one)) :=
  c2_threshold_invariant.1 .Max f64one none (fun n : Nat => n)
    (init_state .Max f64one) 5 0 (search_inv_init .Max f64one (fun n : Nat => n))

/-- C4 counterexample: a sequential `Min` search over the two arrangements
of pool `[1, 2]` (tolerance 0, accepting everything) returns the
higher-scoring matrix first and the goal-best (lowest-scoring) matrix last,
refuting "best entry under the goal first: smallest score first for Min". -/
theorem c4_min_best_first_counterexample :
    (permute_and_substitute (fun m => if m = [[1, 2]] then 1 else 2) .Min f64zero
        none none false [] [[0, 0]] ⟨[1, 2], [(0, 0), (0, 1)]⟩ ⟨[], []⟩ ⟨[], []⟩).2.2.1 =
      [[[2, 1]], [[1, 2]]] ∧
    (fun (m : KeyMatrix) => if m = [[1, 2]] then 1 else 2) [[2, 1]] = 2 ∧
    (fun (m : KeyMatrix) => if m = [[1, 2]] then 1 else 2) [[1, 2]] = 1 := by
  refine ⟨by decide, by decide, by decide⟩

/-- C5: with a record cap `K`, the working record set of either variant
never exceeds `K + 1` entries (each `consider_record` step and each merge
keeps the deque within the internal cap, which the driver sets to `K + 1`),
the driver's returned list has length at most `K`, and `records_truncated`
is reported exactly when the variant's final record list reached `K + 1`
entries. -/
theorem c5_record_cap :
    (∀ {α : Type} (goal : Goal) (tol : F64) (cap : Nat) (st : SearchState α)
      (m : α) (s i : Nat), st.records.length ≤ cap →
      (consider_record goal tol (some cap) m s i st).records.length ≤ cap) ∧
    (∀ {α : Type} (goal : Goal) (cap : Nat) (s t : SearchState α),
      (reduce_combine goal (some cap) s t).records.length ≤ cap) ∧
    (∀ (sf : KeyMatrix → Nat) (goal : Goal) (tol : F64) (pmax : Option Nat)
      (K : Nat) (par : Bool) (chunks : List (List Nat))
      (base : KeyMatrix) (r1 r2 r3 : Region),
      (permute_and_substitute sf goal tol pmax (some K) par chunks
        base r1 r2 r3).2.2.1.length ≤ K ∧
      ((permute_and_substitute sf goal tol pmax (some K) par chunks
          base r1 r2 r3).2.2.2 = true ↔
        (if par then
          permute_and_substitute_parallel sf goal tol pmax (some (K + 1))
            base r1 r2 r3 chunks
         else
          permute_and_substitute_sequential sf goal tol pmax (some (K + 1))
            base r1 r2 r3).2.2.length = K + 1)) := by
  refine ⟨?_, ?_, ?_⟩
  · intro α goal tol cap st m s i h
    exact consider_record_length h
  · intro α goal cap s t
    exact reduce_combine_length
  · intro sf goal tol pmax K par chunks base r1 r2 r3
    have hcap : (if par then
        permute_and_substitute_parallel sf goal tol pmax (some (K + 1))
          base r1 r2 r3 chunks
       else
        permute_and_substitute_sequential sf goal tol pmax (some (K + 1))
          base r1 r2 r3).2.2.length ≤ K + 1 := by
      cases par
      · exact seq_records_length sf goal tol pmax (K + 1) base r1 r2 r3
      · exact par_records_length sf goal tol pmax (K + 1) base r1 r2 r3 chunks
    have h1 : (permute_and_substitute sf goal tol pmax (some K) par chunks
        base r1 r2 r3).2.2.1 =
        (if decide (K + 1 ≤ (if par then
            permute_and_substitute_parallel sf goal tol pmax (some (K + 1))
              base r1 r2 r3 chunks
           else
            permute_and_substitute_sequential sf goal tol pmax (some (K + 1))
              base r1 r2 r3).2.2.length) = true
         then (if par then
            permute_and_substitute_parallel sf goal tol pmax (some (K + 1))
              base r1 r2 r3 chunks
           else
            permute_and_substitute_sequential sf goal tol pmax (some (K + 1))
              base r1 r2 r3).2.2.dropLast
         else (if par then
            permute_and_substitute_parallel sf goal tol pmax (some (K + 1))
              base r1 r2 r3 chunks
           else
            permute_and_substitute_sequential sf goal tol pmax (some (K + 1))
              base r1 r2 r3).2.2) := rfl
    have h2 : (permute_and_substitute sf goal tol pmax (some K) par chunks
        base r1 r2 r3).2.2.2 =
        decide (K + 1 ≤ (if par then
            permute_and_substitute_parallel sf goal tol pmax (some (K + 1))
              base r1 r2 r3 chunks
           else
            permute_and_substitute_sequential sf goal tol pmax (some (K + 1))
              base r1 r2 r3).2.2.length) := rfl
    rw [h1, h2]
    by_cases hK : K + 1 ≤ (if par then
        permute_and_substitute_parallel sf goal tol pmax (some (K + 1))
          base r1 r2 r3 chunks
       else
        permute_and_substitute_sequential sf goal tol pmax (some (K + 1))
          base r1 r2 r3).2.2.length
    · have hd : decide (K + 1 ≤ (if par then
          permute_and_substitute_parallel sf goal tol pmax (some (K + 1))
            base r1 r2 r3 chunks
         else
          permute_and_substitute_sequential sf goal tol pmax (some (K + 1))
            base r1 r2 r3).2.2.length) = true := by simp [hK]
      rw [hd]
      simp only [if_true, List.length_dropLast]
      refine ⟨by omega, ?_, fun h => trivial⟩
      intro _
      omega
    · have hd : decide (K + 1 ≤ (if par then
          permute_and_substitute_parallel sf goal tol pmax (some (K + 1))
            base r1 r2 r3 chunks
         else
          permute_and_substitute_sequential sf goal tol pmax (some (K + 1))
            base r1 r2 r3).2.2.length) = false := by simp [hK]
      rw [hd]
      simp only [Bool.false_eq_true, if_false]
      refine ⟨by omega, ?_, ?_⟩
      · intro h
        exact absurd h (by simp)
      · intro h
        exact absurd (by omega : K + 1 ≤ (if par then
            permute_and_substitute_parallel sf goal tol pmax (some (K + 1))
              base r1 r2 r3 chunks
           else
            permute_and_substitute_sequential sf goal tol pmax (some (K + 1))
              base r1 r2 r3).2.2.length) hK

/-- Witness for C5 at capacity 1 on a concrete one-step state. -/
theorem c5_record_cap_witness :
    (init_state .Max f64one : SearchState Nat).records.length ≤ 1 ∧
    (consider_record .Max f64one (some 1) (5 : Nat) 5 0
      (init_state .Max f64one)).records.length ≤ 1 :=
  ⟨by decide, c5_record_cap.1 .Max f64one 1 (init_state .Max f64one) 5 5 0 (by decide)⟩

/-- C1 evaluation at the failing input: on the base matrix `[[0,0,0]]` with
one region of pool `[1,2,3]`, goal `Max`, tolerance 1.0 and a scoring
function giving the two arrangements `[3,2,1]` and `[3,1,2]` the same top
score, the sequential variant returns `[[3,2,1]], [[3,1,2]]` while the
parallel variant (single chunk, i.e. one thread) returns `[[3,1,2]],
[[3,2,1]]`: the ordered lists differ, because sequential enumeration
(swap-recursion order) and parallel decoding (factorial-number-system
order) assign different indices to those arrangements. -/
theorem c1_divergence :
    (permute_and_substitute
        (fun m => if m = [[3, 2, 1]] ∨ m = [[3, 1, 2]] then 10 else 1) .Max f64one
        none none false [] [[0, 0, 0]] ⟨[1, 2, 3], [(0, 0), (0, 1), (0, 2)]⟩
        ⟨[], []⟩ ⟨[], []⟩ =
      (6, false, [[[3, 2, 1]], [[3, 1, 2]]], false)) ∧
    (permute_and_substitute
        (fun m => if m = [[3, 2, 1]] ∨ m = [[3, 1, 2]] then 10 else 1) .Max f64one
        none none true [[0, 1, 2, 3, 4, 5]] [[0, 0, 0]]
        ⟨[1, 2, 3], [(0, 0), (0, 1), (0, 2)]⟩ ⟨[], []⟩ ⟨[], []⟩ =
      (6, false, [[[3, 1, 2]], [[3, 2, 1]]], false)) ∧
    ([[[3, 2, 1]], [[3, 1, 2]]] : List KeyMatrix) ≠ [[[3, 1, 2]], [[3, 2, 1]]] :=
  ⟨by decide, by decide, by decide⟩

end Perky

namespace Perky

/-- A record passes the whole filter list exactly when every filter
evaluates to a value that the loop does not drop. -/
theorem record_passes_ok_true_iff (filters : List Expression) (env : SymbolTable) :
    record_passes filters env = .ok true ↔
      ∀ f ∈ filters, ∃ v, evaluate f env = .ok v ∧ drops_value v = false := by
  induction filters with
  | nil => simp [record_passes]
  | cons f rest ih =>
    rw [record_passes]
    cases hf : evaluate f env with
    | error e =>
      constructor
      · intro h; cases h
      · intro h
        obtain ⟨v, hv, _⟩ := h f (by simp)
        rw [hf] at hv; cases hv
    | ok v =>
      cases v with
      | Number n =>
        dsimp only
        cases hz : feqB n f64zero with
        | true =>
          rw [if_pos (show true = true from rfl)]
          constructor
          · intro h; cases h
          · intro h
            obtain ⟨v, hv, hd⟩ := h f (by simp)
            rw [hf] at hv
            cases hv
            simp [drops_value, hz] at hd
        | false =>
          rw [if_neg (show ¬(false = true) from by decide)]
          rw [ih]
          constructor
          · intro h g hg
            rcases List.mem_cons.mp hg with hgf | hgr
            · exact hgf ▸ ⟨.Number n, hf, by simp [drops_value, hz]⟩
            · exact h g hgr
          · intro h g hg
            exact h g (List.mem_cons_of_mem _ hg)
      | Boolean b =>
        dsimp only
        cases b with
        | false =>
          rw [if_pos (show (!false) = true from rfl)]
          constructor
          · intro h; cases h
          · intro h
            obtain ⟨v, hv, hd⟩ := h f (by simp)
            rw [hf] at hv
            cases hv
            simp [drops_value] at hd
        | true =>
          rw [if_neg (show ¬((!true) = true) from by decide)]
          rw [ih]
          constructor
          · intro h g hg
            rcases List.mem_cons.mp hg with hgf | hgr
            · exact hgf ▸ ⟨.Boolean true, hf, by simp [drops_value]⟩
            · exact h g hgr
          · intro h g hg
            exact h g (List.mem_cons_of_mem _ hg)

/-- When no record errors, filtering keeps exactly the records whose filter
loop returns `Ok(true)`, in their original order. -/
theorem filter_records_all_ok (filters : List Expression) (records : List SymbolTable)
    (h : ∀ r ∈ records, ∃ b, record_passes filters r = .ok b) :
    filter_records records filters =
      .ok (records.filter fun r =>
        match record_passes filters r with
        | .ok true => true
        | _ => false) := by
  induction records with
  | nil => simp [filter_records]
  | cons r rest ih =>
    have ih' := ih (fun x hx => h x (List.mem_cons_of_mem _ hx))
    rw [filter_records]
    cases hemp : filters.isEmpty with
    | true =>
      rw [List.isEmpty_iff] at hemp
      subst hemp
      simp only [List.isEmpty_nil, if_true]
      rw [ih']
      simp [List.filter, record_passes]
    | false =>
      simp only [hemp, Bool.false_eq_true, if_false]
      obtain ⟨b, hb⟩ := h r (by simp)
      cases b with
      | true =>
        rw [hb, ih']
        simp only [List.filter, hb]
      | false =>
        rw [hb, ih']
        simp only [List.filter, hb]

/-- The first record whose filter loop errors aborts the whole filtering
with that error (records before it all finish their loop without error). -/
theorem filter_records_first_error (filters : List Expression) (e : EvalError)
    (env : SymbolTable) (henv : record_passes filters env = .error e)
    (pre post : List SymbolTable)
    (hpre : ∀ r ∈ pre, ∃ b, record_passes filters r = .ok b) :
    filter_records (pre ++ env :: post) filters = .error e := by
  have hne : filters.isEmpty = false := by
    cases filters with
    | nil => rw [record_passes] at henv; cases henv
    | cons f fs => rfl
  induction pre with
  | nil =>
    simp only [List.nil_append]
    rw [filter_records]
    simp [hne, henv]
  | cons r pre' ih =>
    have ih' := ih (fun x hx => hpre x (List.mem_cons_of_mem _ hx))
    rw [List.cons_append, filter_records]
    simp only [hne, Bool.false_eq_true, if_false]
    obtain ⟨b, hb⟩ := hpre r (by simp)
    cases b with
    | true => rw [hb, ih']
    | false => rw [hb]; exact ih'

/-- **C8 counterexample.** The filter `Number(∞)` evaluates to a non-truthy
number (infinite, hence not "finite and non-zero"), yet the record is
retained: the loop only drops on `Number == 0.0` or `Boolean(false)`. -/
theorem c8_nontruthy_number_retained :
    evaluate (.Number (F64.inf false)) (fun _ => none) = .ok (.Number (F64.inf false))
    ∧ truthy (.Number (F64.inf false)) = false
    ∧ filter_records [fun _ => none] [.Number (F64.inf false)] =
        .ok [fun _ => none] :=
  ⟨rfl, by decide, rfl⟩

/-- **C8 (amended).** A record passes the filter loop exactly when every
filter evaluates `Ok` to a value other than a `== 0.0` number or
`Boolean(false)` (so non-truthy numbers such as ±∞ and NaN do NOT drop the
record); when no processed record errors, `filter_records` keeps exactly
the passing records in order; and the first record whose filter loop errors
aborts the whole filtering with that error. -/
theorem c8_filter_semantics (filters : List Expression) (env : SymbolTable)
    (records : List SymbolTable) :
    (record_passes filters env = .ok true ↔
      ∀ f ∈ filters, ∃ v, evaluate f env = .ok v ∧ drops_value v = false)
    ∧ ((∀ r ∈ records, ∃ b, record_passes filters r = .ok b) →
        filter_records records filters =
          .ok (records.filter fun r =>
            match record_passes filters r with
            | .ok true => true
            | _ => false))
    ∧ (∀ e, record_passes filters env = .error e →
        ∀ pre post, (∀ r ∈ pre, ∃ b, record_passes filters r = .ok b) →
          filter_records (pre ++ env :: post) filters = .error e) :=
  ⟨record_passes_ok_true_iff filters env,
   fun h => filter_records_all_ok filters records h,
   fun e he pre post hpre => filter_records_first_error filters e env he pre post hpre⟩

/-- Witness for C8: a trivially-true filter keeps both records, and an
undefined variable in the filter aborts with that error. -/
theorem c8_filter_semantics_witness :
    filter_records [(fun _ => none : SymbolTable), (fun _ => none : SymbolTable)]
        [.Boolean true]
      = .ok [(fun _ => none : SymbolTable), (fun _ => none : SymbolTable)]
    ∧ filter_records [(fun _ => none : SymbolTable)] [.Name "x"] =
        .error (.UndefinedVariable "x") := by
  constructor
  · have h := (c8_filter_semantics [.Boolean true] (fun _ => none)
      [(fun _ => none : SymbolTable), (fun _ => none : SymbolTable)]).2.1
      (fun r _ => ⟨true, rfl⟩)
    exact h.trans rfl
  · have h := (c8_filter_semantics [.Name "x"] (fun _ => none) []).2.2
      (.UndefinedVariable "x") rfl [] [] (fun r hr => absurd hr (by simp))
    exact h

end Perky


namespace Perky

/-- Every expression has at least one node. -/
theorem esize_pos (E : Expression) : 1 ≤ esize E := by
  cases E <;> simp [esize] <;> omega

/-- Folding a unary node adds at most one node over the operand. -/
theorem esize_reduceUnary_le (op : UnaryOperator) (e : Expression) :
    esize (reduceUnary op e) ≤ esize e + 1 := by
  unfold reduceUnary
  split <;> (try simp only [esize]) <;> omega

set_option maxHeartbeats 1600000 in
/-- Folding a binary node is bounded by the node count of the unfolded node. -/
theorem esize_reduceBinary_le (l : Expression) (op : BinaryOperator) (r : Expression) :
    esize (reduceBinary l op r) ≤ esize l + esize r + 1 := by
  cases l with
  | Name s1 =>
    cases r with
    | Name s2 =>
      cases op <;> first | (simp only [reduceBinary, esize]; omega) | (simp only [reduceBinary]; split <;> first | ((try simp only [esize]); omega) | (split <;> (try simp only [esize]) <;> omega))
    | Number n2 =>
      cases op <;> first | (simp only [reduceBinary, esize]; omega) | (simp only [reduceBinary]; split <;> first | ((try simp only [esize]); omega) | (split <;> (try simp only [esize]) <;> omega))
    | Boolean b2 =>
      cases b2 <;> cases op <;> first | (simp only [reduceBinary, esize]; omega) | (simp only [reduceBinary]; split <;> first | ((try simp only [esize]); omega) | (split <;> (try simp only [esize]) <;> omega))
    | Unary u2 e2 =>
      cases op <;> first | (simp only [reduceBinary, esize]; omega) | (simp only [reduceBinary]; split <;> first | ((try simp only [esize]); omega) | (split <;> (try simp only [esize]) <;> omega))
    | Binary l2 o2 r2 =>
      cases op <;> first | (simp only [reduceBinary, esize]; omega) | (simp only [reduceBinary]; split <;> first | ((try simp only [esize]); omega) | (split <;> (try simp only [esize]) <;> omega))
  | Number n1 =>
    cases r with
    | Name s2 =>
      cases op <;> first | (simp only [reduceBinary, esize]; omega) | (simp only [reduceBinary]; split <;> first | ((try simp only [esize]); omega) | (split <;> (try simp only [esize]) <;> omega))
    | Number n2 =>
      cases op <;> first | (simp only [reduceBinary, esize]; omega) | (simp only [reduceBinary]; split <;> first | ((try simp only [esize]); omega) | (split <;> (try simp only [esize]) <;> omega))
    | Boolean b2 =>
      cases b2 <;> cases op <;> first | (simp only [reduceBinary, esize]; omega) | (simp only [reduceBinary]; split <;> first | ((try simp only [esize]); omega) | (split <;> (try simp only [esize]) <;> omega))
    | Unary u2 e2 =>
      cases op <;> first | (simp only [reduceBinary, esize]; omega) | (simp only [reduceBinary]; split <;> first | ((try simp only [esize]); omega) | (split <;> (try simp only [esize]) <;> omega))
    | Binary l2 o2 r2 =>
      cases op <;> first | (simp only [reduceBinary, esize]; omega) | (simp only [reduceBinary]; split <;> first | ((try simp only [esize]); omega) | (split <;> (try simp only [esize]) <;> omega))
  | Boolean b1 =>
    cases b1 with
    | false =>
      cases r with
      | Name s2 =>
        cases op <;> first | (simp only [reduceBinary, esize]; omega) | (simp only [reduceBinary]; split <;> first | ((try simp only [esize]); omega) | (split <;> (try simp only [esize]) <;> omega))
      | Number n2 =>
        cases op <;> first | (simp only [reduceBinary, esize]; omega) | (simp only [reduceBinary]; split <;> first | ((try simp only [esize]); omega) | (split <;> (try simp only [esize]) <;> omega))
      | Boolean b2 =>
        cases b2 <;> cases op <;> first | (simp only [reduceBinary, esize]; omega) | (simp only [reduceBinary]; split <;> first | ((try simp only [esize]); omega) | (split <;> (try simp only [esize]) <;> omega))
      | Unary u2 e2 =>
        cases op <;> first | (simp only [reduceBinary, esize]; omega) | (simp only [reduceBinary]; split <;> first | ((try simp only [esize]); omega) | (split <;> (try simp only [esize]) <;> omega))
      | Binary l2 o2 r2 =>
        cases op <;> first | (simp only [reduceBinary, esize]; omega) | (simp only [reduceBinary]; split <;> first | ((try simp only [esize]); omega) | (split <;> (try simp only [esize]) <;> omega))
    | true =>
      cases r with
      | Name s2 =>
        cases op <;> first | (simp only [reduceBinary, esize]; omega) | (simp only [reduceBinary]; split <;> first | ((try simp only [esize]); omega) | (split <;> (try simp only [esize]) <;> omega))
      | Number n2 =>
        cases op <;> first | (simp only [reduceBinary, esize]; omega) | (simp only [reduceBinary]; split <;> first | ((try simp only [esize]); omega) | (split <;> (try simp only [esize]) <;> omega))
      | Boolean b2 =>
        cases b2 <;> cases op <;> first | (simp only [reduceBinary, esize]; omega) | (simp only [reduceBinary]; split <;> first | ((try simp only [esize]); omega) | (split <;> (try simp only [esize]) <;> omega))
      | Unary u2 e2 =>
        cases op <;> first | (simp only [reduceBinary, esize]; omega) | (simp only [reduceBinary]; split <;> first | ((try simp only [esize]); omega) | (split <;> (try simp only [esize]) <;> omega))
      | Binary l2 o2 r2 =>
        cases op <;> first | (simp only [reduceBinary, esize]; omega) | (simp only [reduceBinary]; split <;> first | ((try simp only [esize]); omega) | (split <;> (try simp only [esize]) <;> omega))
  | Unary u1 e1 =>
    cases r with
    | Name s2 =>
      cases op <;> first | (simp only [reduceBinary, esize]; omega) | (simp only [reduceBinary]; split <;> first | ((try simp only [esize]); omega) | (split <;> (try simp only [esize]) <;> omega))
    | Number n2 =>
      cases op <;> first | (simp only [reduceBinary, esize]; omega) | (simp only [reduceBinary]; split <;> first | ((try simp only [esize]); omega) | (split <;> (try simp only [esize]) <;> omega))
    | Boolean b2 =>
      cases b2 <;> cases op <;> first | (simp only [reduceBinary, esize]; omega) | (simp only [reduceBinary]; split <;> first | ((try simp only [esize]); omega) | (split <;> (try simp only [esize]) <;> omega))
    | Unary u2 e2 =>
      cases op <;> first | (simp only [reduceBinary, esize]; omega) | (simp only [reduceBinary]; split <;> first | ((try simp only [esize]); omega) | (split <;> (try simp only [esize]) <;> omega))
    | Binary l2 o2 r2 =>
      cases op <;> first | (simp only [reduceBinary, esize]; omega) | (simp only [reduceBinary]; split <;> first | ((try simp only [esize]); omega) | (split <;> (try simp only [esize]) <;> omega))
  | Binary l1 o1 r1 =>
    cases r with
    | Name s2 =>
      cases op <;> first | (simp only [reduceBinary, esize]; omega) | (simp only [reduceBinary]; split <;> first | ((try simp only [esize]); omega) | (split <;> (try simp only [esize]) <;> omega))
    | Number n2 =>
      cases op <;> first | (simp only [reduceBinary, esize]; omega) | (simp only [reduceBinary]; split <;> first | ((try simp only [esize]); omega) | (split <;> (try simp only [esize]) <;> omega))
    | Boolean b2 =>
      cases b2 <;> cases op <;> first | (simp only [reduceBinary, esize]; omega) | (simp only [reduceBinary]; split <;> first | ((try simp only [esize]); omega) | (split <;> (try simp only [esize]) <;> omega))
    | Unary u2 e2 =>
      cases op <;> first | (simp only [reduceBinary, esize]; omega) | (simp only [reduceBinary]; split <;> first | ((try simp only [esize]); omega) | (split <;> (try simp only [esize]) <;> omega))
    | Binary l2 o2 r2 =>
      cases op <;> first | (simp only [reduceBinary, esize]; omega) | (simp only [reduceBinary]; split <;> first | ((try simp only [esize]); omega) | (split <;> (try simp only [esize]) <;> omega))

/-- Reduction never increases the node count. -/
theorem esize_reduce_le (E : Expression) : esize (reduce E) ≤ esize E := by
  induction E with
  | Name s => simp [reduce]
  | Number n => simp [reduce]
  | Boolean b => simp [reduce]
  | Unary op e ih =>
    calc esize (reduce (.Unary op e)) = esize (reduceUnary op (reduce e)) := rfl
    _ ≤ esize (reduce e) + 1 := esize_reduceUnary_le op (reduce e)
    _ ≤ esize e + 1 := by omega
    _ = esize (.Unary op e) := by simp [esize]
  | Binary l op r ihl ihr =>
    calc esize (reduce (.Binary l op r))
        = esize (reduceBinary (reduce l) op (reduce r)) := rfl
    _ ≤ esize (reduce l) + esize (reduce r) + 1 := esize_reduceBinary_le _ _ _
    _ ≤ esize l + esize r + 1 := by omega
    _ = esize (.Binary l op r) := by simp [esize]

/-- A folded unary node is a literal, the operand of an eliminated double
negation, or the node itself unchanged. -/
theorem reduceUnary_shape (op : UnaryOperator) (e : Expression) :
    (∃ n, reduceUnary op e = .Number n) ∨ (∃ b, reduceUnary op e = .Boolean b)
    ∨ (∃ inner, op = .Not ∧ e = .Unary .Not inner ∧ reduceUnary op e = inner)
    ∨ reduceUnary op e = .Unary op e := by
  unfold reduceUnary
  split
  · exact Or.inl ⟨_, rfl⟩
  · exact Or.inr (Or.inl ⟨_, rfl⟩)
  · exact Or.inr (Or.inl ⟨_, rfl⟩)
  · exact Or.inr (Or.inr (Or.inl ⟨_, rfl, rfl, rfl⟩))
  · exact Or.inr (Or.inr (Or.inr rfl))

/-- A folded binary node is a literal or the node itself unchanged. -/
theorem reduceBinary_shape (l : Expression) (op : BinaryOperator) (r : Expression) :
    (∃ n, reduceBinary l op r = .Number n) ∨ (∃ b, reduceBinary l op r = .Boolean b)
    ∨ reduceBinary l op r = .Binary l op r := by
  cases l with
  | Name s1 =>
    cases r with
    | Name s2 =>
      cases op <;> first | exact Or.inl ⟨_, rfl⟩ | exact Or.inr (Or.inl ⟨_, rfl⟩) | exact Or.inr (Or.inr rfl) | (simp only [reduceBinary]; split <;> first | exact Or.inl ⟨_, rfl⟩ | exact Or.inr (Or.inl ⟨_, rfl⟩) | exact Or.inr (Or.inr rfl) | (split <;> first | exact Or.inr (Or.inl ⟨_, rfl⟩) | exact Or.inr (Or.inr rfl)))
    | Number n2 =>
      cases op <;> first | exact Or.inl ⟨_, rfl⟩ | exact Or.inr (Or.inl ⟨_, rfl⟩) | exact Or.inr (Or.inr rfl) | (simp only [reduceBinary]; split <;> first | exact Or.inl ⟨_, rfl⟩ | exact Or.inr (Or.inl ⟨_, rfl⟩) | exact Or.inr (Or.inr rfl) | (split <;> first | exact Or.inr (Or.inl ⟨_, rfl⟩) | exact Or.inr (Or.inr rfl)))
    | Boolean b2 =>
      cases b2 <;> cases op <;> first | exact Or.inl ⟨_, rfl⟩ | exact Or.inr (Or.inl ⟨_, rfl⟩) | exact Or.inr (Or.inr rfl) | (simp only [reduceBinary]; split <;> first | exact Or.inl ⟨_, rfl⟩ | exact Or.inr (Or.inl ⟨_, rfl⟩) | exact Or.inr (Or.inr rfl) | (split <;> first | exact Or.inr (Or.inl ⟨_, rfl⟩) | exact Or.inr (Or.inr rfl)))
    | Unary u2 e2 =>
      cases op <;> first | exact Or.inl ⟨_, rfl⟩ | exact Or.inr (Or.inl ⟨_, rfl⟩) | exact Or.inr (Or.inr rfl) | (simp only [reduceBinary]; split <;> first | exact Or.inl ⟨_, rfl⟩ | exact Or.inr (Or.inl ⟨_, rfl⟩) | exact Or.inr (Or.inr rfl) | (split <;> first | exact Or.inr (Or.inl ⟨_, rfl⟩) | exact Or.inr (Or.inr rfl)))
    | Binary l2 o2 r2 =>
      cases op <;> first | exact Or.inl ⟨_, rfl⟩ | exact Or.inr (Or.inl ⟨_, rfl⟩) | exact Or.inr (Or.inr rfl) | (simp only [reduceBinary]; split <;> first | exact Or.inl ⟨_, rfl⟩ | exact Or.inr (Or.inl ⟨_, rfl⟩) | exact Or.inr (Or.inr rfl) | (split <;> first | exact Or.inr (Or.inl ⟨_, rfl⟩) | exact Or.inr (Or.inr rfl)))
  | Number n1 =>
    cases r with
    | Name s2 =>
      cases op <;> first | exact Or.inl ⟨_, rfl⟩ | exact Or.inr (Or.inl ⟨_, rfl⟩) | exact Or.inr (Or.inr rfl) | (simp only [reduceBinary]; split <;> first | exact Or.inl ⟨_, rfl⟩ | exact Or.inr (Or.inl ⟨_, rfl⟩) | exact Or.inr (Or.inr rfl) | (split <;> first | exact Or.inr (Or.inl ⟨_, rfl⟩) | exact Or.inr (Or.inr rfl)))
    | Number n2 =>
      cases op <;> first | exact Or.inl ⟨_, rfl⟩ | exact Or.inr (Or.inl ⟨_, rfl⟩) | exact Or.inr (Or.inr rfl) | (simp only [reduceBinary]; split <;> first | exact Or.inl ⟨_, rfl⟩ | exact Or.inr (Or.inl ⟨_, rfl⟩) | exact Or.inr (Or.inr rfl) | (split <;> first | exact Or.inr (Or.inl ⟨_, rfl⟩) | exact Or.inr (Or.inr rfl)))
    | Boolean b2 =>
      cases b2 <;> cases op <;> first | exact Or.inl ⟨_, rfl⟩ | exact Or.inr (Or.inl ⟨_, rfl⟩) | exact Or.inr (Or.inr rfl) | (simp only [reduceBinary]; split <;> first | exact Or.inl ⟨_, rfl⟩ | exact Or.inr (Or.inl ⟨_, rfl⟩) | exact Or.inr (Or.inr rfl) | (split <;> first | exact Or.inr (Or.inl ⟨_, rfl⟩) | exact Or.inr (Or.inr rfl)))
    | Unary u2 e2 =>
      cases op <;> first | exact Or.inl ⟨_, rfl⟩ | exact Or.inr (Or.inl ⟨_, rfl⟩) | exact Or.inr (Or.inr rfl) | (simp only [reduceBinary]; split <;> first | exact Or.inl ⟨_, rfl⟩ | exact Or.inr (Or.inl ⟨_, rfl⟩) | exact Or.inr (Or.inr rfl) | (split <;> first | exact Or.inr (Or.inl ⟨_, rfl⟩) | exact Or.inr (Or.inr rfl)))
    | Binary l2 o2 r2 =>
      cases op <;> first | exact Or.inl ⟨_, rfl⟩ | exact Or.inr (Or.inl ⟨_, rfl⟩) | exact Or.inr (Or.inr rfl) | (simp only [reduceBinary]; split <;> first | exact Or.inl ⟨_, rfl⟩ | exact Or.inr (Or.inl ⟨_, rfl⟩) | exact Or.inr (Or.inr rfl) | (split <;> first | exact Or.inr (Or.inl ⟨_, rfl⟩) | exact Or.inr (Or.inr rfl)))
  | Boolean b1 =>
    cases b1 with
    | false =>
      cases r with
      | Name s2 =>
        cases op <;> first | exact Or.inl ⟨_, rfl⟩ | exact Or.inr (Or.inl ⟨_, rfl⟩) | exact Or.inr (Or.inr rfl) | (simp only [reduceBinary]; split <;> first | exact Or.inl ⟨_, rfl⟩ | exact Or.inr (Or.inl ⟨_, rfl⟩) | exact Or.inr (Or.inr rfl) | (split <;> first | exact Or.inr (Or.inl ⟨_, rfl⟩) | exact Or.inr (Or.inr rfl)))
      | Number n2 =>
        cases op <;> first | exact Or.inl ⟨_, rfl⟩ | exact Or.inr (Or.inl ⟨_, rfl⟩) | exact Or.inr (Or.inr rfl) | (simp only [reduceBinary]; split <;> first | exact Or.inl ⟨_, rfl⟩ | exact Or.inr (Or.inl ⟨_, rfl⟩) | exact Or.inr (Or.inr rfl) | (split <;> first | exact Or.inr (Or.inl ⟨_, rfl⟩) | exact Or.inr (Or.inr rfl)))
      | Boolean b2 =>
        cases b2 <;> cases op <;> first | exact Or.inl ⟨_, rfl⟩ | exact Or.inr (Or.inl ⟨_, rfl⟩) | exact Or.inr (Or.inr rfl) | (simp only [reduceBinary]; split <;> first | exact Or.inl ⟨_, rfl⟩ | exact Or.inr (Or.inl ⟨_, rfl⟩) | exact Or.inr (Or.inr rfl) | (split <;> first | exact Or.inr (Or.inl ⟨_, rfl⟩) | exact Or.inr (Or.inr rfl)))
      | Unary u2 e2 =>
        cases op <;> first | exact Or.inl ⟨_, rfl⟩ | exact Or.inr (Or.inl ⟨_, rfl⟩) | exact Or.inr (Or.inr rfl) | (simp only [reduceBinary]; split <;> first | exact Or.inl ⟨_, rfl⟩ | exact Or.inr (Or.inl ⟨_, rfl⟩) | exact Or.inr (Or.inr rfl) | (split <;> first | exact Or.inr (Or.inl ⟨_, rfl⟩) | exact Or.inr (Or.inr rfl)))
      | Binary l2 o2 r2 =>
        cases op <;> first | exact Or.inl ⟨_, rfl⟩ | exact Or.inr (Or.inl ⟨_, rfl⟩) | exact Or.inr (Or.inr rfl) | (simp only [reduceBinary]; split <;> first | exact Or.inl ⟨_, rfl⟩ | exact Or.inr (Or.inl ⟨_, rfl⟩) | exact Or.inr (Or.inr rfl) | (split <;> first | exact Or.inr (Or.inl ⟨_, rfl⟩) | exact Or.inr (Or.inr rfl)))
    | true =>
      cases r with
      | Name s2 =>
        cases op <;> first | exact Or.inl ⟨_, rfl⟩ | exact Or.inr (Or.inl ⟨_, rfl⟩) | exact Or.inr (Or.inr rfl) | (simp only [reduceBinary]; split <;> first | exact Or.inl ⟨_, rfl⟩ | exact Or.inr (Or.inl ⟨_, rfl⟩) | exact Or.inr (Or.inr rfl) | (split <;> first | exact Or.inr (Or.inl ⟨_, rfl⟩) | exact Or.inr (Or.inr rfl)))
      | Number n2 =>
        cases op <;> first | exact Or.inl ⟨_, rfl⟩ | exact Or.inr (Or.inl ⟨_, rfl⟩) | exact Or.inr (Or.inr rfl) | (simp only [reduceBinary]; split <;> first | exact Or.inl ⟨_, rfl⟩ | exact Or.inr (Or.inl ⟨_, rfl⟩) | exact Or.inr (Or.inr rfl) | (split <;> first | exact Or.inr (Or.inl ⟨_, rfl⟩) | exact Or.inr (Or.inr rfl)))
      | Boolean b2 =>
        cases b2 <;> cases op <;> first | exact Or.inl ⟨_, rfl⟩ | exact Or.inr (Or.inl ⟨_, rfl⟩) | exact Or.inr (Or.inr rfl) | (simp only [reduceBinary]; split <;> first | exact Or.inl ⟨_, rfl⟩ | exact Or.inr (Or.inl ⟨_, rfl⟩) | exact Or.inr (Or.inr rfl) | (split <;> first | exact Or.inr (Or.inl ⟨_, rfl⟩) | exact Or.inr (Or.inr rfl)))
      | Unary u2 e2 =>
        cases op <;> first | exact Or.inl ⟨_, rfl⟩ | exact Or.inr (Or.inl ⟨_, rfl⟩) | exact Or.inr (Or.inr rfl) | (simp only [reduceBinary]; split <;> first | exact Or.inl ⟨_, rfl⟩ | exact Or.inr (Or.inl ⟨_, rfl⟩) | exact Or.inr (Or.inr rfl) | (split <;> first | exact Or.inr (Or.inl ⟨_, rfl⟩) | exact Or.inr (Or.inr rfl)))
      | Binary l2 o2 r2 =>
        cases op <;> first | exact Or.inl ⟨_, rfl⟩ | exact Or.inr (Or.inl ⟨_, rfl⟩) | exact Or.inr (Or.inr rfl) | (simp only [reduceBinary]; split <;> first | exact Or.inl ⟨_, rfl⟩ | exact Or.inr (Or.inl ⟨_, rfl⟩) | exact Or.inr (Or.inr rfl) | (split <;> first | exact Or.inr (Or.inl ⟨_, rfl⟩) | exact Or.inr (Or.inr rfl)))
  | Unary u1 e1 =>
    cases r with
    | Name s2 =>
      cases op <;> first | exact Or.inl ⟨_, rfl⟩ | exact Or.inr (Or.inl ⟨_, rfl⟩) | exact Or.inr (Or.inr rfl) | (simp only [reduceBinary]; split <;> first | exact Or.inl ⟨_, rfl⟩ | exact Or.inr (Or.inl ⟨_, rfl⟩) | exact Or.inr (Or.inr rfl) | (split <;> first | exact Or.inr (Or.inl ⟨_, rfl⟩) | exact Or.inr (Or.inr rfl)))
    | Number n2 =>
      cases op <;> first | exact Or.inl ⟨_, rfl⟩ | exact Or.inr (Or.inl ⟨_, rfl⟩) | exact Or.inr (Or.inr rfl) | (simp only [reduceBinary]; split <;> first | exact Or.inl ⟨_, rfl⟩ | exact Or.inr (Or.inl ⟨_, rfl⟩) | exact Or.inr (Or.inr rfl) | (split <;> first | exact Or.inr (Or.inl ⟨_, rfl⟩) | exact Or.inr (Or.inr rfl)))
    | Boolean b2 =>
      cases b2 <;> cases op <;> first | exact Or.inl ⟨_, rfl⟩ | exact Or.inr (Or.inl ⟨_, rfl⟩) | exact Or.inr (Or.inr rfl) | (simp only [reduceBinary]; split <;> first | exact Or.inl ⟨_, rfl⟩ | exact Or.inr (Or.inl ⟨_, rfl⟩) | exact Or.inr (Or.inr rfl) | (split <;> first | exact Or.inr (Or.inl ⟨_, rfl⟩) | exact Or.inr (Or.inr rfl)))
    | Unary u2 e2 =>
      cases op <;> first | exact Or.inl ⟨_, rfl⟩ | exact Or.inr (Or.inl ⟨_, rfl⟩) | exact Or.inr (Or.inr rfl) | (simp only [reduceBinary]; split <;> first | exact Or.inl ⟨_, rfl⟩ | exact Or.inr (Or.inl ⟨_, rfl⟩) | exact Or.inr (Or.inr rfl) | (split <;> first | exact Or.inr (Or.inl ⟨_, rfl⟩) | exact Or.inr (Or.inr rfl)))
    | Binary l2 o2 r2 =>
      cases op <;> first | exact Or.inl ⟨_, rfl⟩ | exact Or.inr (Or.inl ⟨_, rfl⟩) | exact Or.inr (Or.inr rfl) | (simp only [reduceBinary]; split <;> first | exact Or.inl ⟨_, rfl⟩ | exact Or.inr (Or.inl ⟨_, rfl⟩) | exact Or.inr (Or.inr rfl) | (split <;> first | exact Or.inr (Or.inl ⟨_, rfl⟩) | exact Or.inr (Or.inr rfl)))
  | Binary l1 o1 r1 =>
    cases r with
    | Name s2 =>
      cases op <;> first | exact Or.inl ⟨_, rfl⟩ | exact Or.inr (Or.inl ⟨_, rfl⟩) | exact Or.inr (Or.inr rfl) | (simp only [reduceBinary]; split <;> first | exact Or.inl ⟨_, rfl⟩ | exact Or.inr (Or.inl ⟨_, rfl⟩) | exact Or.inr (Or.inr rfl) | (split <;> first | exact Or.inr (Or.inl ⟨_, rfl⟩) | exact Or.inr (Or.inr rfl)))
    | Number n2 =>
      cases op <;> first | exact Or.inl ⟨_, rfl⟩ | exact Or.inr (Or.inl ⟨_, rfl⟩) | exact Or.inr (Or.inr rfl) | (simp only [reduceBinary]; split <;> first | exact Or.inl ⟨_, rfl⟩ | exact Or.inr (Or.inl ⟨_, rfl⟩) | exact Or.inr (Or.inr rfl) | (split <;> first | exact Or.inr (Or.inl ⟨_, rfl⟩) | exact Or.inr (Or.inr rfl)))
    | Boolean b2 =>
      cases b2 <;> cases op <;> first | exact Or.inl ⟨_, rfl⟩ | exact Or.inr (Or.inl ⟨_, rfl⟩) | exact Or.inr (Or.inr rfl) | (simp only [reduceBinary]; split <;> first | exact Or.inl ⟨_, rfl⟩ | exact Or.inr (Or.inl ⟨_, rfl⟩) | exact Or.inr (Or.inr rfl) | (split <;> first | exact Or.inr (Or.inl ⟨_, rfl⟩) | exact Or.inr (Or.inr rfl)))
    | Unary u2 e2 =>
      cases op <;> first | exact Or.inl ⟨_, rfl⟩ | exact Or.inr (Or.inl ⟨_, rfl⟩) | exact Or.inr (Or.inr rfl) | (simp only [reduceBinary]; split <;> first | exact Or.inl ⟨_, rfl⟩ | exact Or.inr (Or.inl ⟨_, rfl⟩) | exact Or.inr (Or.inr rfl) | (split <;> first | exact Or.inr (Or.inl ⟨_, rfl⟩) | exact Or.inr (Or.inr rfl)))
    | Binary l2 o2 r2 =>
      cases op <;> first | exact Or.inl ⟨_, rfl⟩ | exact Or.inr (Or.inl ⟨_, rfl⟩) | exact Or.inr (Or.inr rfl) | (simp only [reduceBinary]; split <;> first | exact Or.inl ⟨_, rfl⟩ | exact Or.inr (Or.inl ⟨_, rfl⟩) | exact Or.inr (Or.inr rfl) | (split <;> first | exact Or.inr (Or.inl ⟨_, rfl⟩) | exact Or.inr (Or.inr rfl)))

/-- Folding a unary node whose operand is already reduced yields a reduced
expression. -/
theorem reduce_reduceUnary (op : UnaryOperator) (e : Expression) (he : reduce e = e) :
    reduce (reduceUnary op e) = reduceUnary op e := by
  rcases reduceUnary_shape op e with ⟨n, h⟩ | ⟨b, h⟩ | ⟨inner, hop, hE, h⟩ | h
  · rw [h]; rfl
  · rw [h]; rfl
  · rw [h]
    subst hop; subst hE
    have he' : reduceUnary .Not (reduce inner) = .Unary .Not inner := he
    rcases reduceUnary_shape .Not (reduce inner) with
      ⟨n, h2⟩ | ⟨b, h2⟩ | ⟨x, _, hx, h2⟩ | h2
    · rw [h2] at he'; cases he'
    · rw [h2] at he'; cases he'
    · rw [h2] at he'
      exfalso
      have hsz := esize_reduce_le inner
      rw [hx, he'] at hsz
      simp only [esize] at hsz
      omega
    · rw [h2] at he'
      exact (Expression.Unary.inj he').2
  · rw [h]
    show reduceUnary op (reduce e) = .Unary op e
    rw [he, h]

/-- Folding a binary node whose operands are already reduced yields a
reduced expression. -/
theorem reduce_reduceBinary (l : Expression) (op : BinaryOperator) (r : Expression)
    (hl : reduce l = l) (hr : reduce r = r) :
    reduce (reduceBinary l op r) = reduceBinary l op r := by
  rcases reduceBinary_shape l op r with ⟨n, h⟩ | ⟨b, h⟩ | h
  · rw [h]; rfl
  · rw [h]; rfl
  · rw [h]
    show reduceBinary (reduce l) op (reduce r) = .Binary l op r
    rw [hl, hr, h]

/-- Constant reduction is idempotent. -/
theorem reduce_idem (E : Expression) : reduce (reduce E) = reduce E := by
  induction E with
  | Name s => rfl
  | Number n => rfl
  | Boolean b => rfl
  | Unary op e ih => exact reduce_reduceUnary op (reduce e) ih
  | Binary l op r ihl ihr => exact reduce_reduceBinary (reduce l) op (reduce r) ihl ihr

end Perky


namespace Perky

/-- Value relation is reflexive. -/
theorem value_rel_refl (v : Value) : value_rel v v := ⟨rfl, Or.inl rfl⟩

/-- A successful And evaluation decomposes into a non-truthy left operand or
a truthy left operand with a successfully evaluated right operand. -/
theorem eval_and_ok {l r : Expression} {env : SymbolTable} {v : Value}
    (h : evaluate (.Binary l .And r) env = .ok v) :
    ∃ lv, evaluate l env = .ok lv ∧
      ((truthy lv = false ∧ v = .Boolean false) ∨
       (truthy lv = true ∧ ∃ rv, evaluate r env = .ok rv ∧ v = .Boolean (truthy rv))) := by
  rw [evaluate] at h
  cases hl : evaluate l env with
  | error e => rw [hl] at h; exact Except.noConfusion h
  | ok lv =>
    rw [hl] at h
    refine ⟨lv, rfl, ?_⟩
    replace h : (if (!truthy lv) = true
        then Except.ok (Value.Boolean false)
        else Except.bind (evaluate r env)
          (fun rv => Except.ok (Value.Boolean (truthy lv && truthy rv))))
        = Except.ok v := h
    cases ht : truthy lv with
    | false =>
      rw [ht] at h
      rw [if_pos (show (!false) = true from rfl)] at h
      exact Or.inl ⟨rfl, (Except.ok.inj h).symm⟩
    | true =>
      rw [ht] at h
      rw [if_neg (show ¬((!true) = true) from by decide)] at h
      cases hr : evaluate r env with
      | error e => rw [hr] at h; exact Except.noConfusion h
      | ok rv =>
        rw [hr] at h
        replace h : Except.ok (Value.Boolean (true && truthy rv)) = Except.ok v := h
        exact Or.inr ⟨rfl, rv, rfl, by simpa using (Except.ok.inj h).symm⟩

/-- A successful Or evaluation decomposes into a truthy left operand or a
non-truthy left operand with a successfully evaluated right operand. -/
theorem eval_or_ok {l r : Expression} {env : SymbolTable} {v : Value}
    (h : evaluate (.Binary l .Or r) env = .ok v) :
    ∃ lv, evaluate l env = .ok lv ∧
      ((truthy lv = true ∧ v = .Boolean true) ∨
       (truthy lv = false ∧ ∃ rv, evaluate r env = .ok rv ∧ v = .Boolean (truthy rv))) := by
  rw [evaluate] at h
  cases hl : evaluate l env with
  | error e => rw [hl] at h; exact Except.noConfusion h
  | ok lv =>
    rw [hl] at h
    refine ⟨lv, rfl, ?_⟩
    replace h : (if truthy lv = true
        then Except.ok (Value.Boolean true)
        else Except.bind (evaluate r env)
          (fun rv => Except.ok (Value.Boolean (truthy lv || truthy rv))))
        = Except.ok v := h
    cases ht : truthy lv with
    | true =>
      rw [ht] at h
      rw [if_pos (show true = true from rfl)] at h
      exact Or.inl ⟨rfl, (Except.ok.inj h).symm⟩
    | false =>
      rw [ht] at h
      rw [if_neg (show ¬(false = true) from by decide)] at h
      cases hr : evaluate r env with
      | error e => rw [hr] at h; exact Except.noConfusion h
      | ok rv =>
        rw [hr] at h
        replace h : Except.ok (Value.Boolean (false || truthy rv)) = Except.ok v := h
        exact Or.inr ⟨rfl, rv, rfl, by simpa using (Except.ok.inj h).symm⟩

/-- And evaluates to false as soon as the left operand is non-truthy. -/
theorem eval_and_intro_false {l r : Expression} {env : SymbolTable} {lv : Value}
    (hl : evaluate l env = .ok lv) (ht : truthy lv = false) :
    evaluate (.Binary l .And r) env = .ok (.Boolean false) := by
  rw [evaluate, hl]
  show (if (!truthy lv) = true then Except.ok (Value.Boolean false)
      else Except.bind (evaluate r env)
        (fun rv => Except.ok (Value.Boolean (truthy lv && truthy rv))))
      = Except.ok (Value.Boolean false)
  rw [ht, if_pos (show (!false) = true from rfl)]

/-- And evaluates to the right operand truthiness when the left is truthy. -/
theorem eval_and_intro_true {l r : Expression} {env : SymbolTable} {lv rv : Value}
    (hl : evaluate l env = .ok lv) (ht : truthy lv = true)
    (hr : evaluate r env = .ok rv) :
    evaluate (.Binary l .And r) env = .ok (.Boolean (truthy rv)) := by
  rw [evaluate, hl]
  show (if (!truthy lv) = true then Except.ok (Value.Boolean false)
      else Except.bind (evaluate r env)
        (fun rv => Except.ok (Value.Boolean (truthy lv && truthy rv))))
      = Except.ok (Value.Boolean (truthy rv))
  rw [ht, if_neg (show ¬((!true) = true) from by decide), hr]
  show Except.ok (Value.Boolean (true && truthy rv)) = _
  rw [Bool.true_and]

/-- Or evaluates to true as soon as the left operand is truthy. -/
theorem eval_or_intro_true {l r : Expression} {env : SymbolTable} {lv : Value}
    (hl : evaluate l env = .ok lv) (ht : truthy lv = true) :
    evaluate (.Binary l .Or r) env = .ok (.Boolean true) := by
  rw [evaluate, hl]
  show (if truthy lv = true then Except.ok (Value.Boolean true)
      else Except.bind (evaluate r env)
        (fun rv => Except.ok (Value.Boolean (truthy lv || truthy rv))))
      = Except.ok (Value.Boolean true)
  rw [ht, if_pos (show true = true from rfl)]

/-- Or evaluates to the right operand truthiness when the left is non-truthy. -/
theorem eval_or_intro_false {l r : Expression} {env : SymbolTable} {lv rv : Value}
    (hl : evaluate l env = .ok lv) (ht : truthy lv = false)
    (hr : evaluate r env = .ok rv) :
    evaluate (.Binary l .Or r) env = .ok (.Boolean (truthy rv)) := by
  rw [evaluate, hl]
  show (if truthy lv = true then Except.ok (Value.Boolean true)
      else Except.bind (evaluate r env)
        (fun rv => Except.ok (Value.Boolean (truthy lv || truthy rv))))
      = Except.ok (Value.Boolean (truthy rv))
  rw [ht, if_neg (show ¬(false = true) from by decide), hr]
  show Except.ok (Value.Boolean (false || truthy rv)) = _
  rw [Bool.false_or]

end Perky

namespace Perky

/-- A value related to a number is that exact number. -/
theorem value_rel_number {a : F64} {w' : Value} (h : value_rel (.Number a) w') :
    w' = .Number a := by
  rcases h with ⟨ht, heq | hb⟩
  · exact heq
  · exact Value.noConfusion hb

/-- Equal booleans are related values. -/
theorem value_rel_boolean {b c : Bool} (h : b = c) :
    value_rel (.Boolean b) (.Boolean c) := by
  subst h; exact value_rel_refl _

/-- A successful evaluation of a non-logical binary node yields number
operands, and the result is that of the same node over the literal
operands. -/
theorem eval_arith_ok {l r : Expression} {op : BinaryOperator} {env : SymbolTable}
    {v : Value} (hop : op ≠ .And ∧ op ≠ .Or)
    (h : evaluate (.Binary l op r) env = .ok v) :
    ∃ a b, evaluate l env = .ok (.Number a) ∧ evaluate r env = .ok (.Number b) ∧
      evaluate (.Binary (.Number a) op (.Number b)) env = .ok v := by
  cases op
  case And => exact absurd rfl hop.1
  case Or => exact absurd rfl hop.2
  all_goals (
    rw [evaluate] at h
    cases hl : evaluate l env with
    | error e => rw [hl] at h; exact Except.noConfusion h
    | ok lv =>
      rw [hl] at h
      cases hr : evaluate r env with
      | error e => rw [hr] at h; exact Except.noConfusion h
      | ok rv =>
        rw [hr] at h
        cases lv with
        | Boolean b1 =>
          cases rv with
          | Boolean b2 => exact Except.noConfusion h
          | Number b2 => exact Except.noConfusion h
        | Number a =>
          cases rv with
          | Boolean b2 => exact Except.noConfusion h
          | Number b =>
            exact ⟨a, b, rfl, rfl, h⟩)
  all_goals (intro hc; exact BinaryOperator.noConfusion hc)

/-- Evaluating a non-logical binary node only depends on the operand
values. -/
theorem eval_arith_intro {l r : Expression} {op : BinaryOperator} {env : SymbolTable}
    {a b : F64} (hop : op ≠ .And ∧ op ≠ .Or)
    (hl : evaluate l env = .ok (.Number a)) (hr : evaluate r env = .ok (.Number b)) :
    evaluate (.Binary l op r) env = evaluate (.Binary (.Number a) op (.Number b)) env := by
  cases op
  case And => exact absurd rfl hop.1
  case Or => exact absurd rfl hop.2
  all_goals (
    show Except.bind (evaluate l env) _ = _
    rw [hl, hr]
    rfl)

/-- Replacing the operand of a unary node by one that evaluates to a
related value preserves the successful result exactly. -/
theorem eval_unary_congr {op : UnaryOperator} {e e' : Expression} {env : SymbolTable}
    {v : Value} (h : evaluate (.Unary op e) env = .ok v)
    (hcong : ∀ w, evaluate e env = .ok w →
      ∃ w', evaluate e' env = .ok w' ∧ value_rel w w') :
    evaluate (.Unary op e') env = .ok v := by
  rw [evaluate] at h
  cases he : evaluate e env with
  | error err => rw [he] at h; exact Except.noConfusion h
  | ok w =>
    rw [he] at h
    obtain ⟨w', hw', hrel⟩ := hcong w he
    rw [evaluate, hw']
    cases op with
    | Negate =>
      cases w with
      | Boolean b => exact Except.noConfusion h
      | Number n =>
        rw [value_rel_number hrel]
        exact h
    | Not =>
      have htr := hrel.1
      cases w with
      | Boolean b =>
        replace h : Except.ok (Value.Boolean !b) = Except.ok v := h
        cases w' with
        | Boolean b' =>
          replace htr : b' = b := htr
          show Except.ok (Value.Boolean !b') = Except.ok v
          rw [htr]; exact h
        | Number n' =>
          replace htr : truthy (Value.Number n') = b := htr
          show Except.ok (Value.Boolean !(truthy (Value.Number n'))) = Except.ok v
          rw [htr]; exact h
      | Number n =>
        replace h : Except.ok (Value.Boolean !(truthy (Value.Number n))) = Except.ok v := h
        cases w' with
        | Boolean b' =>
          replace htr : b' = truthy (Value.Number n) := htr
          show Except.ok (Value.Boolean !b') = Except.ok v
          rw [htr]; exact h
        | Number n' =>
          replace htr : truthy (Value.Number n') = truthy (Value.Number n) := htr
          show Except.ok (Value.Boolean !(truthy (Value.Number n'))) = Except.ok v
          rw [htr]; exact h

/-- Replacing both operands of a binary node by ones that evaluate to
related values preserves the successful result exactly. -/
theorem eval_binary_congr {l r l' r' : Expression} {op : BinaryOperator}
    {env : SymbolTable} {v : Value}
    (h : evaluate (.Binary l op r) env = .ok v)
    (hlc : ∀ w, evaluate l env = .ok w →
      ∃ w', evaluate l' env = .ok w' ∧ value_rel w w')
    (hrc : ∀ w, evaluate r env = .ok w →
      ∃ w', evaluate r' env = .ok w' ∧ value_rel w w') :
    evaluate (.Binary l' op r') env = .ok v := by
  by_cases hA : op = .And
  · subst hA
    obtain ⟨lv, hlv, hcase⟩ := eval_and_ok h
    obtain ⟨lv', hlv', hrel⟩ := hlc lv hlv
    rcases hcase with ⟨ht, hv⟩ | ⟨ht, rv, hrv, hv⟩
    · rw [hv]
      exact eval_and_intro_false hlv' (hrel.1.trans ht)
    · obtain ⟨rv', hrv', hrel2⟩ := hrc rv hrv
      rw [hv, ← hrel2.1]
      exact eval_and_intro_true hlv' (hrel.1.trans ht) hrv'
  · by_cases hO : op = .Or
    · subst hO
      obtain ⟨lv, hlv, hcase⟩ := eval_or_ok h
      obtain ⟨lv', hlv', hrel⟩ := hlc lv hlv
      rcases hcase with ⟨ht, hv⟩ | ⟨ht, rv, hrv, hv⟩
      · rw [hv]
        exact eval_or_intro_true hlv' (hrel.1.trans ht)
      · obtain ⟨rv', hrv', hrel2⟩ := hrc rv hrv
        rw [hv, ← hrel2.1]
        exact eval_or_intro_false hlv' (hrel.1.trans ht) hrv'
    · obtain ⟨a, b, hla, hrb, hres⟩ := eval_arith_ok ⟨hA, hO⟩ h
      obtain ⟨lv', hlv', hrel1⟩ := hlc _ hla
      obtain ⟨rv', hrv', hrel2⟩ := hrc _ hrb
      rw [value_rel_number hrel1] at hlv'
      rw [value_rel_number hrel2] at hrv'
      rw [eval_arith_intro ⟨hA, hO⟩ hlv' hrv']
      exact hres

/-- Folding a unary node preserves a successful evaluation up to the value
relation. -/
theorem eval_reduceUnary {op : UnaryOperator} {e : Expression} {env : SymbolTable}
    {v : Value} (h : evaluate (.Unary op e) env = .ok v) :
    ∃ v', evaluate (reduceUnary op e) env = .ok v' ∧ value_rel v v' := by
  cases op with
  | Negate =>
    cases e with
    | Number n => exact ⟨v, h, value_rel_refl v⟩
    | Name s => exact ⟨v, h, value_rel_refl v⟩
    | Boolean b => exact ⟨v, h, value_rel_refl v⟩
    | Unary op2 e2 => exact ⟨v, h, value_rel_refl v⟩
    | Binary l2 o2 r2 => exact ⟨v, h, value_rel_refl v⟩
  | Not =>
    cases e with
    | Number n => exact ⟨v, h, value_rel_refl v⟩
    | Boolean b => exact ⟨v, h, value_rel_refl v⟩
    | Name s => exact ⟨v, h, value_rel_refl v⟩
    | Binary l2 o2 r2 => exact ⟨v, h, value_rel_refl v⟩
    | Unary op2 inner =>
      cases op2 with
      | Negate => exact ⟨v, h, value_rel_refl v⟩
      | Not =>
        rw [evaluate] at h
        cases hi : evaluate (.Unary .Not inner) env with
        | error err => rw [hi] at h; exact Except.noConfusion h
        | ok u2 =>
          rw [hi] at h
          rw [evaluate] at hi
          cases hu : evaluate inner env with
          | error err => rw [hu] at hi; exact Except.noConfusion hi
          | ok u =>
            rw [hu] at hi
            cases u with
            | Boolean b =>
              replace hi : Except.ok (Value.Boolean !b) = Except.ok u2 := hi
              obtain rfl := Except.ok.inj hi
              replace h : Except.ok (Value.Boolean !!b) = Except.ok v := h
              obtain rfl := Except.ok.inj h
              refine ⟨.Boolean b, hu, ?_⟩
              constructor
              · show b = (!!b)
                simp
              · left
                show Value.Boolean b = Value.Boolean (!!b)
                simp
            | Number n =>
              replace hi : Except.ok (Value.Boolean !(truthy (Value.Number n)))
                  = Except.ok u2 := hi
              obtain rfl := Except.ok.inj hi
              replace h : Except.ok (Value.Boolean !!(truthy (Value.Number n)))
                  = Except.ok v := h
              obtain rfl := Except.ok.inj h
              refine ⟨.Number n, hu, ?_⟩
              constructor
              · show truthy (Value.Number n) = (!!(truthy (Value.Number n)))
                simp
              · right
                show Value.Boolean (!!(truthy (Value.Number n)))
                    = Value.Boolean (truthy (Value.Number n))
                simp

end Perky


namespace Perky

/-- Truthiness of a boolean literal. -/
theorem truthy_boolean (b : Bool) : truthy (.Boolean b) = b := rfl

set_option maxHeartbeats 2000000 in
/-- Folding a binary node preserves a successful evaluation up to the value
relation. -/
theorem eval_reduceBinary {l r : Expression} {op : BinaryOperator} {env : SymbolTable}
    {v : Value} (h : evaluate (.Binary l op r) env = .ok v) :
    ∃ v', evaluate (reduceBinary l op r) env = .ok v' ∧ value_rel v v' := by
  cases op with
  | Add =>
    cases l with
    | Name s1 =>
      cases r with
      | Name s2 =>
        exact ⟨v, h, value_rel_refl v⟩
      | Number n2 =>
        exact ⟨v, h, value_rel_refl v⟩
      | Boolean b2 =>
        cases b2 with
        | false =>
          exact ⟨v, h, value_rel_refl v⟩
        | true =>
          exact ⟨v, h, value_rel_refl v⟩
      | Unary u2 e2 =>
        exact ⟨v, h, value_rel_refl v⟩
      | Binary l2 o2 r2 =>
        exact ⟨v, h, value_rel_refl v⟩
    | Number n1 =>
      cases r with
      | Name s2 =>
        exact ⟨v, h, value_rel_refl v⟩
      | Number n2 =>
        exact ⟨v, h, value_rel_refl v⟩
      | Boolean b2 =>
        cases b2 with
        | false =>
          exact ⟨v, h, value_rel_refl v⟩
        | true =>
          exact ⟨v, h, value_rel_refl v⟩
      | Unary u2 e2 =>
        exact ⟨v, h, value_rel_refl v⟩
      | Binary l2 o2 r2 =>
        exact ⟨v, h, value_rel_refl v⟩
    | Boolean b1 =>
      cases b1 with
      | false =>
        cases r with
        | Name s2 =>
          exact ⟨v, h, value_rel_refl v⟩
        | Number n2 =>
          exact ⟨v, h, value_rel_refl v⟩
        | Boolean b2 =>
          cases b2 with
          | false =>
            exact ⟨v, h, value_rel_refl v⟩
          | true =>
            exact ⟨v, h, value_rel_refl v⟩
        | Unary u2 e2 =>
          exact ⟨v, h, value_rel_refl v⟩
        | Binary l2 o2 r2 =>
          exact ⟨v, h, value_rel_refl v⟩
      | true =>
        cases r with
        | Name s2 =>
          exact ⟨v, h, value_rel_refl v⟩
        | Number n2 =>
          exact ⟨v, h, value_rel_refl v⟩
        | Boolean b2 =>
          cases b2 with
          | false =>
            exact ⟨v, h, value_rel_refl v⟩
          | true =>
            exact ⟨v, h, value_rel_refl v⟩
        | Unary u2 e2 =>
          exact ⟨v, h, value_rel_refl v⟩
        | Binary l2 o2 r2 =>
          exact ⟨v, h, value_rel_refl v⟩
    | Unary u1 e1 =>
      cases r with
      | Name s2 =>
        exact ⟨v, h, value_rel_refl v⟩
      | Number n2 =>
        exact ⟨v, h, value_rel_refl v⟩
      | Boolean b2 =>
        cases b2 with
        | false =>
          exact ⟨v, h, value_rel_refl v⟩
        | true =>
          exact ⟨v, h, value_rel_refl v⟩
      | Unary u2 e2 =>
        exact ⟨v, h, value_rel_refl v⟩
      | Binary l2 o2 r2 =>
        exact ⟨v, h, value_rel_refl v⟩
    | Binary l1 o1 r1 =>
      cases r with
      | Name s2 =>
        exact ⟨v, h, value_rel_refl v⟩
      | Number n2 =>
        exact ⟨v, h, value_rel_refl v⟩
      | Boolean b2 =>
        cases b2 with
        | false =>
          exact ⟨v, h, value_rel_refl v⟩
        | true =>
          exact ⟨v, h, value_rel_refl v⟩
      | Unary u2 e2 =>
        exact ⟨v, h, value_rel_refl v⟩
      | Binary l2 o2 r2 =>
        exact ⟨v, h, value_rel_refl v⟩
  | Sub =>
    cases l with
    | Name s1 =>
      cases r with
      | Name s2 =>
        exact ⟨v, h, value_rel_refl v⟩
      | Number n2 =>
        exact ⟨v, h, value_rel_refl v⟩
      | Boolean b2 =>
        cases b2 with
        | false =>
          exact ⟨v, h, value_rel_refl v⟩
        | true =>
          exact ⟨v, h, value_rel_refl v⟩
      | Unary u2 e2 =>
        exact ⟨v, h, value_rel_refl v⟩
      | Binary l2 o2 r2 =>
        exact ⟨v, h, value_rel_refl v⟩
    | Number n1 =>
      cases r with
      | Name s2 =>
        exact ⟨v, h, value_rel_refl v⟩
      | Number n2 =>
        exact ⟨v, h, value_rel_refl v⟩
      | Boolean b2 =>
        cases b2 with
        | false =>
          exact ⟨v, h, value_rel_refl v⟩
        | true =>
          exact ⟨v, h, value_rel_refl v⟩
      | Unary u2 e2 =>
        exact ⟨v, h, value_rel_refl v⟩
      | Binary l2 o2 r2 =>
        exact ⟨v, h, value_rel_refl v⟩
    | Boolean b1 =>
      cases b1 with
      | false =>
        cases r with
        | Name s2 =>
          exact ⟨v, h, value_rel_refl v⟩
        | Number n2 =>
          exact ⟨v, h, value_rel_refl v⟩
        | Boolean b2 =>
          cases b2 with
          | false =>
            exact ⟨v, h, value_rel_refl v⟩
          | true =>
            exact ⟨v, h, value_rel_refl v⟩
        | Unary u2 e2 =>
          exact ⟨v, h, value_rel_refl v⟩
        | Binary l2 o2 r2 =>
          exact ⟨v, h, value_rel_refl v⟩
      | true =>
        cases r with
        | Name s2 =>
          exact ⟨v, h, value_rel_refl v⟩
        | Number n2 =>
          exact ⟨v, h, value_rel_refl v⟩
        | Boolean b2 =>
          cases b2 with
          | false =>
            exact ⟨v, h, value_rel_refl v⟩
          | true =>
            exact ⟨v, h, value_rel_refl v⟩
        | Unary u2 e2 =>
          exact ⟨v, h, value_rel_refl v⟩
        | Binary l2 o2 r2 =>
          exact ⟨v, h, value_rel_refl v⟩
    | Unary u1 e1 =>
      cases r with
      | Name s2 =>
        exact ⟨v, h, value_rel_refl v⟩
      | Number n2 =>
        exact ⟨v, h, value_rel_refl v⟩
      | Boolean b2 =>
        cases b2 with
        | false =>
          exact ⟨v, h, value_rel_refl v⟩
        | true =>
          exact ⟨v, h, value_rel_refl v⟩
      | Unary u2 e2 =>
        exact ⟨v, h, value_rel_refl v⟩
      | Binary l2 o2 r2 =>
        exact ⟨v, h, value_rel_refl v⟩
    | Binary l1 o1 r1 =>
      cases r with
      | Name s2 =>
        exact ⟨v, h, value_rel_refl v⟩
      | Number n2 =>
        exact ⟨v, h, value_rel_refl v⟩
      | Boolean b2 =>
        cases b2 with
        | false =>
          exact ⟨v, h, value_rel_refl v⟩
        | true =>
          exact ⟨v, h, value_rel_refl v⟩
      | Unary u2 e2 =>
        exact ⟨v, h, value_rel_refl v⟩
      | Binary l2 o2 r2 =>
        exact ⟨v, h, value_rel_refl v⟩
  | Mul =>
    cases l with
    | Name s1 =>
      cases r with
      | Name s2 =>
        exact ⟨v, h, value_rel_refl v⟩
      | Number n2 =>
        exact ⟨v, h, value_rel_refl v⟩
      | Boolean b2 =>
        cases b2 with
        | false =>
          exact ⟨v, h, value_rel_refl v⟩
        | true =>
          exact ⟨v, h, value_rel_refl v⟩
      | Unary u2 e2 =>
        exact ⟨v, h, value_rel_refl v⟩
      | Binary l2 o2 r2 =>
        exact ⟨v, h, value_rel_refl v⟩
    | Number n1 =>
      cases r with
      | Name s2 =>
        exact ⟨v, h, value_rel_refl v⟩
      | Number n2 =>
        exact ⟨v, h, value_rel_refl v⟩
      | Boolean b2 =>
        cases b2 with
        | false =>
          exact ⟨v, h, value_rel_refl v⟩
        | true =>
          exact ⟨v, h, value_rel_refl v⟩
      | Unary u2 e2 =>
        exact ⟨v, h, value_rel_refl v⟩
      | Binary l2 o2 r2 =>
        exact ⟨v, h, value_rel_refl v⟩
    | Boolean b1 =>
      cases b1 with
      | false =>
        cases r with
        | Name s2 =>
          exact ⟨v, h, value_rel_refl v⟩
        | Number n2 =>
          exact ⟨v, h, value_rel_refl v⟩
        | Boolean b2 =>
          cases b2 with
          | false =>
            exact ⟨v, h, value_rel_refl v⟩
          | true =>
            exact ⟨v, h, value_rel_refl v⟩
        | Unary u2 e2 =>
          exact ⟨v, h, value_rel_refl v⟩
        | Binary l2 o2 r2 =>
          exact ⟨v, h, value_rel_refl v⟩
      | true =>
        cases r with
        | Name s2 =>
          exact ⟨v, h, value_rel_refl v⟩
        | Number n2 =>
          exact ⟨v, h, value_rel_refl v⟩
        | Boolean b2 =>
          cases b2 with
          | false =>
            exact ⟨v, h, value_rel_refl v⟩
          | true =>
            exact ⟨v, h, value_rel_refl v⟩
        | Unary u2 e2 =>
          exact ⟨v, h, value_rel_refl v⟩
        | Binary l2 o2 r2 =>
          exact ⟨v, h, value_rel_refl v⟩
    | Unary u1 e1 =>
      cases r with
      | Name s2 =>
        exact ⟨v, h, value_rel_refl v⟩
      | Number n2 =>
        exact ⟨v, h, value_rel_refl v⟩
      | Boolean b2 =>
        cases b2 with
        | false =>
          exact ⟨v, h, value_rel_refl v⟩
        | true =>
          exact ⟨v, h, value_rel_refl v⟩
      | Unary u2 e2 =>
        exact ⟨v, h, value_rel_refl v⟩
      | Binary l2 o2 r2 =>
        exact ⟨v, h, value_rel_refl v⟩
    | Binary l1 o1 r1 =>
      cases r with
      | Name s2 =>
        exact ⟨v, h, value_rel_refl v⟩
      | Number n2 =>
        exact ⟨v, h, value_rel_refl v⟩
      | Boolean b2 =>
        cases b2 with
        | false =>
          exact ⟨v, h, value_rel_refl v⟩
        | true =>
          exact ⟨v, h, value_rel_refl v⟩
      | Unary u2 e2 =>
        exact ⟨v, h, value_rel_refl v⟩
      | Binary l2 o2 r2 =>
        exact ⟨v, h, value_rel_refl v⟩
  | Div =>
    cases l with
    | Name s1 =>
      cases r with
      | Name s2 =>
        exact ⟨v, h, value_rel_refl v⟩
      | Number n2 =>
        exact ⟨v, h, value_rel_refl v⟩
      | Boolean b2 =>
        cases b2 with
        | false =>
          exact ⟨v, h, value_rel_refl v⟩
        | true =>
          exact ⟨v, h, value_rel_refl v⟩
      | Unary u2 e2 =>
        exact ⟨v, h, value_rel_refl v⟩
      | Binary l2 o2 r2 =>
        exact ⟨v, h, value_rel_refl v⟩
    | Number n1 =>
      cases r with
      | Name s2 =>
        exact ⟨v, h, value_rel_refl v⟩
      | Number n2 =>
        (cases hg : (!isFiniteB n2 || feqB n2 f64zero) with
         | true =>
           refine ⟨v, ?_, value_rel_refl v⟩
           have hred : reduceBinary (.Number n1) .Div (.Number n2)
               = .Binary (.Number n1) .Div (.Number n2) := by
             show (if (!isFiniteB n2 || feqB n2 f64zero) = true
                 then Expression.Binary (.Number n1) .Div (.Number n2)
                 else Expression.Number (fdiv n1 n2)) = _
             rw [hg, if_pos (show true = true from rfl)]
           rw [hred]; exact h
         | false =>
           have hz : feqB n2 f64zero = false := (Bool.or_eq_false_iff.mp hg).2
           replace h : (if feqB n2 f64zero = true then Except.error EvalError.DivisionByZero
               else Except.ok (Value.Number (fdiv n1 n2))) = Except.ok v := h
           rw [hz, if_neg (show ¬(false = true) from by decide)] at h
           refine ⟨v, ?_, value_rel_refl v⟩
           have hred : reduceBinary (.Number n1) .Div (.Number n2) = .Number (fdiv n1 n2) := by
             show (if (!isFiniteB n2 || feqB n2 f64zero) = true
                 then Expression.Binary (.Number n1) .Div (.Number n2)
                 else Expression.Number (fdiv n1 n2)) = _
             rw [hg, if_neg (show ¬(false = true) from by decide)]
           rw [hred]
           exact h)
      | Boolean b2 =>
        cases b2 with
        | false =>
          exact ⟨v, h, value_rel_refl v⟩
        | true =>
          exact ⟨v, h, value_rel_refl v⟩
      | Unary u2 e2 =>
        exact ⟨v, h, value_rel_refl v⟩
      | Binary l2 o2 r2 =>
        exact ⟨v, h, value_rel_refl v⟩
    | Boolean b1 =>
      cases b1 with
      | false =>
        cases r with
        | Name s2 =>
          exact ⟨v, h, value_rel_refl v⟩
        | Number n2 =>
          exact ⟨v, h, value_rel_refl v⟩
        | Boolean b2 =>
          cases b2 with
          | false =>
            exact ⟨v, h, value_rel_refl v⟩
          | true =>
            exact ⟨v, h, value_rel_refl v⟩
        | Unary u2 e2 =>
          exact ⟨v, h, value_rel_refl v⟩
        | Binary l2 o2 r2 =>
          exact ⟨v, h, value_rel_refl v⟩
      | true =>
        cases r with
        | Name s2 =>
          exact ⟨v, h, value_rel_refl v⟩
        | Number n2 =>
          exact ⟨v, h, value_rel_refl v⟩
        | Boolean b2 =>
          cases b2 with
          | false =>
            exact ⟨v, h, value_rel_refl v⟩
          | true =>
            exact ⟨v, h, value_rel_refl v⟩
        | Unary u2 e2 =>
          exact ⟨v, h, value_rel_refl v⟩
        | Binary l2 o2 r2 =>
          exact ⟨v, h, value_rel_refl v⟩
    | Unary u1 e1 =>
      cases r with
      | Name s2 =>
        exact ⟨v, h, value_rel_refl v⟩
      | Number n2 =>
        exact ⟨v, h, value_rel_refl v⟩
      | Boolean b2 =>
        cases b2 with
        | false =>
          exact ⟨v, h, value_rel_refl v⟩
        | true =>
          exact ⟨v, h, value_rel_refl v⟩
      | Unary u2 e2 =>
        exact ⟨v, h, value_rel_refl v⟩
      | Binary l2 o2 r2 =>
        exact ⟨v, h, value_rel_refl v⟩
    | Binary l1 o1 r1 =>
      cases r with
      | Name s2 =>
        exact ⟨v, h, value_rel_refl v⟩
      | Number n2 =>
        exact ⟨v, h, value_rel_refl v⟩
      | Boolean b2 =>
        cases b2 with
        | false =>
          exact ⟨v, h, value_rel_refl v⟩
        | true =>
          exact ⟨v, h, value_rel_refl v⟩
      | Unary u2 e2 =>
        exact ⟨v, h, value_rel_refl v⟩
      | Binary l2 o2 r2 =>
        exact ⟨v, h, value_rel_refl v⟩
  | Eq =>
    cases l with
    | Name s1 =>
      cases r with
      | Name s2 =>
        exact ⟨v, h, value_rel_refl v⟩
      | Number n2 =>
        exact ⟨v, h, value_rel_refl v⟩
      | Boolean b2 =>
        cases b2 with
        | false =>
          exact ⟨v, h, value_rel_refl v⟩
        | true =>
          exact ⟨v, h, value_rel_refl v⟩
      | Unary u2 e2 =>
        exact ⟨v, h, value_rel_refl v⟩
      | Binary l2 o2 r2 =>
        exact ⟨v, h, value_rel_refl v⟩
    | Number n1 =>
      cases r with
      | Name s2 =>
        exact ⟨v, h, value_rel_refl v⟩
      | Number n2 =>
        exact ⟨v, h, value_rel_refl v⟩
      | Boolean b2 =>
        cases b2 with
        | false =>
          exact ⟨v, h, value_rel_refl v⟩
        | true =>
          exact ⟨v, h, value_rel_refl v⟩
      | Unary u2 e2 =>
        exact ⟨v, h, value_rel_refl v⟩
      | Binary l2 o2 r2 =>
        exact ⟨v, h, value_rel_refl v⟩
    | Boolean b1 =>
      cases b1 with
      | false =>
        cases r with
        | Name s2 =>
          exact ⟨v, h, value_rel_refl v⟩
        | Number n2 =>
          exact ⟨v, h, value_rel_refl v⟩
        | Boolean b2 =>
          cases b2 with
          | false =>
            exact ⟨v, h, value_rel_refl v⟩
          | true =>
            exact ⟨v, h, value_rel_refl v⟩
        | Unary u2 e2 =>
          exact ⟨v, h, value_rel_refl v⟩
        | Binary l2 o2 r2 =>
          exact ⟨v, h, value_rel_refl v⟩
      | true =>
        cases r with
        | Name s2 =>
          exact ⟨v, h, value_rel_refl v⟩
        | Number n2 =>
          exact ⟨v, h, value_rel_refl v⟩
        | Boolean b2 =>
          cases b2 with
          | false =>
            exact ⟨v, h, value_rel_refl v⟩
          | true =>
            exact ⟨v, h, value_rel_refl v⟩
        | Unary u2 e2 =>
          exact ⟨v, h, value_rel_refl v⟩
        | Binary l2 o2 r2 =>
          exact ⟨v, h, value_rel_refl v⟩
    | Unary u1 e1 =>
      cases r with
      | Name s2 =>
        exact ⟨v, h, value_rel_refl v⟩
      | Number n2 =>
        exact ⟨v, h, value_rel_refl v⟩
      | Boolean b2 =>
        cases b2 with
        | false =>
          exact ⟨v, h, value_rel_refl v⟩
        | true =>
          exact ⟨v, h, value_rel_refl v⟩
      | Unary u2 e2 =>
        exact ⟨v, h, value_rel_refl v⟩
      | Binary l2 o2 r2 =>
        exact ⟨v, h, value_rel_refl v⟩
    | Binary l1 o1 r1 =>
      cases r with
      | Name s2 =>
        exact ⟨v, h, value_rel_refl v⟩
      | Number n2 =>
        exact ⟨v, h, value_rel_refl v⟩
      | Boolean b2 =>
        cases b2 with
        | false =>
          exact ⟨v, h, value_rel_refl v⟩
        | true =>
          exact ⟨v, h, value_rel_refl v⟩
      | Unary u2 e2 =>
        exact ⟨v, h, value_rel_refl v⟩
      | Binary l2 o2 r2 =>
        exact ⟨v, h, value_rel_refl v⟩
  | Neq =>
    cases l with
    | Name s1 =>
      cases r with
      | Name s2 =>
        exact ⟨v, h, value_rel_refl v⟩
      | Number n2 =>
        exact ⟨v, h, value_rel_refl v⟩
      | Boolean b2 =>
        cases b2 with
        | false =>
          exact ⟨v, h, value_rel_refl v⟩
        | true =>
          exact ⟨v, h, value_rel_refl v⟩
      | Unary u2 e2 =>
        exact ⟨v, h, value_rel_refl v⟩
      | Binary l2 o2 r2 =>
        exact ⟨v, h, value_rel_refl v⟩
    | Number n1 =>
      cases r with
      | Name s2 =>
        exact ⟨v, h, value_rel_refl v⟩
      | Number n2 =>
        exact ⟨v, h, value_rel_refl v⟩
      | Boolean b2 =>
        cases b2 with
        | false =>
          exact ⟨v, h, value_rel_refl v⟩
        | true =>
          exact ⟨v, h, value_rel_refl v⟩
      | Unary u2 e2 =>
        exact ⟨v, h, value_rel_refl v⟩
      | Binary l2 o2 r2 =>
        exact ⟨v, h, value_rel_refl v⟩
    | Boolean b1 =>
      cases b1 with
      | false =>
        cases r with
        | Name s2 =>
          exact ⟨v, h, value_rel_refl v⟩
        | Number n2 =>
          exact ⟨v, h, value_rel_refl v⟩
        | Boolean b2 =>
          cases b2 with
          | false =>
            exact ⟨v, h, value_rel_refl v⟩
          | true =>
            exact ⟨v, h, value_rel_refl v⟩
        | Unary u2 e2 =>
          exact ⟨v, h, value_rel_refl v⟩
        | Binary l2 o2 r2 =>
          exact ⟨v, h, value_rel_refl v⟩
      | true =>
        cases r with
        | Name s2 =>
          exact ⟨v, h, value_rel_refl v⟩
        | Number n2 =>
          exact ⟨v, h, value_rel_refl v⟩
        | Boolean b2 =>
          cases b2 with
          | false =>
            exact ⟨v, h, value_rel_refl v⟩
          | true =>
            exact ⟨v, h, value_rel_refl v⟩
        | Unary u2 e2 =>
          exact ⟨v, h, value_rel_refl v⟩
        | Binary l2 o2 r2 =>
          exact ⟨v, h, value_rel_refl v⟩
    | Unary u1 e1 =>
      cases r with
      | Name s2 =>
        exact ⟨v, h, value_rel_refl v⟩
      | Number n2 =>
        exact ⟨v, h, value_rel_refl v⟩
      | Boolean b2 =>
        cases b2 with
        | false =>
          exact ⟨v, h, value_rel_refl v⟩
        | true =>
          exact ⟨v, h, value_rel_refl v⟩
      | Unary u2 e2 =>
        exact ⟨v, h, value_rel_refl v⟩
      | Binary l2 o2 r2 =>
        exact ⟨v, h, value_rel_refl v⟩
    | Binary l1 o1 r1 =>
      cases r with
      | Name s2 =>
        exact ⟨v, h, value_rel_refl v⟩
      | Number n2 =>
        exact ⟨v, h, value_rel_refl v⟩
      | Boolean b2 =>
        cases b2 with
        | false =>
          exact ⟨v, h, value_rel_refl v⟩
        | true =>
          exact ⟨v, h, value_rel_refl v⟩
      | Unary u2 e2 =>
        exact ⟨v, h, value_rel_refl v⟩
      | Binary l2 o2 r2 =>
        exact ⟨v, h, value_rel_refl v⟩
  | Lt =>
    cases l with
    | Name s1 =>
      cases r with
      | Name s2 =>
        exact ⟨v, h, value_rel_refl v⟩
      | Number n2 =>
        exact ⟨v, h, value_rel_refl v⟩
      | Boolean b2 =>
        cases b2 with
        | false =>
          exact ⟨v, h, value_rel_refl v⟩
        | true =>
          exact ⟨v, h, value_rel_refl v⟩
      | Unary u2 e2 =>
        exact ⟨v, h, value_rel_refl v⟩
      | Binary l2 o2 r2 =>
        exact ⟨v, h, value_rel_refl v⟩
    | Number n1 =>
      cases r with
      | Name s2 =>
        exact ⟨v, h, value_rel_refl v⟩
      | Number n2 =>
        exact ⟨v, h, value_rel_refl v⟩
      | Boolean b2 =>
        cases b2 with
        | false =>
          exact ⟨v, h, value_rel_refl v⟩
        | true =>
          exact ⟨v, h, value_rel_refl v⟩
      | Unary u2 e2 =>
        exact ⟨v, h, value_rel_refl v⟩
      | Binary l2 o2 r2 =>
        exact ⟨v, h, value_rel_refl v⟩
    | Boolean b1 =>
      cases b1 with
      | false =>
        cases r with
        | Name s2 =>
          exact ⟨v, h, value_rel_refl v⟩
        | Number n2 =>
          exact ⟨v, h, value_rel_refl v⟩
        | Boolean b2 =>
          cases b2 with
          | false =>
            exact ⟨v, h, value_rel_refl v⟩
          | true =>
            exact ⟨v, h, value_rel_refl v⟩
        | Unary u2 e2 =>
          exact ⟨v, h, value_rel_refl v⟩
        | Binary l2 o2 r2 =>
          exact ⟨v, h, value_rel_refl v⟩
      | true =>
        cases r with
        | Name s2 =>
          exact ⟨v, h, value_rel_refl v⟩
        | Number n2 =>
          exact ⟨v, h, value_rel_refl v⟩
        | Boolean b2 =>
          cases b2 with
          | false =>
            exact ⟨v, h, value_rel_refl v⟩
          | true =>
            exact ⟨v, h, value_rel_refl v⟩
        | Unary u2 e2 =>
          exact ⟨v, h, value_rel_refl v⟩
        | Binary l2 o2 r2 =>
          exact ⟨v, h, value_rel_refl v⟩
    | Unary u1 e1 =>
      cases r with
      | Name s2 =>
        exact ⟨v, h, value_rel_refl v⟩
      | Number n2 =>
        exact ⟨v, h, value_rel_refl v⟩
      | Boolean b2 =>
        cases b2 with
        | false =>
          exact ⟨v, h, value_rel_refl v⟩
        | true =>
          exact ⟨v, h, value_rel_refl v⟩
      | Unary u2 e2 =>
        exact ⟨v, h, value_rel_refl v⟩
      | Binary l2 o2 r2 =>
        exact ⟨v, h, value_rel_refl v⟩
    | Binary l1 o1 r1 =>
      cases r with
      | Name s2 =>
        exact ⟨v, h, value_rel_refl v⟩
      | Number n2 =>
        exact ⟨v, h, value_rel_refl v⟩
      | Boolean b2 =>
        cases b2 with
        | false =>
          exact ⟨v, h, value_rel_refl v⟩
        | true =>
          exact ⟨v, h, value_rel_refl v⟩
      | Unary u2 e2 =>
        exact ⟨v, h, value_rel_refl v⟩
      | Binary l2 o2 r2 =>
        exact ⟨v, h, value_rel_refl v⟩
  | Le =>
    cases l with
    | Name s1 =>
      cases r with
      | Name s2 =>
        exact ⟨v, h, value_rel_refl v⟩
      | Number n2 =>
        exact ⟨v, h, value_rel_refl v⟩
      | Boolean b2 =>
        cases b2 with
        | false =>
          exact ⟨v, h, value_rel_refl v⟩
        | true =>
          exact ⟨v, h, value_rel_refl v⟩
      | Unary u2 e2 =>
        exact ⟨v, h, value_rel_refl v⟩
      | Binary l2 o2 r2 =>
        exact ⟨v, h, value_rel_refl v⟩
    | Number n1 =>
      cases r with
      | Name s2 =>
        exact ⟨v, h, value_rel_refl v⟩
      | Number n2 =>
        exact ⟨v, h, value_rel_refl v⟩
      | Boolean b2 =>
        cases b2 with
        | false =>
          exact ⟨v, h, value_rel_refl v⟩
        | true =>
          exact ⟨v, h, value_rel_refl v⟩
      | Unary u2 e2 =>
        exact ⟨v, h, value_rel_refl v⟩
      | Binary l2 o2 r2 =>
        exact ⟨v, h, value_rel_refl v⟩
    | Boolean b1 =>
      cases b1 with
      | false =>
        cases r with
        | Name s2 =>
          exact ⟨v, h, value_rel_refl v⟩
        | Number n2 =>
          exact ⟨v, h, value_rel_refl v⟩
        | Boolean b2 =>
          cases b2 with
          | false =>
            exact ⟨v, h, value_rel_refl v⟩
          | true =>
            exact ⟨v, h, value_rel_refl v⟩
        | Unary u2 e2 =>
          exact ⟨v, h, value_rel_refl v⟩
        | Binary l2 o2 r2 =>
          exact ⟨v, h, value_rel_refl v⟩
      | true =>
        cases r with
        | Name s2 =>
          exact ⟨v, h, value_rel_refl v⟩
        | Number n2 =>
          exact ⟨v, h, value_rel_refl v⟩
        | Boolean b2 =>
          cases b2 with
          | false =>
            exact ⟨v, h, value_rel_refl v⟩
          | true =>
            exact ⟨v, h, value_rel_refl v⟩
        | Unary u2 e2 =>
          exact ⟨v, h, value_rel_refl v⟩
        | Binary l2 o2 r2 =>
          exact ⟨v, h, value_rel_refl v⟩
    | Unary u1 e1 =>
      cases r with
      | Name s2 =>
        exact ⟨v, h, value_rel_refl v⟩
      | Number n2 =>
        exact ⟨v, h, value_rel_refl v⟩
      | Boolean b2 =>
        cases b2 with
        | false =>
          exact ⟨v, h, value_rel_refl v⟩
        | true =>
          exact ⟨v, h, value_rel_refl v⟩
      | Unary u2 e2 =>
        exact ⟨v, h, value_rel_refl v⟩
      | Binary l2 o2 r2 =>
        exact ⟨v, h, value_rel_refl v⟩
    | Binary l1 o1 r1 =>
      cases r with
      | Name s2 =>
        exact ⟨v, h, value_rel_refl v⟩
      | Number n2 =>
        exact ⟨v, h, value_rel_refl v⟩
      | Boolean b2 =>
        cases b2 with
        | false =>
          exact ⟨v, h, value_rel_refl v⟩
        | true =>
          exact ⟨v, h, value_rel_refl v⟩
      | Unary u2 e2 =>
        exact ⟨v, h, value_rel_refl v⟩
      | Binary l2 o2 r2 =>
        exact ⟨v, h, value_rel_refl v⟩
  | Gt =>
    cases l with
    | Name s1 =>
      cases r with
      | Name s2 =>
        exact ⟨v, h, value_rel_refl v⟩
      | Number n2 =>
        exact ⟨v, h, value_rel_refl v⟩
      | Boolean b2 =>
        cases b2 with
        | false =>
          exact ⟨v, h, value_rel_refl v⟩
        | true =>
          exact ⟨v, h, value_rel_refl v⟩
      | Unary u2 e2 =>
        exact ⟨v, h, value_rel_refl v⟩
      | Binary l2 o2 r2 =>
        exact ⟨v, h, value_rel_refl v⟩
    | Number n1 =>
      cases r with
      | Name s2 =>
        exact ⟨v, h, value_rel_refl v⟩
      | Number n2 =>
        exact ⟨v, h, value_rel_refl v⟩
      | Boolean b2 =>
        cases b2 with
        | false =>
          exact ⟨v, h, value_rel_refl v⟩
        | true =>
          exact ⟨v, h, value_rel_refl v⟩
      | Unary u2 e2 =>
        exact ⟨v, h, value_rel_refl v⟩
      | Binary l2 o2 r2 =>
        exact ⟨v, h, value_rel_refl v⟩
    | Boolean b1 =>
      cases b1 with
      | false =>
        cases r with
        | Name s2 =>
          exact ⟨v, h, value_rel_refl v⟩
        | Number n2 =>
          exact ⟨v, h, value_rel_refl v⟩
        | Boolean b2 =>
          cases b2 with
          | false =>
            exact ⟨v, h, value_rel_refl v⟩
          | true =>
            exact ⟨v, h, value_rel_refl v⟩
        | Unary u2 e2 =>
          exact ⟨v, h, value_rel_refl v⟩
        | Binary l2 o2 r2 =>
          exact ⟨v, h, value_rel_refl v⟩
      | true =>
        cases r with
        | Name s2 =>
          exact ⟨v, h, value_rel_refl v⟩
        | Number n2 =>
          exact ⟨v, h, value_rel_refl v⟩
        | Boolean b2 =>
          cases b2 with
          | false =>
            exact ⟨v, h, value_rel_refl v⟩
          | true =>
            exact ⟨v, h, value_rel_refl v⟩
        | Unary u2 e2 =>
          exact ⟨v, h, value_rel_refl v⟩
        | Binary l2 o2 r2 =>
          exact ⟨v, h, value_rel_refl v⟩
    | Unary u1 e1 =>
      cases r with
      | Name s2 =>
        exact ⟨v, h, value_rel_refl v⟩
      | Number n2 =>
        exact ⟨v, h, value_rel_refl v⟩
      | Boolean b2 =>
        cases b2 with
        | false =>
          exact ⟨v, h, value_rel_refl v⟩
        | true =>
          exact ⟨v, h, value_rel_refl v⟩
      | Unary u2 e2 =>
        exact ⟨v, h, value_rel_refl v⟩
      | Binary l2 o2 r2 =>
        exact ⟨v, h, value_rel_refl v⟩
    | Binary l1 o1 r1 =>
      cases r with
      | Name s2 =>
        exact ⟨v, h, value_rel_refl v⟩
      | Number n2 =>
        exact ⟨v, h, value_rel_refl v⟩
      | Boolean b2 =>
        cases b2 with
        | false =>
          exact ⟨v, h, value_rel_refl v⟩
        | true =>
          exact ⟨v, h, value_rel_refl v⟩
      | Unary u2 e2 =>
        exact ⟨v, h, value_rel_refl v⟩
      | Binary l2 o2 r2 =>
        exact ⟨v, h, value_rel_refl v⟩
  | Ge =>
    cases l with
    | Name s1 =>
      cases r with
      | Name s2 =>
        exact ⟨v, h, value_rel_refl v⟩
      | Number n2 =>
        exact ⟨v, h, value_rel_refl v⟩
      | Boolean b2 =>
        cases b2 with
        | false =>
          exact ⟨v, h, value_rel_refl v⟩
        | true =>
          exact ⟨v, h, value_rel_refl v⟩
      | Unary u2 e2 =>
        exact ⟨v, h, value_rel_refl v⟩
      | Binary l2 o2 r2 =>
        exact ⟨v, h, value_rel_refl v⟩
    | Number n1 =>
      cases r with
      | Name s2 =>
        exact ⟨v, h, value_rel_refl v⟩
      | Number n2 =>
        exact ⟨v, h, value_rel_refl v⟩
      | Boolean b2 =>
        cases b2 with
        | false =>
          exact ⟨v, h, value_rel_refl v⟩
        | true =>
          exact ⟨v, h, value_rel_refl v⟩
      | Unary u2 e2 =>
        exact ⟨v, h, value_rel_refl v⟩
      | Binary l2 o2 r2 =>
        exact ⟨v, h, value_rel_refl v⟩
    | Boolean b1 =>
      cases b1 with
      | false =>
        cases r with
        | Name s2 =>
          exact ⟨v, h, value_rel_refl v⟩
        | Number n2 =>
          exact ⟨v, h, value_rel_refl v⟩
        | Boolean b2 =>
          cases b2 with
          | false =>
            exact ⟨v, h, value_rel_refl v⟩
          | true =>
            exact ⟨v, h, value_rel_refl v⟩
        | Unary u2 e2 =>
          exact ⟨v, h, value_rel_refl v⟩
        | Binary l2 o2 r2 =>
          exact ⟨v, h, value_rel_refl v⟩
      | true =>
        cases r with
        | Name s2 =>
          exact ⟨v, h, value_rel_refl v⟩
        | Number n2 =>
          exact ⟨v, h, value_rel_refl v⟩
        | Boolean b2 =>
          cases b2 with
          | false =>
            exact ⟨v, h, value_rel_refl v⟩
          | true =>
            exact ⟨v, h, value_rel_refl v⟩
        | Unary u2 e2 =>
          exact ⟨v, h, value_rel_refl v⟩
        | Binary l2 o2 r2 =>
          exact ⟨v, h, value_rel_refl v⟩
    | Unary u1 e1 =>
      cases r with
      | Name s2 =>
        exact ⟨v, h, value_rel_refl v⟩
      | Number n2 =>
        exact ⟨v, h, value_rel_refl v⟩
      | Boolean b2 =>
        cases b2 with
        | false =>
          exact ⟨v, h, value_rel_refl v⟩
        | true =>
          exact ⟨v, h, value_rel_refl v⟩
      | Unary u2 e2 =>
        exact ⟨v, h, value_rel_refl v⟩
      | Binary l2 o2 r2 =>
        exact ⟨v, h, value_rel_refl v⟩
    | Binary l1 o1 r1 =>
      cases r with
      | Name s2 =>
        exact ⟨v, h, value_rel_refl v⟩
      | Number n2 =>
        exact ⟨v, h, value_rel_refl v⟩
      | Boolean b2 =>
        cases b2 with
        | false =>
          exact ⟨v, h, value_rel_refl v⟩
        | true =>
          exact ⟨v, h, value_rel_refl v⟩
      | Unary u2 e2 =>
        exact ⟨v, h, value_rel_refl v⟩
      | Binary l2 o2 r2 =>
        exact ⟨v, h, value_rel_refl v⟩
  | And =>
    cases l with
    | Name s1 =>
      cases r with
      | Name s2 =>
        exact ⟨v, h, value_rel_refl v⟩
      | Number n2 =>
        (cases ht : truthy (.Number n2) with
         | false =>
           have hred : reduceBinary (Expression.Name s1) .And (.Number n2) = .Boolean false := by
             show (if (!truthy (Value.Number n2)) = true then Expression.Boolean false
                 else if (Expression.Name s1) = Expression.Boolean false then Expression.Boolean false
                 else Expression.Binary (Expression.Name s1) .And (.Number n2)) = _
             rw [ht, if_pos (show (!false) = true from rfl)]
           rw [hred]
           obtain ⟨lv, hlv, hcase⟩ := eval_and_ok h
           rcases hcase with ⟨ht2, hv⟩ | ⟨ht2, rv, hrv, hv⟩
           · subst hv; exact ⟨.Boolean false, rfl, value_rel_refl _⟩
           · replace hrv : Except.ok (Value.Number n2) = Except.ok rv := hrv
             obtain rfl := Except.ok.inj hrv
             subst hv
             exact ⟨.Boolean false, rfl, value_rel_boolean ht⟩
         | true =>
           have hred : reduceBinary (Expression.Name s1) .And (.Number n2) = .Binary (Expression.Name s1) .And (.Number n2) := by
             show (if (!truthy (Value.Number n2)) = true then Expression.Boolean false
                 else if (Expression.Name s1) = Expression.Boolean false then Expression.Boolean false
                 else Expression.Binary (Expression.Name s1) .And (.Number n2)) = _
             rw [ht, if_neg (show ¬((!true) = true) from by decide)]
             rw [if_neg (show ¬((Expression.Name s1) = Expression.Boolean false) from fun hc => Expression.noConfusion hc)]
           rw [hred]
           exact ⟨v, h, value_rel_refl v⟩)
      | Boolean b2 =>
        cases b2 with
        | false =>
          (obtain ⟨lv, hlv, hcase⟩ := eval_and_ok h
           refine ⟨.Boolean false, rfl, ?_⟩
           rcases hcase with ⟨ht, hv⟩ | ⟨ht, rv, hrv, hv⟩
           · subst hv; exact value_rel_refl _
           · replace hrv : Except.ok (Value.Boolean false) = Except.ok rv := hrv
             obtain rfl := Except.ok.inj hrv
             subst hv
             exact value_rel_refl _)
        | true =>
          exact ⟨v, h, value_rel_refl v⟩
      | Unary u2 e2 =>
        exact ⟨v, h, value_rel_refl v⟩
      | Binary l2 o2 r2 =>
        exact ⟨v, h, value_rel_refl v⟩
    | Number n1 =>
      cases r with
      | Name s2 =>
        (cases ht : truthy (.Number n1) with
         | false =>
           have hred : reduceBinary (.Number n1) .And (Expression.Name s2) = .Boolean false := by
             show (if (!truthy (Value.Number n1)) = true then Expression.Boolean false
                 else Expression.Binary (.Number n1) .And (Expression.Name s2)) = _
             rw [ht, if_pos (show (!false) = true from rfl)]
           rw [hred]
           obtain ⟨lv, hlv, hcase⟩ := eval_and_ok h
           replace hlv : Except.ok (Value.Number n1) = Except.ok lv := hlv
           obtain rfl := Except.ok.inj hlv
           rcases hcase with ⟨ht2, hv⟩ | ⟨ht2, rv, hrv, hv⟩
           · subst hv; exact ⟨.Boolean false, rfl, value_rel_refl _⟩
           · rw [ht] at ht2; exact Bool.noConfusion ht2
         | true =>
           have hred : reduceBinary (.Number n1) .And (Expression.Name s2) = .Binary (.Number n1) .And (Expression.Name s2) := by
             show (if (!truthy (Value.Number n1)) = true then Expression.Boolean false
                 else Expression.Binary (.Number n1) .And (Expression.Name s2)) = _
             rw [ht, if_neg (show ¬((!true) = true) from by decide)]
           rw [hred]
           exact ⟨v, h, value_rel_refl v⟩)
      | Number n2 =>
        (obtain ⟨lv, hlv, hcase⟩ := eval_and_ok h
         replace hlv : Except.ok (Value.Number n1) = Except.ok lv := hlv
         obtain rfl := Except.ok.inj hlv
         refine ⟨_, rfl, ?_⟩
         rcases hcase with ⟨ht, hv⟩ | ⟨ht, rv, hrv, hv⟩
         · subst hv
           refine value_rel_boolean ?_
           simp [ht, truthy_boolean]
         · replace hrv : Except.ok (Value.Number n2) = Except.ok rv := hrv
           obtain rfl := Except.ok.inj hrv
           subst hv
           refine value_rel_boolean ?_
           simp [ht, truthy_boolean])
      | Boolean b2 =>
        cases b2 with
        | false =>
          (obtain ⟨lv, hlv, hcase⟩ := eval_and_ok h
           replace hlv : Except.ok (Value.Number n1) = Except.ok lv := hlv
           obtain rfl := Except.ok.inj hlv
           refine ⟨_, rfl, ?_⟩
           rcases hcase with ⟨ht, hv⟩ | ⟨ht, rv, hrv, hv⟩
           · subst hv
             refine value_rel_boolean ?_
             simp [ht, truthy_boolean]
           · replace hrv : Except.ok (Value.Boolean false) = Except.ok rv := hrv
             obtain rfl := Except.ok.inj hrv
             subst hv
             refine value_rel_boolean ?_
             simp [ht, truthy_boolean])
        | true =>
          (obtain ⟨lv, hlv, hcase⟩ := eval_and_ok h
           replace hlv : Except.ok (Value.Number n1) = Except.ok lv := hlv
           obtain rfl := Except.ok.inj hlv
           refine ⟨_, rfl, ?_⟩
           rcases hcase with ⟨ht, hv⟩ | ⟨ht, rv, hrv, hv⟩
           · subst hv
             refine value_rel_boolean ?_
             simp [ht, truthy_boolean]
           · replace hrv : Except.ok (Value.Boolean true) = Except.ok rv := hrv
             obtain rfl := Except.ok.inj hrv
             subst hv
             refine value_rel_boolean ?_
             simp [ht, truthy_boolean])
      | Unary u2 e2 =>
        (cases ht : truthy (.Number n1) with
         | false =>
           have hred : reduceBinary (.Number n1) .And (Expression.Unary u2 e2) = .Boolean false := by
             show (if (!truthy (Value.Number n1)) = true then Expression.Boolean false
                 else Expression.Binary (.Number n1) .And (Expression.Unary u2 e2)) = _
             rw [ht, if_pos (show (!false) = true from rfl)]
           rw [hred]
           obtain ⟨lv, hlv, hcase⟩ := eval_and_ok h
           replace hlv : Except.ok (Value.Number n1) = Except.ok lv := hlv
           obtain rfl := Except.ok.inj hlv
           rcases hcase with ⟨ht2, hv⟩ | ⟨ht2, rv, hrv, hv⟩
           · subst hv; exact ⟨.Boolean false, rfl, value_rel_refl _⟩
           · rw [ht] at ht2; exact Bool.noConfusion ht2
         | true =>
           have hred : reduceBinary (.Number n1) .And (Expression.Unary u2 e2) = .Binary (.Number n1) .And (Expression.Unary u2 e2) := by
             show (if (!truthy (Value.Number n1)) = true then Expression.Boolean false
                 else Expression.Binary (.Number n1) .And (Expression.Unary u2 e2)) = _
             rw [ht, if_neg (show ¬((!true) = true) from by decide)]
           rw [hred]
           exact ⟨v, h, value_rel_refl v⟩)
      | Binary l2 o2 r2 =>
        (cases ht : truthy (.Number n1) with
         | false =>
           have hred : reduceBinary (.Number n1) .And (Expression.Binary l2 o2 r2) = .Boolean false := by
             show (if (!truthy (Value.Number n1)) = true then Expression.Boolean false
                 else Expression.Binary (.Number n1) .And (Expression.Binary l2 o2 r2)) = _
             rw [ht, if_pos (show (!false) = true from rfl)]
           rw [hred]
           obtain ⟨lv, hlv, hcase⟩ := eval_and_ok h
           replace hlv : Except.ok (Value.Number n1) = Except.ok lv := hlv
           obtain rfl := Except.ok.inj hlv
           rcases hcase with ⟨ht2, hv⟩ | ⟨ht2, rv, hrv, hv⟩
           · subst hv; exact ⟨.Boolean false, rfl, value_rel_refl _⟩
           · rw [ht] at ht2; exact Bool.noConfusion ht2
         | true =>
           have hred : reduceBinary (.Number n1) .And (Expression.Binary l2 o2 r2) = .Binary (.Number n1) .And (Expression.Binary l2 o2 r2) := by
             show (if (!truthy (Value.Number n1)) = true then Expression.Boolean false
                 else Expression.Binary (.Number n1) .And (Expression.Binary l2 o2 r2)) = _
             rw [ht, if_neg (show ¬((!true) = true) from by decide)]
           rw [hred]
           exact ⟨v, h, value_rel_refl v⟩)
    | Boolean b1 =>
      cases b1 with
      | false =>
        cases r with
        | Name s2 =>
          exact ⟨v, h, value_rel_refl v⟩
        | Number n2 =>
          exact ⟨v, h, value_rel_refl v⟩
        | Boolean b2 =>
          cases b2 with
          | false =>
            exact ⟨v, h, value_rel_refl v⟩
          | true =>
            exact ⟨v, h, value_rel_refl v⟩
        | Unary u2 e2 =>
          exact ⟨v, h, value_rel_refl v⟩
        | Binary l2 o2 r2 =>
          exact ⟨v, h, value_rel_refl v⟩
      | true =>
        cases r with
        | Name s2 =>
          exact ⟨v, h, value_rel_refl v⟩
        | Number n2 =>
          exact ⟨v, h, value_rel_refl v⟩
        | Boolean b2 =>
          cases b2 with
          | false =>
            exact ⟨v, h, value_rel_refl v⟩
          | true =>
            exact ⟨v, h, value_rel_refl v⟩
        | Unary u2 e2 =>
          exact ⟨v, h, value_rel_refl v⟩
        | Binary l2 o2 r2 =>
          exact ⟨v, h, value_rel_refl v⟩
    | Unary u1 e1 =>
      cases r with
      | Name s2 =>
        exact ⟨v, h, value_rel_refl v⟩
      | Number n2 =>
        (cases ht : truthy (.Number n2) with
         | false =>
           have hred : reduceBinary (Expression.Unary u1 e1) .And (.Number n2) = .Boolean false := by
             show (if (!truthy (Value.Number n2)) = true then Expression.Boolean false
                 else if (Expression.Unary u1 e1) = Expression.Boolean false then Expression.Boolean false
                 else Expression.Binary (Expression.Unary u1 e1) .And (.Number n2)) = _
             rw [ht, if_pos (show (!false) = true from rfl)]
           rw [hred]
           obtain ⟨lv, hlv, hcase⟩ := eval_and_ok h
           rcases hcase with ⟨ht2, hv⟩ | ⟨ht2, rv, hrv, hv⟩
           · subst hv; exact ⟨.Boolean false, rfl, value_rel_refl _⟩
           · replace hrv : Except.ok (Value.Number n2) = Except.ok rv := hrv
             obtain rfl := Except.ok.inj hrv
             subst hv
             exact ⟨.Boolean false, rfl, value_rel_boolean ht⟩
         | true =>
           have hred : reduceBinary (Expression.Unary u1 e1) .And (.Number n2) = .Binary (Expression.Unary u1 e1) .And (.Number n2) := by
             show (if (!truthy (Value.Number n2)) = true then Expression.Boolean false
                 else if (Expression.Unary u1 e1) = Expression.Boolean false then Expression.Boolean false
                 else Expression.Binary (Expression.Unary u1 e1) .And (.Number n2)) = _
             rw [ht, if_neg (show ¬((!true) = true) from by decide)]
             rw [if_neg (show ¬((Expression.Unary u1 e1) = Expression.Boolean false) from fun hc => Expression.noConfusion hc)]
           rw [hred]
           exact ⟨v, h, value_rel_refl v⟩)
      | Boolean b2 =>
        cases b2 with
        | false =>
          (obtain ⟨lv, hlv, hcase⟩ := eval_and_ok h
           refine ⟨.Boolean false, rfl, ?_⟩
           rcases hcase with ⟨ht, hv⟩ | ⟨ht, rv, hrv, hv⟩
           · subst hv; exact value_rel_refl _
           · replace hrv : Except.ok (Value.Boolean false) = Except.ok rv := hrv
             obtain rfl := Except.ok.inj hrv
             subst hv
             exact value_rel_refl _)
        | true =>
          exact ⟨v, h, value_rel_refl v⟩
      | Unary u2 e2 =>
        exact ⟨v, h, value_rel_refl v⟩
      | Binary l2 o2 r2 =>
        exact ⟨v, h, value_rel_refl v⟩
    | Binary l1 o1 r1 =>
      cases r with
      | Name s2 =>
        exact ⟨v, h, value_rel_refl v⟩
      | Number n2 =>
        (cases ht : truthy (.Number n2) with
         | false =>
           have hred : reduceBinary (Expression.Binary l1 o1 r1) .And (.Number n2) = .Boolean false := by
             show (if (!truthy (Value.Number n2)) = true then Expression.Boolean false
                 else if (Expression.Binary l1 o1 r1) = Expression.Boolean false then Expression.Boolean false
                 else Expression.Binary (Expression.Binary l1 o1 r1) .And (.Number n2)) = _
             rw [ht, if_pos (show (!false) = true from rfl)]
           rw [hred]
           obtain ⟨lv, hlv, hcase⟩ := eval_and_ok h
           rcases hcase with ⟨ht2, hv⟩ | ⟨ht2, rv, hrv, hv⟩
           · subst hv; exact ⟨.Boolean false, rfl, value_rel_refl _⟩
           · replace hrv : Except.ok (Value.Number n2) = Except.ok rv := hrv
             obtain rfl := Except.ok.inj hrv
             subst hv
             exact ⟨.Boolean false, rfl, value_rel_boolean ht⟩
         | true =>
           have hred : reduceBinary (Expression.Binary l1 o1 r1) .And (.Number n2) = .Binary (Expression.Binary l1 o1 r1) .And (.Number n2) := by
             show (if (!truthy (Value.Number n2)) = true then Expression.Boolean false
                 else if (Expression.Binary l1 o1 r1) = Expression.Boolean false then Expression.Boolean false
                 else Expression.Binary (Expression.Binary l1 o1 r1) .And (.Number n2)) = _
             rw [ht, if_neg (show ¬((!true) = true) from by decide)]
             rw [if_neg (show ¬((Expression.Binary l1 o1 r1) = Expression.Boolean false) from fun hc => Expression.noConfusion hc)]
           rw [hred]
           exact ⟨v, h, value_rel_refl v⟩)
      | Boolean b2 =>
        cases b2 with
        | false =>
          (obtain ⟨lv, hlv, hcase⟩ := eval_and_ok h
           refine ⟨.Boolean false, rfl, ?_⟩
           rcases hcase with ⟨ht, hv⟩ | ⟨ht, rv, hrv, hv⟩
           · subst hv; exact value_rel_refl _
           · replace hrv : Except.ok (Value.Boolean false) = Except.ok rv := hrv
             obtain rfl := Except.ok.inj hrv
             subst hv
             exact value_rel_refl _)
        | true =>
          exact ⟨v, h, value_rel_refl v⟩
      | Unary u2 e2 =>
        exact ⟨v, h, value_rel_refl v⟩
      | Binary l2 o2 r2 =>
        exact ⟨v, h, value_rel_refl v⟩
  | Or =>
    cases l with
    | Name s1 =>
      cases r with
      | Name s2 =>
        exact ⟨v, h, value_rel_refl v⟩
      | Number n2 =>
        (cases ht : truthy (.Number n2) with
         | true =>
           have hred : reduceBinary (Expression.Name s1) .Or (.Number n2) = .Boolean true := by
             show (if truthy (Value.Number n2) = true then Expression.Boolean true
                 else if (Expression.Name s1) = Expression.Boolean true then Expression.Boolean true
                 else Expression.Binary (Expression.Name s1) .Or (.Number n2)) = _
             rw [ht, if_pos (show true = true from rfl)]
           rw [hred]
           obtain ⟨lv, hlv, hcase⟩ := eval_or_ok h
           rcases hcase with ⟨ht2, hv⟩ | ⟨ht2, rv, hrv, hv⟩
           · subst hv; exact ⟨.Boolean true, rfl, value_rel_refl _⟩
           · replace hrv : Except.ok (Value.Number n2) = Except.ok rv := hrv
             obtain rfl := Except.ok.inj hrv
             subst hv
             exact ⟨.Boolean true, rfl, value_rel_boolean ht⟩
         | false =>
           have hred : reduceBinary (Expression.Name s1) .Or (.Number n2) = .Binary (Expression.Name s1) .Or (.Number n2) := by
             show (if truthy (Value.Number n2) = true then Expression.Boolean true
                 else if (Expression.Name s1) = Expression.Boolean true then Expression.Boolean true
                 else Expression.Binary (Expression.Name s1) .Or (.Number n2)) = _
             rw [ht, if_neg (show ¬(false = true) from by decide)]
             rw [if_neg (show ¬((Expression.Name s1) = Expression.Boolean true) from fun hc => Expression.noConfusion hc)]
           rw [hred]
           exact ⟨v, h, value_rel_refl v⟩)
      | Boolean b2 =>
        cases b2 with
        | false =>
          exact ⟨v, h, value_rel_refl v⟩
        | true =>
          (obtain ⟨lv, hlv, hcase⟩ := eval_or_ok h
           refine ⟨.Boolean true, rfl, ?_⟩
           rcases hcase with ⟨ht, hv⟩ | ⟨ht, rv, hrv, hv⟩
           · subst hv; exact value_rel_refl _
           · replace hrv : Except.ok (Value.Boolean true) = Except.ok rv := hrv
             obtain rfl := Except.ok.inj hrv
             subst hv
             exact value_rel_refl _)
      | Unary u2 e2 =>
        exact ⟨v, h, value_rel_refl v⟩
      | Binary l2 o2 r2 =>
        exact ⟨v, h, value_rel_refl v⟩
    | Number n1 =>
      cases r with
      | Name s2 =>
        (cases ht : truthy (.Number n1) with
         | true =>
           have hred : reduceBinary (.Number n1) .Or (Expression.Name s2) = .Boolean true := by
             show (if truthy (Value.Number n1) = true then Expression.Boolean true
                 else Expression.Binary (.Number n1) .Or (Expression.Name s2)) = _
             rw [ht, if_pos (show true = true from rfl)]
           rw [hred]
           obtain ⟨lv, hlv, hcase⟩ := eval_or_ok h
           replace hlv : Except.ok (Value.Number n1) = Except.ok lv := hlv
           obtain rfl := Except.ok.inj hlv
           rcases hcase with ⟨ht2, hv⟩ | ⟨ht2, rv, hrv, hv⟩
           · subst hv; exact ⟨.Boolean true, rfl, value_rel_refl _⟩
           · rw [ht] at ht2; exact Bool.noConfusion ht2
         | false =>
           have hred : reduceBinary (.Number n1) .Or (Expression.Name s2) = .Binary (.Number n1) .Or (Expression.Name s2) := by
             show (if truthy (Value.Number n1) = true then Expression.Boolean true
                 else Expression.Binary (.Number n1) .Or (Expression.Name s2)) = _
             rw [ht, if_neg (show ¬(false = true) from by decide)]
           rw [hred]
           exact ⟨v, h, value_rel_refl v⟩)
      | Number n2 =>
        (obtain ⟨lv, hlv, hcase⟩ := eval_or_ok h
         replace hlv : Except.ok (Value.Number n1) = Except.ok lv := hlv
         obtain rfl := Except.ok.inj hlv
         refine ⟨_, rfl, ?_⟩
         rcases hcase with ⟨ht, hv⟩ | ⟨ht, rv, hrv, hv⟩
         · subst hv
           refine value_rel_boolean ?_
           simp [ht, truthy_boolean]
         · replace hrv : Except.ok (Value.Number n2) = Except.ok rv := hrv
           obtain rfl := Except.ok.inj hrv
           subst hv
           refine value_rel_boolean ?_
           simp [ht, truthy_boolean])
      | Boolean b2 =>
        cases b2 with
        | false =>
          (obtain ⟨lv, hlv, hcase⟩ := eval_or_ok h
           replace hlv : Except.ok (Value.Number n1) = Except.ok lv := hlv
           obtain rfl := Except.ok.inj hlv
           refine ⟨_, rfl, ?_⟩
           rcases hcase with ⟨ht, hv⟩ | ⟨ht, rv, hrv, hv⟩
           · subst hv
             refine value_rel_boolean ?_
             simp [ht, truthy_boolean]
           · replace hrv : Except.ok (Value.Boolean false) = Except.ok rv := hrv
             obtain rfl := Except.ok.inj hrv
             subst hv
             refine value_rel_boolean ?_
             simp [ht, truthy_boolean])
        | true =>
          (obtain ⟨lv, hlv, hcase⟩ := eval_or_ok h
           replace hlv : Except.ok (Value.Number n1) = Except.ok lv := hlv
           obtain rfl := Except.ok.inj hlv
           refine ⟨_, rfl, ?_⟩
           rcases hcase with ⟨ht, hv⟩ | ⟨ht, rv, hrv, hv⟩
           · subst hv
             refine value_rel_boolean ?_
             simp [ht, truthy_boolean]
           · replace hrv : Except.ok (Value.Boolean true) = Except.ok rv := hrv
             obtain rfl := Except.ok.inj hrv
             subst hv
             refine value_rel_boolean ?_
             simp [ht, truthy_boolean])
      | Unary u2 e2 =>
        (cases ht : truthy (.Number n1) with
         | true =>
           have hred : reduceBinary (.Number n1) .Or (Expression.Unary u2 e2) = .Boolean true := by
             show (if truthy (Value.Number n1) = true then Expression.Boolean true
                 else Expression.Binary (.Number n1) .Or (Expression.Unary u2 e2)) = _
             rw [ht, if_pos (show true = true from rfl)]
           rw [hred]
           obtain ⟨lv, hlv, hcase⟩ := eval_or_ok h
           replace hlv : Except.ok (Value.Number n1) = Except.ok lv := hlv
           obtain rfl := Except.ok.inj hlv
           rcases hcase with ⟨ht2, hv⟩ | ⟨ht2, rv, hrv, hv⟩
           · subst hv; exact ⟨.Boolean true, rfl, value_rel_refl _⟩
           · rw [ht] at ht2; exact Bool.noConfusion ht2
         | false =>
           have hred : reduceBinary (.Number n1) .Or (Expression.Unary u2 e2) = .Binary (.Number n1) .Or (Expression.Unary u2 e2) := by
             show (if truthy (Value.Number n1) = true then Expression.Boolean true
                 else Expression.Binary (.Number n1) .Or (Expression.Unary u2 e2)) = _
             rw [ht, if_neg (show ¬(false = true) from by decide)]
           rw [hred]
           exact ⟨v, h, value_rel_refl v⟩)
      | Binary l2 o2 r2 =>
        (cases ht : truthy (.Number n1) with
         | true =>
           have hred : reduceBinary (.Number n1) .Or (Expression.Binary l2 o2 r2) = .Boolean true := by
             show (if truthy (Value.Number n1) = true then Expression.Boolean true
                 else Expression.Binary (.Number n1) .Or (Expression.Binary l2 o2 r2)) = _
             rw [ht, if_pos (show true = true from rfl)]
           rw [hred]
           obtain ⟨lv, hlv, hcase⟩ := eval_or_ok h
           replace hlv : Except.ok (Value.Number n1) = Except.ok lv := hlv
           obtain rfl := Except.ok.inj hlv
           rcases hcase with ⟨ht2, hv⟩ | ⟨ht2, rv, hrv, hv⟩
           · subst hv; exact ⟨.Boolean true, rfl, value_rel_refl _⟩
           · rw [ht] at ht2; exact Bool.noConfusion ht2
         | false =>
           have hred : reduceBinary (.Number n1) .Or (Expression.Binary l2 o2 r2) = .Binary (.Number n1) .Or (Expression.Binary l2 o2 r2) := by
             show (if truthy (Value.Number n1) = true then Expression.Boolean true
                 else Expression.Binary (.Number n1) .Or (Expression.Binary l2 o2 r2)) = _
             rw [ht, if_neg (show ¬(false = true) from by decide)]
           rw [hred]
           exact ⟨v, h, value_rel_refl v⟩)
    | Boolean b1 =>
      cases b1 with
      | false =>
        cases r with
        | Name s2 =>
          exact ⟨v, h, value_rel_refl v⟩
        | Number n2 =>
          exact ⟨v, h, value_rel_refl v⟩
        | Boolean b2 =>
          cases b2 with
          | false =>
            exact ⟨v, h, value_rel_refl v⟩
          | true =>
            exact ⟨v, h, value_rel_refl v⟩
        | Unary u2 e2 =>
          exact ⟨v, h, value_rel_refl v⟩
        | Binary l2 o2 r2 =>
          exact ⟨v, h, value_rel_refl v⟩
      | true =>
        cases r with
        | Name s2 =>
          exact ⟨v, h, value_rel_refl v⟩
        | Number n2 =>
          exact ⟨v, h, value_rel_refl v⟩
        | Boolean b2 =>
          cases b2 with
          | false =>
            exact ⟨v, h, value_rel_refl v⟩
          | true =>
            exact ⟨v, h, value_rel_refl v⟩
        | Unary u2 e2 =>
          exact ⟨v, h, value_rel_refl v⟩
        | Binary l2 o2 r2 =>
          exact ⟨v, h, value_rel_refl v⟩
    | Unary u1 e1 =>
      cases r with
      | Name s2 =>
        exact ⟨v, h, value_rel_refl v⟩
      | Number n2 =>
        (cases ht : truthy (.Number n2) with
         | true =>
           have hred : reduceBinary (Expression.Unary u1 e1) .Or (.Number n2) = .Boolean true := by
             show (if truthy (Value.Number n2) = true then Expression.Boolean true
                 else if (Expression.Unary u1 e1) = Expression.Boolean true then Expression.Boolean true
                 else Expression.Binary (Expression.Unary u1 e1) .Or (.Number n2)) = _
             rw [ht, if_pos (show true = true from rfl)]
           rw [hred]
           obtain ⟨lv, hlv, hcase⟩ := eval_or_ok h
           rcases hcase with ⟨ht2, hv⟩ | ⟨ht2, rv, hrv, hv⟩
           · subst hv; exact ⟨.Boolean true, rfl, value_rel_refl _⟩
           · replace hrv : Except.ok (Value.Number n2) = Except.ok rv := hrv
             obtain rfl := Except.ok.inj hrv
             subst hv
             exact ⟨.Boolean true, rfl, value_rel_boolean ht⟩
         | false =>
           have hred : reduceBinary (Expression.Unary u1 e1) .Or (.Number n2) = .Binary (Expression.Unary u1 e1) .Or (.Number n2) := by
             show (if truthy (Value.Number n2) = true then Expression.Boolean true
                 else if (Expression.Unary u1 e1) = Expression.Boolean true then Expression.Boolean true
                 else Expression.Binary (Expression.Unary u1 e1) .Or (.Number n2)) = _
             rw [ht, if_neg (show ¬(false = true) from by decide)]
             rw [if_neg (show ¬((Expression.Unary u1 e1) = Expression.Boolean true) from fun hc => Expression.noConfusion hc)]
           rw [hred]
           exact ⟨v, h, value_rel_refl v⟩)
      | Boolean b2 =>
        cases b2 with
        | false =>
          exact ⟨v, h, value_rel_refl v⟩
        | true =>
          (obtain ⟨lv, hlv, hcase⟩ := eval_or_ok h
           refine ⟨.Boolean true, rfl, ?_⟩
           rcases hcase with ⟨ht, hv⟩ | ⟨ht, rv, hrv, hv⟩
           · subst hv; exact value_rel_refl _
           · replace hrv : Except.ok (Value.Boolean true) = Except.ok rv := hrv
             obtain rfl := Except.ok.inj hrv
             subst hv
             exact value_rel_refl _)
      | Unary u2 e2 =>
        exact ⟨v, h, value_rel_refl v⟩
      | Binary l2 o2 r2 =>
        exact ⟨v, h, value_rel_refl v⟩
    | Binary l1 o1 r1 =>
      cases r with
      | Name s2 =>
        exact ⟨v, h, value_rel_refl v⟩
      | Number n2 =>
        (cases ht : truthy (.Number n2) with
         | true =>
           have hred : reduceBinary (Expression.Binary l1 o1 r1) .Or (.Number n2) = .Boolean true := by
             show (if truthy (Value.Number n2) = true then Expression.Boolean true
                 else if (Expression.Binary l1 o1 r1) = Expression.Boolean true then Expression.Boolean true
                 else Expression.Binary (Expression.Binary l1 o1 r1) .Or (.Number n2)) = _
             rw [ht, if_pos (show true = true from rfl)]
           rw [hred]
           obtain ⟨lv, hlv, hcase⟩ := eval_or_ok h
           rcases hcase with ⟨ht2, hv⟩ | ⟨ht2, rv, hrv, hv⟩
           · subst hv; exact ⟨.Boolean true, rfl, value_rel_refl _⟩
           · replace hrv : Except.ok (Value.Number n2) = Except.ok rv := hrv
             obtain rfl := Except.ok.inj hrv
             subst hv
             exact ⟨.Boolean true, rfl, value_rel_boolean ht⟩
         | false =>
           have hred : reduceBinary (Expression.Binary l1 o1 r1) .Or (.Number n2) = .Binary (Expression.Binary l1 o1 r1) .Or (.Number n2) := by
             show (if truthy (Value.Number n2) = true then Expression.Boolean true
                 else if (Expression.Binary l1 o1 r1) = Expression.Boolean true then Expression.Boolean true
                 else Expression.Binary (Expression.Binary l1 o1 r1) .Or (.Number n2)) = _
             rw [ht, if_neg (show ¬(false = true) from by decide)]
             rw [if_neg (show ¬((Expression.Binary l1 o1 r1) = Expression.Boolean true) from fun hc => Expression.noConfusion hc)]
           rw [hred]
           exact ⟨v, h, value_rel_refl v⟩)
      | Boolean b2 =>
        cases b2 with
        | false =>
          exact ⟨v, h, value_rel_refl v⟩
        | true =>
          (obtain ⟨lv, hlv, hcase⟩ := eval_or_ok h
           refine ⟨.Boolean true, rfl, ?_⟩
           rcases hcase with ⟨ht, hv⟩ | ⟨ht, rv, hrv, hv⟩
           · subst hv; exact value_rel_refl _
           · replace hrv : Except.ok (Value.Boolean true) = Except.ok rv := hrv
             obtain rfl := Except.ok.inj hrv
             subst hv
             exact value_rel_refl _)
      | Unary u2 e2 =>
        exact ⟨v, h, value_rel_refl v⟩
      | Binary l2 o2 r2 =>
        exact ⟨v, h, value_rel_refl v⟩

end Perky

namespace Perky

/-- Reduction preserves a successful evaluation up to the value relation. -/
theorem eval_reduce_rel (E : Expression) (env : SymbolTable) :
    ∀ v, evaluate E env = .ok v →
      ∃ v', evaluate (reduce E) env = .ok v' ∧ value_rel v v' := by
  induction E with
  | Name s => exact fun v h => ⟨v, h, value_rel_refl v⟩
  | Number n => exact fun v h => ⟨v, h, value_rel_refl v⟩
  | Boolean b => exact fun v h => ⟨v, h, value_rel_refl v⟩
  | Unary op e ih =>
    intro v h
    have h1 : evaluate (.Unary op (reduce e)) env = .ok v := eval_unary_congr h ih
    exact eval_reduceUnary h1
  | Binary l op r ihl ihr =>
    intro v h
    have h1 : evaluate (.Binary (reduce l) op (reduce r)) env = .ok v :=
      eval_binary_congr h ihl ihr
    exact eval_reduceBinary h1

/-- **C9 counterexample.** Reduction does not preserve results exactly: the
expression `(1 / 0) && 0` evaluates to a division-by-zero error, but its
reduction evaluates to `Ok(Boolean(false))` (the non-truthy right operand
of `&&` folds the node to `false`, discarding the erroring left operand);
and `!!x` reduces to `x`, which can turn a boolean result into a number. -/
theorem c9_reduce_changes_result :
    evaluate (.Binary (.Binary (.Number f64one) .Div (.Number f64zero)) .And
        (.Number f64zero)) (fun _ => none)
      = .error .DivisionByZero
    ∧ evaluate (reduce (.Binary (.Binary (.Number f64one) .Div (.Number f64zero)) .And
        (.Number f64zero))) (fun _ => none)
      = .ok (.Boolean false)
    ∧ evaluate (.Unary .Not (.Unary .Not (.Name "x")))
        (fun s => if s = "x" then some (.Number (F64.finite ⟨1, 1⟩)) else none)
      = .ok (.Boolean true)
    ∧ reduce (.Unary .Not (.Unary .Not (.Name "x"))) = .Name "x"
    ∧ evaluate (reduce (.Unary .Not (.Unary .Not (.Name "x"))))
        (fun s => if s = "x" then some (.Number (F64.finite ⟨1, 1⟩)) else none)
      = .ok (.Number (F64.finite ⟨1, 1⟩)) :=
  ⟨rfl, rfl, rfl, rfl, rfl⟩

/-- **C9 (amended).** The constant-reduction pass is idempotent, and it
preserves successful evaluations up to truthiness: if `E` evaluates to `v`,
then `reduce E` evaluates to a value `v'` with the same truthiness, equal
to `v` except that the `!!x → x` rule may replace a boolean result by the
value of `x` itself.  (Results are not preserved exactly, and an erroring
expression may reduce to one that succeeds; see the counterexample.) -/
theorem c9_reduce_idempotent_and_truthiness (E : Expression) :
    reduce (reduce E) = reduce E
    ∧ ∀ (env : SymbolTable) (v : Value), evaluate E env = .ok v →
        ∃ v', evaluate (reduce E) env = .ok v'
          ∧ truthy v' = truthy v ∧ (v' = v ∨ v = .Boolean (truthy v')) :=
  ⟨reduce_idem E, fun env v h =>
    let ⟨v', h1, h2⟩ := eval_reduce_rel E env v h
    ⟨v', h1, h2.1, h2.2⟩⟩

/-- Witness for C9: `1 + 1` evaluates to the same number before and after
reduction. -/
theorem c9_reduce_idempotent_and_truthiness_witness :
    ∃ v', evaluate (reduce (.Binary (.Number f64one) .Add (.Number f64one)))
        (fun _ => none) = .ok v'
      ∧ truthy v' = truthy (Value.Number (fadd f64one f64one))
      ∧ (v' = Value.Number (fadd f64one f64one)
         ∨ Value.Number (fadd f64one f64one) = Value.Boolean (truthy v')) :=
  (c9_reduce_idempotent_and_truthiness
    (.Binary (.Number f64one) .Add (.Number f64one))).2
    (fun _ => none) (.Number (fadd f64one f64one)) rfl

end Perky

namespace Perky

/-- Every member of a truncated ordered insertion is either the inserted
triple or an original member. -/
theorem mem_truncate_insert {P : Nat → α → Prop} {l : List (Entry α)} {s i : Nat}
    {m : α} {goal : Goal} {capOpt : Option Nat}
    (hP : P i m) (h : ∀ e ∈ l, P e.index e.matrix) :
    ∀ e ∈ truncate (insert_sorted l s i m) goal capOpt, P e.index e.matrix := by
  intro e he
  rcases mem_insert_sorted.mp ((truncate_sublist _ _ _).subset he) with rfl | hl
  · exact hP
  · exact h e hl

/-- `consider_record` preserves any per-entry index/matrix property that the
considered item satisfies. -/
theorem consider_record_mem_linked {goal : Goal} {tol : F64} {capOpt : Option Nat}
    {P : Nat → α → Prop} {st : SearchState α} {m : α} {s i : Nat}
    (hP : P i m) (h : ∀ e ∈ st.records, P e.index e.matrix) :
    ∀ e ∈ (consider_record goal tol capOpt m s i st).records, P e.index e.matrix := by
  obtain ⟨rs, b, t⟩ := st
  simp only at h
  cases goal
  case Max =>
    simp only [consider_record]
    by_cases hbest : b < s
    · simp only [hbest, if_true]
      by_cases hth : calculate_threshold .Max s tol ≤ s
      · simp only [hth, if_true]
        exact mem_truncate_insert hP
          (fun e he => h e ((drop_below_sublist rs _).subset he))
      · simp only [hth, if_false]
        exact fun e he => h e ((drop_below_sublist rs _).subset he)
    · simp only [hbest, if_false]
      by_cases hth : t ≤ s
      · simp only [hth, if_true]
        exact mem_truncate_insert hP h
      · simp only [hth, if_false]
        exact h
  case Min =>
    simp only [consider_record]
    by_cases hbest : s < b
    · simp only [hbest, if_true]
      by_cases hth : s ≤ calculate_threshold .Min s tol
      · simp only [hth, if_true]
        exact mem_truncate_insert hP
          (fun e he => h e ((drop_above_sublist rs _).subset he))
      · simp only [hth, if_false]
        exact fun e he => h e ((drop_above_sublist rs _).subset he)
    · simp only [hbest, if_false]
      by_cases hth : s ≤ t
      · simp only [hth, if_true]
        exact mem_truncate_insert hP h
      · simp only [hth, if_false]
        exact h

/-- Members of a (possibly capped) merge of back-pruned deques come from one
of the two inputs. -/
theorem mem_combined_below {l r : List (Entry α)} {thr : Nat} {capOpt : Option Nat}
    {e : Entry α}
    (he : e ∈ (match capOpt with
      | some cap => (merge_lists (drop_below_threshold l thr)
          (drop_below_threshold r thr)).take cap
      | none => merge_lists (drop_below_threshold l thr) (drop_below_threshold r thr))) :
    e ∈ l ∨ e ∈ r := by
  have he2 : e ∈ merge_lists (drop_below_threshold l thr) (drop_below_threshold r thr) := by
    cases capOpt with
    | none => exact he
    | some cap => exact (List.take_sublist cap _).subset he
  rcases mem_merge_lists.mp he2 with h1 | h1
  · exact Or.inl ((drop_below_sublist l thr).subset h1)
  · exact Or.inr ((drop_below_sublist r thr).subset h1)

/-- Members of a (possibly capped) merge of front-pruned deques come from
one of the two inputs. -/
theorem mem_combined_above {l r : List (Entry α)} {thr : Nat} {capOpt : Option Nat}
    {e : Entry α}
    (he : e ∈ (match capOpt with
      | some cap => (merge_lists (drop_above_threshold l thr)
          (drop_above_threshold r thr)).take cap
      | none => merge_lists (drop_above_threshold l thr) (drop_above_threshold r thr))) :
    e ∈ l ∨ e ∈ r := by
  have he2 : e ∈ merge_lists (drop_above_threshold l thr) (drop_above_threshold r thr) := by
    cases capOpt with
    | none => exact he
    | some cap => exact (List.take_sublist cap _).subset he
  rcases mem_merge_lists.mp he2 with h1 | h1
  · exact Or.inl ((drop_above_sublist l thr).subset h1)
  · exact Or.inr ((drop_above_sublist r thr).subset h1)

/-- Every record of a combined state comes from one of the two partial
states. -/
theorem mem_reduce_combine {goal : Goal} {capOpt : Option Nat} {s t : SearchState α}
    {e : Entry α} (he : e ∈ (reduce_combine goal capOpt s t).records) :
    e ∈ s.records ∨ e ∈ t.records := by
  cases goal
  case Max =>
    by_cases hp : t.best_score ≤ s.best_score
    · have hpd : decide (t.best_score ≤ s.best_score) = true := by simp [hp]
      simp only [reduce_combine, hpd, if_true] at he
      exact mem_combined_below he
    · have hpd : decide (t.best_score ≤ s.best_score) = false := by simp [hp]
      simp only [reduce_combine, hpd, Bool.false_eq_true, if_false] at he
      exact (mem_combined_below he).symm
  case Min =>
    by_cases hp : s.best_score ≤ t.best_score
    · have hpd : decide (s.best_score ≤ t.best_score) = true := by simp [hp]
      simp only [reduce_combine, hpd, if_true] at he
      exact mem_combined_above he
    · have hpd : decide (s.best_score ≤ t.best_score) = false := by simp [hp]
      simp only [reduce_combine, hpd, Bool.false_eq_true, if_false] at he
      exact (mem_combined_above he).symm

/-- Folding `consider_record` over work items preserves a per-entry
index/matrix property satisfied by every item. -/
theorem run_fold_core_linked {goal : Goal} {tol : F64} {capOpt : Option Nat}
    (f : α → Nat) (build : β → α) (P : Nat → α → Prop) :
    ∀ (items : List (Nat × β)) (st : SearchState α),
      (∀ e ∈ st.records, P e.index e.matrix) →
      (∀ it ∈ items, P it.1 (build it.2)) →
      ∀ e ∈ (items.foldl
          (fun st it => consider_record goal tol capOpt (build it.2)
            (f (build it.2)) it.1 st) st).records, P e.index e.matrix := by
  intro items
  induction items with
  | nil => intro st h _; exact h
  | cons it rest ih =>
    intro st h hall
    exact ih _ (consider_record_mem_linked (hall it (List.mem_cons_self it rest)) h)
      (fun x hx => hall x (List.mem_cons_of_mem it hx))

/-- A worker chunk fold preserves a per-entry index/matrix property linking
each index to its decoded matrix. -/
theorem chunk_fold_linked {goal : Goal} {tol : F64} {capOpt : Option Nat}
    (f : α → Nat) (build : Nat → α) (P : Nat → α → Prop) (hP : ∀ i, P i (build i)) :
    ∀ (indices : List Nat) (st : SearchState α),
      (∀ e ∈ st.records, P e.index e.matrix) →
      ∀ e ∈ (indices.foldl
          (fun st i => consider_record goal tol capOpt (build i) (f (build i)) i st)
          st).records, P e.index e.matrix := by
  intro indices
  induction indices with
  | nil => intro st h; exact h
  | cons i rest ih =>
    intro st h
    exact ih _ (consider_record_mem_linked (hP i) h)

/-- The parallel reduction preserves a per-entry index/matrix property held
by all partial states. -/
theorem foldl_combine_linked {goal : Goal} {capOpt : Option Nat}
    (P : Nat → α → Prop) :
    ∀ (sts : List (SearchState α)) (st0 : SearchState α),
      (∀ e ∈ st0.records, P e.index e.matrix) →
      (∀ s ∈ sts, ∀ e ∈ s.records, P e.index e.matrix) →
      ∀ e ∈ (sts.foldl (reduce_combine goal capOpt) st0).records,
        P e.index e.matrix := by
  intro sts
  induction sts with
  | nil => intro st0 h _; exact h
  | cons s rest ih =>
    intro st0 h hall
    refine ih _ ?_ (fun x hx => hall x (List.mem_cons_of_mem s hx))
    intro e he
    rcases mem_reduce_combine he with h1 | h1
    · exact h e h1
    · exact hall s (List.mem_cons_self s rest) e h1

/-- The sequential variant's final state additionally links every entry's
index to the triple enumerated at that index: the entry's matrix is the
substitution of the `index`-th triple of the swap-generator enumeration. -/
theorem seq_state_indexed (sf : KeyMatrix → Nat) (goal : Goal) (tol : F64)
    (pmax capOpt : Option Nat) (base : KeyMatrix) (r1 r2 r3 : Region) :
    ∃ st : SearchState KeyMatrix, search_inv goal (clamp01 tol) sf st ∧
      (∀ e ∈ st.records, ∃ t, (seq_triples r1 r2 r3)[e.index]? = some t ∧
        e.matrix = substitute base r1 r2 r3 t.1 t.2.1 t.2.2) ∧
      (permute_and_substitute_sequential sf goal tol pmax capOpt base r1 r2 r3).2.2 =
        st.records.map (fun e => e.matrix) := by
  refine ⟨_, ?_, ?_, rfl⟩
  · exact run_fold_core_inv sf id _ _ (search_inv_init goal (clamp01 tol) sf)
  · refine run_fold_core_linked sf id
      (fun i m => ∃ t, (seq_triples r1 r2 r3)[i]? = some t ∧
        m = substitute base r1 r2 r3 t.1 t.2.1 t.2.2) _ _ ?_ ?_
    · intro e he
      exact absurd he (List.not_mem_nil e)
    · intro it hit
      rw [List.mem_map] at hit
      obtain ⟨jt, hmem, rfl⟩ := hit
      rw [List.mem_enum_iff_getElem?] at hmem
      refine ⟨jt.2, ?_, rfl⟩
      cases pmax with
      | none => exact hmem
      | some p =>
        have hlen : jt.1 < (List.take p (seq_triples r1 r2 r3)).length := by
          rcases List.getElem?_eq_some_iff.mp hmem with ⟨hh, _⟩
          exact hh
        have hjp : jt.1 < p := lt_of_lt_of_le hlen (by
          rw [List.length_take]
          exact Nat.min_le_left _ _)
        exact (List.getElem?_take_of_lt hjp).symm.trans hmem

/-- The parallel variant's final state additionally links every entry's
index to its matrix: the matrix is the factorial-number-system decode of the
entry's range index, for every chunking. -/
theorem par_state_indexed (sf : KeyMatrix → Nat) (goal : Goal) (tol : F64)
    (pmax capOpt : Option Nat) (base : KeyMatrix) (r1 r2 r3 : Region)
    (chunks : List (List Nat)) :
    ∃ st : SearchState KeyMatrix, search_inv goal (clamp01 tol) sf st ∧
      (∀ e ∈ st.records, e.matrix = par_index_matrix base r1 r2 r3 e.index) ∧
      (permute_and_substitute_parallel sf goal tol pmax capOpt base r1 r2 r3 chunks).2.2 =
        st.records.map (fun e => e.matrix) := by
  refine ⟨_, ?_, ?_, rfl⟩
  · refine foldl_combine_inv _ _ (search_inv_init goal (clamp01 tol) sf) ?_
    intro s hs
    rw [List.mem_map] at hs
    obtain ⟨indices, _, rfl⟩ := hs
    exact chunk_fold_inv sf (par_index_matrix base r1 r2 r3) indices _
      (search_inv_init goal (clamp01 tol) sf)
  · refine foldl_combine_linked
      (fun i m => m = par_index_matrix base r1 r2 r3 i) _ _ ?_ ?_
    · intro e he
      exact absurd he (List.not_mem_nil e)
    · intro s hs
      rw [List.mem_map] at hs
      obtain ⟨indices, _, rfl⟩ := hs
      exact chunk_fold_linked sf (par_index_matrix base r1 r2 r3)
        (fun i m => m = par_index_matrix base r1 r2 r3 i) (fun i => rfl) indices _
        (fun e he => absurd he (List.not_mem_nil e))

/-- C4 (amended): for both variants, any permutation cap, any record cap and
any chunking of the parallel range (hence independent of thread
scheduling), the returned matrix list is the projection of a record list
sorted primarily by score descending (for either goal: best first for Max,
best last for Min) and secondarily by enumeration index ascending; the
entry scores are the scoring function's values on the matrices, and each
entry's index is its actual enumeration index: in a parallel run the matrix
is the decode of that range index, and in a sequential run it is the
substitution of the triple enumerated at that index by the swap-generator
order (so the tie-break order is determined by the real enumeration). -/
theorem c4_output_ordering :
    ∀ (sf : KeyMatrix → Nat) (goal : Goal) (tol : F64)
      (pmax rcap : Option Nat) (par : Bool) (chunks : List (List Nat))
      (base : KeyMatrix) (r1 r2 r3 : Region),
      ∃ entries : List (Entry KeyMatrix),
        List.Pairwise entryLE entries ∧
        (∀ e ∈ entries, e.score = sf e.matrix) ∧
        (par = true → ∀ e ∈ entries,
          e.matrix = par_index_matrix base r1 r2 r3 e.index) ∧
        (par = false → ∀ e ∈ entries,
          ∃ t, (seq_triples r1 r2 r3)[e.index]? = some t ∧
            e.matrix = substitute base r1 r2 r3 t.1 t.2.1 t.2.2) ∧
        (permute_and_substitute sf goal tol pmax rcap par chunks base r1 r2 r3).2.2.1 =
          entries.map (fun e => e.matrix) := by
  intro sf goal tol pmax rcap par chunks base r1 r2 r3
  obtain ⟨st, hinv, hlinkP, hlinkS, heq⟩ :
      ∃ st, search_inv goal (clamp01 tol) sf st ∧
        (par = true → ∀ e ∈ st.records,
          e.matrix = par_index_matrix base r1 r2 r3 e.index) ∧
        (par = false → ∀ e ∈ st.records,
          ∃ t, (seq_triples r1 r2 r3)[e.index]? = some t ∧
            e.matrix = substitute base r1 r2 r3 t.1 t.2.1 t.2.2) ∧
        (if par then
          permute_and_substitute_parallel sf goal tol pmax (rcap.map (· + 1))
            base r1 r2 r3 chunks
         else
          permute_and_substitute_sequential sf goal tol pmax (rcap.map (· + 1))
            base r1 r2 r3).2.2 =
          st.records.map (fun e => e.matrix) := by
    cases par
    · obtain ⟨st, hinv, hlink, heq⟩ :=
        seq_state_indexed sf goal tol pmax (rcap.map (· + 1)) base r1 r2 r3
      exact ⟨st, hinv, fun hc => Bool.noConfusion hc, fun _ => hlink, heq⟩
    · obtain ⟨st, hinv, hlink, heq⟩ :=
        par_state_indexed sf goal tol pmax (rcap.map (· + 1)) base r1 r2 r3 chunks
      exact ⟨st, hinv, fun _ => hlink, fun hc => Bool.noConfusion hc, heq⟩
  obtain ⟨hsort, _, _, hmatch⟩ := hinv
  simp only [permute_and_substitute]
  rw [heq]
  by_cases hc : (match rcap.map (· + 1) with
    | some maxRecords => decide (maxRecords ≤ (st.records.map (fun e => e.matrix)).length)
    | none => false) = true
  · rw [if_pos hc]
    exact ⟨st.records.dropLast,
      List.Pairwise.sublist (List.dropLast_sublist _) hsort,
      fun e he => hmatch e ((List.dropLast_sublist _).subset he),
      fun hp e he => hlinkP hp e ((List.dropLast_sublist _).subset he),
      fun hp e he => hlinkS hp e ((List.dropLast_sublist _).subset he),
      (List.map_dropLast _ _).symm⟩
  · rw [if_neg hc]
    exact ⟨st.records, hsort, hmatch, hlinkP, hlinkS, rfl⟩

end Perky
